import Mathlib

/-!
Buffer pool manager with an LRU-K replacer.

A shallow embedding of `src/buffer/lru_k_replacer.cpp` and
`src/buffer/buffer_pool_manager_instance.cpp`, followed by the properties
established about them.

Conventions of the embedding:

* a member function becomes a function from the object state to
  `Option (result × state)`; `none` stands for a run that does not return
  (a failed `assert` / `BUSTUB_ASSERT`, or an access outside a container);
* `frame_id_t` and `page_id_t` are integers, `-1` is the invalid id;
* the two headers are not part of the sources at hand, so the member
  declarations are taken as follows: the three maps are ordered maps
  (iterated by ascending key), `curr_size_` is a `size_t` (it is what `Size()`
  returns) and wraps modulo `2 ^ 64`, the logical clock `current_timestamp_`
  and the pin counts are unbounded, and the constant `inf` is a parameter.
-/

namespace bustub

abbrev frame_id_t := Int
abbrev page_id_t := Int

/-! ## Ordered maps -/

/-- An ordered map with integer keys, kept as an association list. Iteration
visits the entries from the head of the list. -/
abbrev Map (V : Type) := List (Int × V)

/-- The value stored under key `k` (`m.find(k)`), if any. -/
def Map.find {V : Type} : Map V → Int → Option V
  | [], _ => none
  | (a, b) :: t, k => if k = a then some b else Map.find t k

/-- Removal of key `k` (`m.erase(k)`). -/
def Map.erase {V : Type} : Map V → Int → Map V
  | [], _ => []
  | (a, b) :: t, k => if k = a then Map.erase t k else (a, b) :: Map.erase t k

/-- Assignment `m[k] = v`: overwrites the entry of `k`, or inserts a new
entry at its place in the key order. -/
def Map.assign {V : Type} : Map V → Int → V → Map V
  | [], k, v => [(k, v)]
  | (a, b) :: t, k, v =>
    if k < a then (k, v) :: (a, b) :: t
    else if k = a then (a, v) :: t
    else (a, b) :: Map.assign t k v

/-- The keys of a map, in iteration order. -/
def Map.keys {V : Type} (m : Map V) : List Int := m.map Prod.fst

/-- Number of entries (`m.size()`). -/
def Map.size {V : Type} (m : Map V) : Nat := m.length

/-! ## LRU-K replacer -/

/-- Modulus of `size_t` arithmetic. -/
def SIZE_MOD : Nat := 18446744073709551616

/-- Outcome of `x++` on a `size_t`. -/
def sizeInc (x : Nat) : Nat := (x + 1) % SIZE_MOD

/-- Outcome of `x--` on a `size_t`. -/
def sizeDec (x : Nat) : Nat := (x + (SIZE_MOD - 1)) % SIZE_MOD

/-- The check `(size_t)frame_id < replacer_size_` of the three
`BUSTUB_ASSERT`s (a negative `frame_id` converts to a value above every
replacer size in use). -/
def validFrame (replacer_size_ : Nat) (frame_id : Int) : Prop :=
  0 ≤ frame_id ∧ frame_id < (replacer_size_ : Int)

instance (n : Nat) (f : Int) : Decidable (validFrame n f) := by
  unfold validFrame; infer_instance

/-- State of an `LRUKReplacer`. A history queue is a list, front first. -/
structure LRUKReplacer where
  replacer_size_ : Nat
  k_ : Nat
  accessHistory : Map (List Nat)
  evictablePages : Map Bool
  curr_size_ : Nat
  current_timestamp_ : Nat
deriving DecidableEq

/-- State after `LRUKReplacer(num_frames, k)`. -/
def LRUKReplacer.create (num_frames k : Nat) : LRUKReplacer :=
  { replacer_size_ := num_frames, k_ := k, accessHistory := [], evictablePages := [],
    curr_size_ := 0, current_timestamp_ := 0 }

/-- Embedding of `LRUKReplacer::DeleteFrame`. -/
def LRUKReplacer.DeleteFrame (r : LRUKReplacer) (frame_id : frame_id_t) : LRUKReplacer :=
  { r with accessHistory := Map.erase r.accessHistory frame_id,
           evictablePages := Map.erase r.evictablePages frame_id }

/-- Local variables of the scan in `Evict`, together with `evictablePages`,
which the scan may extend through `operator[]`. -/
structure EvictScan where
  evictablePages : Map Bool
  ans : frame_id_t
  val : Int
  timeS : Int
deriving DecidableEq

/-- The comparison at the end of the loop body of `Evict`
(`if (val < temp) ... else if (temp == val) ...`). -/
def EvictCompare (inf : Int) (sc : EvictScan) (key : frame_id_t) (temp tempS : Int) :
    Option EvictScan :=
  if sc.val < temp then
    some { sc with val := temp, ans := key, timeS := tempS }
  else if temp = sc.val then
    if sc.val = inf then
      if tempS < sc.timeS then
        some { sc with timeS := tempS, ans := key, val := temp }
      else some sc
    else none
  else some sc

/-- One iteration of the loop of `Evict`, on the entry `it` of
`accessHistory`. -/
def EvictVisit (inf : Int) (k_ current_timestamp_ : Nat) (sc : EvictScan)
    (it : frame_id_t × List Nat) : Option EvictScan :=
  match Map.find sc.evictablePages it.1 with
  | none => some { sc with evictablePages := Map.assign sc.evictablePages it.1 false }
  | some false => some sc
  | some true =>
    if it.2.length < k_ then
      match it.2.getLast? with
      | some back => EvictCompare inf sc it.1 inf (back : Int)
      | none => EvictCompare inf sc it.1 inf (-1)
    else
      match it.2.head?, it.2.getLast? with
      | some front, some back =>
        EvictCompare inf sc it.1 ((current_timestamp_ : Int) - (front : Int)) (back : Int)
      | _, _ => none

/-- The loop `for (auto it : accessHistory)` of `Evict`. -/
def EvictLoop (inf : Int) (k_ current_timestamp_ : Nat) :
    List (frame_id_t × List Nat) → EvictScan → Option EvictScan
  | [], sc => some sc
  | it :: rest, sc =>
    match EvictVisit inf k_ current_timestamp_ sc it with
    | none => none
    | some sc1 => EvictLoop inf k_ current_timestamp_ rest sc1

/-- Embedding of `LRUKReplacer::Evict`. The result is `none` for `false`
and `some ans` for `true` with `*frame_id = ans`. -/
def LRUKReplacer.Evict (inf : Int) (r : LRUKReplacer) :
    Option (Option frame_id_t × LRUKReplacer) :=
  if r.curr_size_ = 0 then some (none, r)
  else
    match EvictLoop inf r.k_ r.current_timestamp_ r.accessHistory
        { evictablePages := r.evictablePages, ans := -1, val := -1, timeS := inf + 5 } with
    | none => none
    | some sc =>
      let r1 := { r with evictablePages := sc.evictablePages, curr_size_ := sizeDec r.curr_size_ }
      some (some sc.ans, r1.DeleteFrame sc.ans)

/-- Embedding of `LRUKReplacer::RecordAccess`. -/
def LRUKReplacer.RecordAccess (r : LRUKReplacer) (frame_id : frame_id_t) : Option LRUKReplacer :=
  if validFrame r.replacer_size_ frame_id then
    let now := r.current_timestamp_ + 1
    match Map.find r.accessHistory frame_id with
    | none => some { r with current_timestamp_ := now,
                            accessHistory := Map.assign r.accessHistory frame_id [now] }
    | some q =>
      if q.length = r.k_ then
        match q with
        | [] => none
        | _ :: rest => some { r with current_timestamp_ := now,
                                     accessHistory := Map.assign r.accessHistory frame_id (rest ++ [now]) }
      else some { r with current_timestamp_ := now,
                         accessHistory := Map.assign r.accessHistory frame_id (q ++ [now]) }
  else none

/-- Embedding of `LRUKReplacer::SetEvictable`. -/
def LRUKReplacer.SetEvictable (r : LRUKReplacer) (frame_id : frame_id_t) (set_evictable : Bool) :
    Option LRUKReplacer :=
  if validFrame r.replacer_size_ frame_id then
    let size :=
      match Map.find r.evictablePages frame_id with
      | none => if set_evictable then sizeInc r.curr_size_ else r.curr_size_
      | some old =>
        if old ≠ set_evictable then
          if set_evictable then sizeInc r.curr_size_ else sizeDec r.curr_size_
        else r.curr_size_
    some { r with curr_size_ := size,
                  evictablePages := Map.assign r.evictablePages frame_id set_evictable }
  else none

/-- Embedding of `LRUKReplacer::Remove`. -/
def LRUKReplacer.Remove (r : LRUKReplacer) (frame_id : frame_id_t) : Option LRUKReplacer :=
  if validFrame r.replacer_size_ frame_id then
    match Map.find r.evictablePages frame_id with
    | none => some r
    | some true => some ({ r with curr_size_ := sizeDec r.curr_size_ }.DeleteFrame frame_id)
    | some false => none
  else none

/-- Embedding of `LRUKReplacer::Size`. -/
def LRUKReplacer.Size (r : LRUKReplacer) : Nat := r.curr_size_

/-! ## Disk manager and pages -/

/-- Modelled from the spec: `PAGE_SIZE`, the compile-time size of a page in
bytes, is declared outside the sources at hand; the spec gives 4096. -/
def PAGE_SIZE : Nat := 4096

/-- Modelled from the spec: the sentinel page id of a frame that holds no
page (`INVALID_PAGE_ID`, written `-1` in `ResetPageInfo`). -/
def INVALID_PAGE_ID : page_id_t := -1

/-- A call received by the disk manager. -/
inductive DiskOp where
  | WritePage (page_id : page_id_t) (data : List Nat)
  | ReadPage (page_id : page_id_t)
  | DeallocatePage (page_id : page_id_t)
deriving DecidableEq

/-- Modelled from the spec: the disk manager is an external collaborator
(`read_page / write_page / deallocate`). The disk is a map from page id to
page contents, and `log` lists the calls received so far, oldest first. -/
structure DiskManager where
  store : Map (List Nat)
  log : List DiskOp
deriving DecidableEq

/-- Modelled from the spec: `write_page(page_id, in_buf)` stores the buffer
under `page_id`. -/
def DiskManager.WritePage (d : DiskManager) (page_id : page_id_t) (data : List Nat) :
    DiskManager :=
  { store := Map.assign d.store page_id data, log := d.log ++ [DiskOp.WritePage page_id data] }

/-- Modelled from the spec: `read_page(page_id, out_buf)` yields the stored
contents of `page_id`; a page never written leaves the buffer as it is. -/
def DiskManager.ReadPage (d : DiskManager) (page_id : page_id_t) (buf : List Nat) :
    List Nat × DiskManager :=
  (match Map.find d.store page_id with
   | some data => data
   | none => buf,
   { d with log := d.log ++ [DiskOp.ReadPage page_id] })

/-- Modelled from the spec: `deallocate_page(page_id)` frees the backing
store slot of `page_id`. -/
def DiskManager.DeallocatePage (d : DiskManager) (page_id : page_id_t) : DiskManager :=
  { store := Map.erase d.store page_id, log := d.log ++ [DiskOp.DeallocatePage page_id] }

/-- A frame of the pool (`Page`): the byte buffer and its metadata. -/
structure Page where
  data_ : List Nat
  page_id_ : page_id_t
  pin_count_ : Int
  is_dirty_ : Bool
deriving DecidableEq

/-- The zeroed buffer left by `Page::ResetMemory`. -/
def zeroData : List Nat := List.replicate PAGE_SIZE 0

/-- Modelled from the spec: a frame as constructed at start-up holds no
page (`page_id = none`, `pin_count = 0`, `is_dirty = false`, zeroed data). -/
def Page.blank : Page :=
  { data_ := zeroData, page_id_ := INVALID_PAGE_ID, pin_count_ := 0, is_dirty_ := false }

/-! ## Buffer pool manager -/

/-- State of a `BufferPoolManagerInstance`; `disk_manager_` holds the state
of the disk manager the pool points to. -/
structure BufferPoolManagerInstance where
  pool_size_ : Nat
  pages_ : List Page
  page_to_frame_ : Map frame_id_t
  free_list_ : List frame_id_t
  replacer_ : LRUKReplacer
  next_page_id_ : page_id_t
  disk_manager_ : DiskManager
deriving DecidableEq

/-- State after the constructor: every frame is in the free list, in
increasing order; the allocation counter starts at 0. -/
def BufferPoolManagerInstance.create (pool_size : Nat) (disk_manager : DiskManager)
    (replacer_k : Nat) : BufferPoolManagerInstance :=
  { pool_size_ := pool_size,
    pages_ := List.replicate pool_size Page.blank,
    page_to_frame_ := [],
    free_list_ := List.map Int.ofNat (List.range pool_size),
    replacer_ := LRUKReplacer.create pool_size replacer_k,
    next_page_id_ := 0,
    disk_manager_ := disk_manager }

/-- The frame `pages_[id]`; `none` outside the array. -/
def BufferPoolManagerInstance.frame (s : BufferPoolManagerInstance) (id : Int) :
    Option Page :=
  if 0 ≤ id then s.pages_[id.toNat]? else none

/-- An update `pages_[id] = g(pages_[id])` of one frame; does not return
outside the array. -/
def BufferPoolManagerInstance.modifyFrame (s : BufferPoolManagerInstance) (id : frame_id_t)
    (g : Page → Page) : Option BufferPoolManagerInstance :=
  match s.frame id with
  | none => none
  | some pg => some { s with pages_ := s.pages_.set id.toNat (g pg) }

/-- Embedding of `BufferPoolManagerInstance::RetrieveFreePage`. The result
is the returned status and, for status 0 and 1, the value stored in `*id`. -/
def BufferPoolManagerInstance.RetrieveFreePage (inf : Int) (s : BufferPoolManagerInstance) :
    Option ((Nat × Option frame_id_t) × BufferPoolManagerInstance) :=
  match s.free_list_ with
  | id :: rest => some ((0, some id), { s with free_list_ := rest })
  | [] =>
    match s.replacer_.Evict inf with
    | none => none
    | some (none, r) => some ((2, none), { s with replacer_ := r })
    | some (some id, r) =>
      match s.frame id with
      | none => none
      | some pg =>
        let dm := if pg.is_dirty_ then s.disk_manager_.WritePage pg.page_id_ pg.data_
                  else s.disk_manager_
        some ((1, some id),
              { s with replacer_ := r, disk_manager_ := dm,
                       page_to_frame_ := Map.erase s.page_to_frame_ pg.page_id_ })

/-- Embedding of `BufferPoolManagerInstance::ResetPageInfo`. -/
def BufferPoolManagerInstance.ResetPageInfo (s : BufferPoolManagerInstance) (id : frame_id_t) :
    Option BufferPoolManagerInstance :=
  s.modifyFrame id (fun _ =>
    { data_ := zeroData, page_id_ := -1, pin_count_ := 0, is_dirty_ := false })

/-- Embedding of `BufferPoolManagerInstance::AllocatePage`. -/
def BufferPoolManagerInstance.AllocatePage (s : BufferPoolManagerInstance) :
    page_id_t × BufferPoolManagerInstance :=
  (s.next_page_id_, { s with next_page_id_ := s.next_page_id_ + 1 })

/-- The two replacer calls made on every pin:
`SetEvictable(frame_id, false)` followed by `RecordAccess(frame_id)`. -/
def BufferPoolManagerInstance.touch (s : BufferPoolManagerInstance) (frame_id : frame_id_t) :
    Option BufferPoolManagerInstance :=
  match s.replacer_.SetEvictable frame_id false with
  | none => none
  | some r1 =>
    match r1.RecordAccess frame_id with
    | none => none
    | some r2 => some { s with replacer_ := r2 }

/-- The call `disk_manager_->ReadPage(page_id, pages_[frame_id].data_)`. -/
def BufferPoolManagerInstance.readInto (s : BufferPoolManagerInstance) (page_id : page_id_t)
    (frame_id : frame_id_t) : Option BufferPoolManagerInstance :=
  match s.frame frame_id with
  | none => none
  | some pg =>
    some { s with
      pages_ := s.pages_.set frame_id.toNat
        { pg with data_ := (s.disk_manager_.ReadPage page_id pg.data_).1 },
      disk_manager_ := (s.disk_manager_.ReadPage page_id pg.data_).2 }

/-- Embedding of `BufferPoolManagerInstance::NewPgImp`. The result is `none`
for `nullptr`, else the value stored in `*page_id` and the index of the frame
the returned pointer refers to. -/
def BufferPoolManagerInstance.NewPgImp (inf : Int) (s : BufferPoolManagerInstance) :
    Option (Option (page_id_t × frame_id_t) × BufferPoolManagerInstance) :=
  match s.RetrieveFreePage inf with
  | none => none
  | some ((_, none), s1) => some (none, s1)
  | some ((_, some frame_id), s1) =>
    match s1.ResetPageInfo frame_id with
    | none => none
    | some s2 =>
      match s2.modifyFrame frame_id (fun pg => { pg with pin_count_ := pg.pin_count_ + 1 }) with
      | none => none
      | some s3 =>
        match s3.touch frame_id with
        | none => none
        | some s4 =>
          match s4.AllocatePage.2.modifyFrame frame_id
              (fun pg => { pg with page_id_ := s4.AllocatePage.1 }) with
          | none => none
          | some s5 =>
            some (some (s4.AllocatePage.1, frame_id),
                  { s5 with page_to_frame_ :=
                      Map.assign s5.page_to_frame_ s4.AllocatePage.1 frame_id })

/-- Embedding of `BufferPoolManagerInstance::FetchPgImp`. The result is
`none` for `nullptr`, else the index of the frame the returned pointer
refers to. -/
def BufferPoolManagerInstance.FetchPgImp (inf : Int) (s : BufferPoolManagerInstance)
    (page_id : page_id_t) : Option (Option frame_id_t × BufferPoolManagerInstance) :=
  match Map.find s.page_to_frame_ page_id with
  | some frame_id =>
    match s.modifyFrame frame_id (fun pg => { pg with pin_count_ := pg.pin_count_ + 1 }) with
    | none => none
    | some s1 =>
      match s1.touch frame_id with
      | none => none
      | some s2 => some (some frame_id, s2)
  | none =>
    match s.RetrieveFreePage inf with
    | none => none
    | some ((_, none), s1) => some (none, s1)
    | some ((_, some frame_id), s1) =>
      match s1.ResetPageInfo frame_id with
      | none => none
      | some s2 =>
        match s2.modifyFrame frame_id
            (fun pg => { pg with page_id_ := page_id, pin_count_ := pg.pin_count_ + 1 }) with
        | none => none
        | some s3 =>
          match s3.readInto page_id frame_id with
          | none => none
          | some s4 =>
            match s4.touch frame_id with
            | none => none
            | some s5 =>
              some (some frame_id,
                    { s5 with page_to_frame_ := Map.assign s5.page_to_frame_ page_id frame_id })

/-- Embedding of `BufferPoolManagerInstance::UnpinPgImp`. -/
def BufferPoolManagerInstance.UnpinPgImp (s : BufferPoolManagerInstance) (page_id : page_id_t)
    (is_dirty : Bool) : Option (Bool × BufferPoolManagerInstance) :=
  match Map.find s.page_to_frame_ page_id with
  | some frame_id =>
    match s.frame frame_id with
    | none => none
    | some pg =>
      if pg.pin_count_ = 0 then some (false, s)
      else
        match s.modifyFrame frame_id (fun p => { p with pin_count_ := pg.pin_count_ - 1 }) with
        | none => none
        | some s1 =>
          match (if pg.pin_count_ - 1 = 0 then s1.replacer_.SetEvictable frame_id true
                 else some s1.replacer_) with
          | none => none
          | some r1 =>
            match { s1 with replacer_ := r1 }.modifyFrame frame_id
                (fun p => { p with is_dirty_ := is_dirty }) with
            | none => none
            | some s2 => some (true, s2)
  | none => some (false, s)

/-- Embedding of `BufferPoolManagerInstance::FlushPgImp`. -/
def BufferPoolManagerInstance.FlushPgImp (s : BufferPoolManagerInstance) (page_id : page_id_t) :
    Option (Bool × BufferPoolManagerInstance) :=
  match Map.find s.page_to_frame_ page_id with
  | some frame_id =>
    match s.frame frame_id with
    | none => none
    | some pg =>
      match { s with disk_manager_ :=
                s.disk_manager_.WritePage page_id pg.data_ }.modifyFrame frame_id
          (fun p => { p with is_dirty_ := false }) with
      | none => none
      | some s1 => some (true, s1)
  | none => some (false, s)

/-- The loop of `FlushAllPgsImp`, over the page ids `ids`. -/
def BufferPoolManagerInstance.FlushLoop :
    List page_id_t → BufferPoolManagerInstance → Option BufferPoolManagerInstance
  | [], s => some s
  | page_id :: rest, s =>
    match s.FlushPgImp page_id with
    | none => none
    | some (_, s1) => BufferPoolManagerInstance.FlushLoop rest s1

/-- Embedding of `BufferPoolManagerInstance::FlushAllPgsImp`. -/
def BufferPoolManagerInstance.FlushAllPgsImp (s : BufferPoolManagerInstance) :
    Option BufferPoolManagerInstance :=
  BufferPoolManagerInstance.FlushLoop (Map.keys s.page_to_frame_) s

/-- Modelled from the spec: `DeallocatePage` is declared in the header,
which is not among the sources at hand; it hands the page id back to the
disk manager (`deallocate(page_id)`). -/
def BufferPoolManagerInstance.DeallocatePage (s : BufferPoolManagerInstance)
    (page_id : page_id_t) : BufferPoolManagerInstance :=
  { s with disk_manager_ := s.disk_manager_.DeallocatePage page_id }

/-- Embedding of `BufferPoolManagerInstance::DeletePgImp`. -/
def BufferPoolManagerInstance.DeletePgImp (s : BufferPoolManagerInstance) (page_id : page_id_t) :
    Option (Bool × BufferPoolManagerInstance) :=
  match Map.find s.page_to_frame_ page_id with
  | some frame_id =>
    match s.frame frame_id with
    | none => none
    | some pg =>
      if pg.is_dirty_ = true ∨ pg.pin_count_ ≠ 0 then some (false, s)
      else
        match s.ResetPageInfo frame_id with
        | none => none
        | some s1 =>
          some (true,
            { s1 with free_list_ := s1.free_list_ ++ [frame_id],
                      page_to_frame_ := Map.erase s1.page_to_frame_ page_id }.DeallocatePage
              page_id)
  | none => some (true, s)

/-! ## Call sequences -/

/-- A call made by a client of the pool: one of the six public operations,
or a write of `data` into the buffer of frame `frame_id` through a page
handle obtained earlier. -/
inductive Op where
  | NewPage
  | FetchPage (page_id : page_id_t)
  | UnpinPage (page_id : page_id_t) (is_dirty : Bool)
  | FlushPage (page_id : page_id_t)
  | FlushAllPages
  | DeletePage (page_id : page_id_t)
  | WriteData (frame_id : frame_id_t) (data : List Nat)
deriving DecidableEq

/-- State after one call; `none` when the call does not return. -/
def BufferPoolManagerInstance.step (inf : Int) (s : BufferPoolManagerInstance) :
    Op → Option BufferPoolManagerInstance
  | Op.NewPage => (s.NewPgImp inf).map Prod.snd
  | Op.FetchPage page_id => (s.FetchPgImp inf page_id).map Prod.snd
  | Op.UnpinPage page_id is_dirty => (s.UnpinPgImp page_id is_dirty).map Prod.snd
  | Op.FlushPage page_id => (s.FlushPgImp page_id).map Prod.snd
  | Op.FlushAllPages => s.FlushAllPgsImp
  | Op.DeletePage page_id => (s.DeletePgImp page_id).map Prod.snd
  | Op.WriteData frame_id data => s.modifyFrame frame_id (fun pg => { pg with data_ := data })

/-- State after a sequence of calls, first call first. -/
def BufferPoolManagerInstance.run (inf : Int) :
    List Op → BufferPoolManagerInstance → Option BufferPoolManagerInstance
  | [], s => some s
  | op :: rest, s =>
    match s.step inf op with
    | none => none
    | some s1 => BufferPoolManagerInstance.run inf rest s1

/-- The states a pool of `pool_size` frames with parameter `replacer_k` can
be in between two calls. -/
def Reachable (inf : Int) (pool_size replacer_k : Nat) (disk_manager : DiskManager)
    (s : BufferPoolManagerInstance) : Prop :=
  ∃ ops : List Op,
    BufferPoolManagerInstance.run inf ops
      (BufferPoolManagerInstance.create pool_size disk_manager replacer_k) = some s

/-- The restriction under which a call is made in a disciplined client:
`FetchPage` is only asked for a page id below the allocation counter, that
is, for an id that `NewPage` has handed out. -/
def BufferPoolManagerInstance.admits (s : BufferPoolManagerInstance) : Op → Bool
  | Op.FetchPage page_id => decide (page_id < s.next_page_id_)
  | _ => true

/-- State after a sequence of calls, first call first; `none` when a call
does not return or fetches a page id that was never allocated. -/
def BufferPoolManagerInstance.runAllocated (inf : Int) :
    List Op → BufferPoolManagerInstance → Option BufferPoolManagerInstance
  | [], s => some s
  | op :: rest, s =>
    if s.admits op = true then
      match s.step inf op with
      | none => none
      | some s1 => BufferPoolManagerInstance.runAllocated inf rest s1
    else none

/-- The states a pool can be in between two calls when every `FetchPage` is
for a page id below the allocation counter. -/
def ReachableAllocated (inf : Int) (pool_size replacer_k : Nat) (disk_manager : DiskManager)
    (s : BufferPoolManagerInstance) : Prop :=
  ∃ ops : List Op,
    BufferPoolManagerInstance.runAllocated inf ops
      (BufferPoolManagerInstance.create pool_size disk_manager replacer_k) = some s

/-! ## Call sequences on a replacer -/

/-- A call of the replacer interface. -/
inductive ReplacerOp where
  | RecordAccess (frame_id : frame_id_t)
  | SetEvictable (frame_id : frame_id_t) (set_evictable : Bool)
  | Evict
  | Remove (frame_id : frame_id_t)
deriving DecidableEq

/-- The stated precondition of a call that the code does not check:
`SetEvictable` is only called on a frame that has an access history. -/
def LRUKReplacer.admits (r : LRUKReplacer) : ReplacerOp → Bool
  | ReplacerOp.SetEvictable frame_id _ => (Map.find r.accessHistory frame_id).isSome
  | _ => true

/-- Replacer state after one call; `none` when the call does not return. -/
def LRUKReplacer.step (inf : Int) (r : LRUKReplacer) : ReplacerOp → Option LRUKReplacer
  | ReplacerOp.RecordAccess frame_id => r.RecordAccess frame_id
  | ReplacerOp.SetEvictable frame_id set_evictable => r.SetEvictable frame_id set_evictable
  | ReplacerOp.Evict => (r.Evict inf).map Prod.snd
  | ReplacerOp.Remove frame_id => r.Remove frame_id

/-- Replacer state after a sequence of calls, first call first; `none` when
a call does not return or is made outside its stated precondition. -/
def LRUKReplacer.run (inf : Int) : List ReplacerOp → LRUKReplacer → Option LRUKReplacer
  | [], r => some r
  | op :: rest, r =>
    if r.admits op = true then
      match r.step inf op with
      | none => none
      | some r1 => LRUKReplacer.run inf rest r1
    else none

/-- The states a replacer for `num_frames` frames with parameter `k` can be
in between two calls, when used within the stated preconditions. -/
def LRUKReplacer.Reachable (inf : Int) (num_frames k : Nat) (r : LRUKReplacer) : Prop :=
  ∃ ops : List ReplacerOp, LRUKReplacer.run inf ops (LRUKReplacer.create num_frames k) = some r

/-- The frame is flagged evictable (`evictable[f] = true`). -/
def LRUKReplacer.IsEvictable (r : LRUKReplacer) (f : frame_id_t) : Prop :=
  Map.find r.evictablePages f = some true

instance (r : LRUKReplacer) (f : frame_id_t) : Decidable (r.IsEvictable f) := by
  unfold LRUKReplacer.IsEvictable; infer_instance

/-- The access history of a frame, empty for an untracked frame. -/
def LRUKReplacer.history (r : LRUKReplacer) (f : frame_id_t) : List Nat :=
  (Map.find r.accessHistory f).getD []

/-- The history queue after `RecordAccess` has pushed `now`: the oldest entry
is dropped first when the queue already holds `k_` entries. -/
def pushed (k_ : Nat) (old : Option (List Nat)) (now : Nat) : List Nat :=
  match old with
  | none => [now]
  | some q => if q.length = k_ then q.tail ++ [now] else q ++ [now]

/-- The page `p` is out of the pool and its contents `b` are on disk: `p` is
not in the page table, the disk stores `b` under `p`, and `p` lies below the
allocation counter. -/
def Parked (p : page_id_t) (b : List Nat) (s : BufferPoolManagerInstance) : Prop :=
  Map.find s.page_to_frame_ p = none ∧ Map.find s.disk_manager_.store p = some b ∧
  p < s.next_page_id_

/-- The page `p` sits unpinned in frame `f` with contents `b`, and these
contents are not lost by an eviction: the frame is dirty, or the disk stores
`b` under `p`. -/
def Held (p : page_id_t) (b : List Nat) (f : frame_id_t) (s : BufferPoolManagerInstance) :
    Prop :=
  Map.find s.page_to_frame_ p = some f ∧
  ∃ pg, s.frame f = some pg ∧ pg.data_ = b ∧ pg.pin_count_ = 0 ∧
    (pg.is_dirty_ = true ∨ Map.find s.disk_manager_.store p = some b)

/-- The page `p` is out of the pool, and `p` lies below the allocation
counter. -/
def Gone (p : page_id_t) (s : BufferPoolManagerInstance) : Prop :=
  Map.find s.page_to_frame_ p = none ∧ p < s.next_page_id_

/-! ## Scenarios -/

/-- A disk on which nothing has been written. -/
def emptyDisk : DiskManager := { store := [], log := [] }

/-- A page buffer filled with the byte `v`. -/
def bytes (v : Nat) : List Nat := List.replicate PAGE_SIZE v

/-- The calls of scenario S5 (`N = 7`, `k = 2`): frames 1 to 5 accessed once,
then frames 1 and 2 twice more, then frames 3, 4, 5, 1, 2 set evictable. -/
def scenarioS5 : List ReplacerOp :=
  [ReplacerOp.RecordAccess 1, ReplacerOp.RecordAccess 2, ReplacerOp.RecordAccess 3,
   ReplacerOp.RecordAccess 4, ReplacerOp.RecordAccess 5,
   ReplacerOp.RecordAccess 1, ReplacerOp.RecordAccess 1,
   ReplacerOp.RecordAccess 2, ReplacerOp.RecordAccess 2,
   ReplacerOp.SetEvictable 3 true, ReplacerOp.SetEvictable 4 true,
   ReplacerOp.SetEvictable 5 true, ReplacerOp.SetEvictable 1 true,
   ReplacerOp.SetEvictable 2 true]

/-- The replacer state the calls of scenario S5 lead to. -/
def stateS5 : LRUKReplacer :=
  { replacer_size_ := 7, k_ := 2,
    accessHistory := [(1, [6, 7]), (2, [8, 9]), (3, [3]), (4, [4]), (5, [5])],
    evictablePages := [(1, true), (2, true), (3, true), (4, true), (5, true)],
    curr_size_ := 5, current_timestamp_ := 9 }

/-- The state of a one-frame pool (`k = 2`) after `new_page`: page 0 sits
pinned in frame 0. -/
def statePinned : BufferPoolManagerInstance :=
  { pool_size_ := 1,
    pages_ := [{ data_ := zeroData, page_id_ := 0, pin_count_ := 1, is_dirty_ := false }],
    page_to_frame_ := [(0, 0)],
    free_list_ := [],
    replacer_ := { replacer_size_ := 1, k_ := 2, accessHistory := [(0, [1])],
                   evictablePages := [(0, false)], curr_size_ := 0, current_timestamp_ := 1 },
    next_page_id_ := 1,
    disk_manager_ := emptyDisk }

/-- The state of a one-frame pool (`k = 2`) after `new_page` and
`unpin_page(0, false)`: page 0 sits unpinned in frame 0. -/
def stateUnpinned : BufferPoolManagerInstance :=
  { pool_size_ := 1,
    pages_ := [{ data_ := zeroData, page_id_ := 0, pin_count_ := 0, is_dirty_ := false }],
    page_to_frame_ := [(0, 0)],
    free_list_ := [],
    replacer_ := { replacer_size_ := 1, k_ := 2, accessHistory := [(0, [1])],
                   evictablePages := [(0, true)], curr_size_ := 1, current_timestamp_ := 1 },
    next_page_id_ := 1,
    disk_manager_ := emptyDisk }

/-- The state of a one-frame pool (`k = 2`) after `new_page` and
`fetch_page(0)`: page 0 sits in frame 0 with pin count 2. -/
def stateTwicePinned : BufferPoolManagerInstance :=
  { pool_size_ := 1,
    pages_ := [{ data_ := zeroData, page_id_ := 0, pin_count_ := 2, is_dirty_ := false }],
    page_to_frame_ := [(0, 0)],
    free_list_ := [],
    replacer_ := { replacer_size_ := 1, k_ := 2, accessHistory := [(0, [1, 2])],
                   evictablePages := [(0, false)], curr_size_ := 0, current_timestamp_ := 2 },
    next_page_id_ := 1,
    disk_manager_ := emptyDisk }

/-- The state of a one-frame pool (`k = 2`) after `new_page`,
`unpin_page(0, false)` and `delete_page(0)`: frame 0 is back in the free
list, and the replacer still holds its history and its evictable flag. -/
def stateDeleted : BufferPoolManagerInstance :=
  { pool_size_ := 1,
    pages_ := [{ data_ := zeroData, page_id_ := -1, pin_count_ := 0, is_dirty_ := false }],
    page_to_frame_ := [],
    free_list_ := [0],
    replacer_ := { replacer_size_ := 1, k_ := 2, accessHistory := [(0, [1])],
                   evictablePages := [(0, true)], curr_size_ := 1, current_timestamp_ := 1 },
    next_page_id_ := 1,
    disk_manager_ := { store := [], log := [DiskOp.DeallocatePage 0] } }

/-- The state of a two-frame pool (`k = 2`) after `fetch_page(0)` followed
by `new_page`: both frames hold page id 0, the page table has one entry. -/
def stateDuplicate : BufferPoolManagerInstance :=
  { pool_size_ := 2,
    pages_ := [{ data_ := zeroData, page_id_ := 0, pin_count_ := 1, is_dirty_ := false },
               { data_ := zeroData, page_id_ := 0, pin_count_ := 1, is_dirty_ := false }],
    page_to_frame_ := [(0, 1)],
    free_list_ := [],
    replacer_ := { replacer_size_ := 2, k_ := 2, accessHistory := [(0, [1]), (1, [2])],
                   evictablePages := [(0, false), (1, false)], curr_size_ := 0,
                   current_timestamp_ := 2 },
    next_page_id_ := 1,
    disk_manager_ := { store := [], log := [DiskOp.ReadPage 0] } }

/-- Calls on a two-frame pool that exercise every public operation: two
pages are created and released, a third `new_page` evicts page 0, which is
then fetched back (evicting page 1), released, deleted, and the pool is
flushed. -/
def opsChurn : List Op :=
  [Op.NewPage, Op.NewPage, Op.UnpinPage 0 true, Op.UnpinPage 1 false, Op.NewPage,
   Op.FetchPage 0, Op.UnpinPage 0 false, Op.DeletePage 0, Op.FlushAllPages]

/-- Calls of scenario S3 on a one-frame pool: `new_page` hands out page 0,
the client fills it with the byte 7 and releases it dirty. -/
def opsS3 : List Op :=
  [Op.NewPage, Op.WriteData 0 (bytes 7), Op.UnpinPage 0 true]

/-- The state the calls of `opsS3` lead to (`N = 1`, `k = 1`). -/
def stateS3 : BufferPoolManagerInstance :=
  { pool_size_ := 1,
    pages_ := [{ data_ := bytes 7, page_id_ := 0, pin_count_ := 0, is_dirty_ := true }],
    page_to_frame_ := [(0, 0)],
    free_list_ := [],
    replacer_ := { replacer_size_ := 1, k_ := 1, accessHistory := [(0, [1])],
                   evictablePages := [(0, true)], curr_size_ := 1, current_timestamp_ := 1 },
    next_page_id_ := 1,
    disk_manager_ := emptyDisk }

/-- The state of a one-frame pool (`k = 1`) after `new_page` and a write of
the byte 7 into the page: page 0 sits pinned in frame 0. -/
def stateWritten : BufferPoolManagerInstance :=
  { pool_size_ := 1,
    pages_ := [{ data_ := bytes 7, page_id_ := 0, pin_count_ := 1, is_dirty_ := false }],
    page_to_frame_ := [(0, 0)],
    free_list_ := [],
    replacer_ := { replacer_size_ := 1, k_ := 1, accessHistory := [(0, [1])],
                   evictablePages := [(0, false)], curr_size_ := 0, current_timestamp_ := 1 },
    next_page_id_ := 1,
    disk_manager_ := emptyDisk }

/-- Calls on a two-frame pool that make both frames hold page id 0:
`fetch_page(0)` is asked before any page is allocated and its frame is
released dirty, then `new_page` hands out id 0 for the other frame, the
client fills it with the byte 7 and releases it dirty. -/
def opsTwoCopies : List Op :=
  [Op.FetchPage 0, Op.UnpinPage 0 true, Op.FetchPage 0, Op.UnpinPage 0 true,
   Op.NewPage, Op.WriteData 1 (bytes 7), Op.UnpinPage 0 true]

/-! ## Invariants -/

/-- Keys strictly increase along the list: the representation invariant of
an ordered map. -/
def Map.Sorted {V : Type} (m : Map V) : Prop := List.Pairwise (fun a b => a.1 < b.1) m

/-- Number of frames flagged evictable in an `evictablePages` map. -/
def evictableCount (m : Map Bool) : Nat := (m.filter (fun e => e.2)).length

/-- Well-formedness of a replacer state: the maps are ordered maps over valid
frame ids, a frame flagged evictable has an access history, every history is a
non-empty strictly increasing list of past clock values (of at most `k_`
entries when `k_ ≥ 1`), no timestamp occurs in two histories, and `curr_size_`
is the number of frames flagged evictable, as a `size_t`. -/
structure LRUKReplacer.Inv (r : LRUKReplacer) : Prop where
  sortedHistory : Map.Sorted r.accessHistory
  sortedEvictable : Map.Sorted r.evictablePages
  validHistory : ∀ f, (Map.find r.accessHistory f).isSome → validFrame r.replacer_size_ f
  validEvictable : ∀ f, (Map.find r.evictablePages f).isSome → validFrame r.replacer_size_ f
  tracked : ∀ f, Map.find r.evictablePages f = some true → (Map.find r.accessHistory f).isSome
  stamps : ∀ f q, Map.find r.accessHistory f = some q →
    q ≠ [] ∧ List.Pairwise (fun a b => a < b) q ∧
    (∀ t ∈ q, 1 ≤ t ∧ t ≤ r.current_timestamp_) ∧ (1 ≤ r.k_ → q.length ≤ r.k_)
  distinct : ∀ f g q1 q2 t, Map.find r.accessHistory f = some q1 →
    Map.find r.accessHistory g = some q2 → t ∈ q1 → t ∈ q2 → f = g
  size : r.curr_size_ = evictableCount r.evictablePages % SIZE_MOD

/-- Well-formedness of a pool state in which the frame `h`, if any, is being
reassigned (it is in neither the free list nor the page table): sizes agree,
the replacer is well-formed, every page-table entry `p ↦ f` points to a
tracked frame holding `p`, free frames are distinct, reset and outside the
page table, pin counts are non-negative and a frame flagged evictable has pin
count 0. -/
structure BufferPoolManagerInstance.InvHole (s : BufferPoolManagerInstance)
    (h : Option frame_id_t) : Prop where
  size : s.pages_.length = s.pool_size_
  replacerSize : s.replacer_.replacer_size_ = s.pool_size_
  replacer : s.replacer_.Inv
  tableSorted : Map.Sorted s.page_to_frame_
  table : ∀ p f, Map.find s.page_to_frame_ p = some f →
    some f ≠ h ∧ (Map.find s.replacer_.accessHistory f).isSome ∧
    ∃ pg, s.frame f = some pg ∧ pg.page_id_ = p
  free : ∀ f ∈ s.free_list_,
    some f ≠ h ∧ (∀ p, Map.find s.page_to_frame_ p ≠ some f) ∧
    ∃ pg, s.frame f = some pg ∧ pg.page_id_ = -1 ∧ pg.pin_count_ = 0 ∧ pg.is_dirty_ = false
  freeNodup : s.free_list_.Nodup
  pins : ∀ f pg, s.frame f = some pg → some f ≠ h →
    0 ≤ pg.pin_count_ ∧
    (Map.find s.replacer_.evictablePages f = some true → pg.pin_count_ = 0)
  hole : ∀ f, h = some f → (s.frame f).isSome

/-- Well-formedness of a pool state between two calls. -/
def BufferPoolManagerInstance.Inv (s : BufferPoolManagerInstance) : Prop := s.InvHole none

/-- What holds in addition when only allocated page ids are fetched, `h`
being the frame under reassignment, if any: every frame is `h`, in the free
list or in the page table; the page ids in the page table lie below the
allocation counter; and the free list and the page table together account
for all frames. -/
structure BufferPoolManagerInstance.Tight (s : BufferPoolManagerInstance)
    (h : Option frame_id_t) : Prop where
  cover : ∀ f, validFrame s.pages_.length f →
    some f = h ∨ f ∈ s.free_list_ ∨ ∃ p, Map.find s.page_to_frame_ p = some f
  fresh : ∀ p f, Map.find s.page_to_frame_ p = some f → p < s.next_page_id_
  count : s.free_list_.length + Map.size s.page_to_frame_ + (if h.isSome then 1 else 0)
    = s.pool_size_

/-! ## Effects of the calls, as used in the proofs -/

/-- The value `temp` that the loop of `Evict` computes for a history `q`. -/
def scanTemp (inf : Int) (k_ current_timestamp_ : Nat) (q : List Nat) : Int :=
  if q.length < k_ then inf else (current_timestamp_ : Int) - ((q.head?.getD 0 : Nat) : Int)

/-- The value `tempS` that the loop of `Evict` computes for a history `q`. -/
def scanTempS (q : List Nat) : Int :=
  match q.getLast? with
  | some back => (back : Int)
  | none => -1

/-- What the loop of `Evict` has computed once the entries `seen` of
`accessHistory` are visited, `ev0` being `evictablePages` at loop entry:
`evictablePages` has gained a `false` entry for every visited key it lacked,
and `ans` is the best evictable frame so far, by larger `temp`, then by
smaller `tempS`. -/
def ScanInv (inf : Int) (k_ current_timestamp_ : Nat) (ev0 : Map Bool)
    (seen : List (frame_id_t × List Nat)) (sc : EvictScan) : Prop :=
  (∀ g, Map.find sc.evictablePages g =
      match Map.find ev0 g with
      | some b => some b
      | none => if g ∈ Map.keys seen then some false else none) ∧
  Map.Sorted sc.evictablePages ∧
  evictableCount sc.evictablePages = evictableCount ev0 ∧
  (((∀ e ∈ seen, Map.find ev0 e.1 ≠ some true) ∧ sc.ans = -1 ∧ sc.val = -1) ∨
   (∃ e ∈ seen, Map.find ev0 e.1 = some true ∧ sc.ans = e.1 ∧
      sc.val = scanTemp inf k_ current_timestamp_ e.2 ∧ sc.timeS = scanTempS e.2 ∧
      ∀ e1 ∈ seen, Map.find ev0 e1.1 = some true →
        scanTemp inf k_ current_timestamp_ e1.2 < sc.val ∨
        (scanTemp inf k_ current_timestamp_ e1.2 = sc.val ∧ sc.timeS ≤ scanTempS e1.2)))

/-- Two entries of `accessHistory` never make the `assert(val == inf)` of
`Evict` fail: when both are evictable and get the same `temp`, that value is
`inf`. -/
def NoTie (inf : Int) (k_ current_timestamp_ : Nat) (ev0 : Map Bool)
    (e1 e2 : frame_id_t × List Nat) : Prop :=
  Map.find ev0 e1.1 = some true → Map.find ev0 e2.1 = some true →
    scanTemp inf k_ current_timestamp_ e1.2 = scanTemp inf k_ current_timestamp_ e2.2 →
    scanTemp inf k_ current_timestamp_ e2.2 = inf

/-- Effect on the replacer `r` of the two calls `SetEvictable(f, false)` and
`RecordAccess(f)`, leading to `r2`. -/
structure Touched (r : LRUKReplacer) (f : frame_id_t) (r2 : LRUKReplacer) : Prop where
  inv : r2.Inv
  size : r2.replacer_size_ = r.replacer_size_
  k : r2.k_ = r.k_
  clock : r2.current_timestamp_ = r.current_timestamp_ + 1
  curr : r2.curr_size_ =
    if Map.find r.evictablePages f = some true then sizeDec r.curr_size_ else r.curr_size_
  evSelf : Map.find r2.evictablePages f = some false
  evOther : ∀ g, g ≠ f → Map.find r2.evictablePages g = Map.find r.evictablePages g
  histSelf : Map.find r2.accessHistory f =
    some (pushed r.k_ (Map.find r.accessHistory f) (r.current_timestamp_ + 1))
  histOther : ∀ g, g ≠ f → Map.find r2.accessHistory g = Map.find r.accessHistory g

/-- Effect on the replacer `r` of a call of `Evict` that returns the frame
`v`, leading to `r1`: the entries of `v` are gone from both maps, and every
other frame that has a history but no `evictablePages` entry has gained a
`false` entry. -/
structure Evicted (r : LRUKReplacer) (v : frame_id_t) (r1 : LRUKReplacer) : Prop where
  inv : r1.Inv
  size : r1.replacer_size_ = r.replacer_size_
  k : r1.k_ = r.k_
  clock : r1.current_timestamp_ = r.current_timestamp_
  curr : r1.curr_size_ = sizeDec r.curr_size_
  hist : ∀ g, Map.find r1.accessHistory g = if g = v then none else Map.find r.accessHistory g
  ev : ∀ g, Map.find r1.evictablePages g =
    if g = v then none
    else match Map.find r.evictablePages g with
      | some b => some b
      | none => if (Map.find r.accessHistory g).isSome then some false else none

/-- Outcome of a call of `RetrieveFreePage` on `s` that returns status `st`
and the frame `f`, leading to `s1`: either `f` was the front of the free list
(status 0), or the free list was empty and `f` is the victim chosen by the
replacer, an evictable frame with pin count 0 whose contents were written to
disk if dirty and whose page left the page table (status 1). -/
def Acquired (inf : Int) (s : BufferPoolManagerInstance) (st : Nat) (f : frame_id_t)
    (s1 : BufferPoolManagerInstance) : Prop :=
  (st = 0 ∧ ∃ rest, s.free_list_ = f :: rest ∧ s1 = { s with free_list_ := rest }) ∨
  (st = 1 ∧ s.free_list_ = [] ∧ s.replacer_.curr_size_ ≠ 0 ∧
    ∃ pg r1, s.frame f = some pg ∧ pg.pin_count_ = 0 ∧ s.replacer_.IsEvictable f ∧
      s.replacer_.Evict inf = some (some f, r1) ∧ Evicted s.replacer_ f r1 ∧
      s1 = { s with replacer_ := r1,
                    disk_manager_ := if pg.is_dirty_ = true
                      then s.disk_manager_.WritePage pg.page_id_ pg.data_
                      else s.disk_manager_,
                    page_to_frame_ := Map.erase s.page_to_frame_ pg.page_id_ })

/-! ## Evictable frames -/

/-- What holds of the page table besides well-formedness: a frame with pin
count 0 that the page table maps a page to is flagged evictable. -/
def BufferPoolManagerInstance.Idle (s : BufferPoolManagerInstance) : Prop :=
  ∀ p f pg, Map.find s.page_to_frame_ p = some f → s.frame f = some pg →
    pg.pin_count_ = 0 → Map.find s.replacer_.evictablePages f = some true

/-- Number of frames `f` in `[0, replacer_size_)` with `evictable[f] = true`. -/
def LRUKReplacer.evictableFrames (r : LRUKReplacer) : Nat :=
  (List.range r.replacer_size_).countP (fun i => decide (r.IsEvictable (Int.ofNat i)))

/-! ## The log of accesses kept beside a replacer

The log is not a member of `LRUKReplacer`. It follows the wording of the spec
(the accesses of a frame since it was last untracked) and is what the
histories of the code are compared with. -/

/-- The most recent `min k |l|` entries of a list of timestamps kept oldest
first. -/
def lastN (k : Nat) (l : List Nat) : List Nat := l.drop (l.length - k)

/-- The timestamps an access log holds for frame `f`: those of all accesses
to `f` since `f` was last untracked, oldest first. -/
def accessesOf (log : Map (List Nat)) (f : frame_id_t) : List Nat := (Map.find log f).getD []

/-- The access log after one call on the replacer `r`: `RecordAccess(f)` adds
the new clock value to the accesses of `f`, and a call that untracks a frame
(an `Evict` that returns it, or a `Remove` of an evictable frame) forgets the
accesses of that frame. -/
def LRUKReplacer.logStep (inf : Int) (r : LRUKReplacer) (log : Map (List Nat)) :
    ReplacerOp → Map (List Nat)
  | ReplacerOp.RecordAccess f => Map.assign log f (accessesOf log f ++ [r.current_timestamp_ + 1])
  | ReplacerOp.SetEvictable _ _ => log
  | ReplacerOp.Evict =>
    match r.Evict inf with
    | some (some v, _) => Map.erase log v
    | _ => log
  | ReplacerOp.Remove f => if r.IsEvictable f then Map.erase log f else log

/-- Replacer state and access log after a sequence of calls, first call
first; `none` when a call does not return or is made outside its stated
precondition. -/
def LRUKReplacer.runLogged (inf : Int) :
    List ReplacerOp → LRUKReplacer → Map (List Nat) → Option (LRUKReplacer × Map (List Nat))
  | [], r, log => some (r, log)
  | op :: rest, r, log =>
    if r.admits op = true then
      match r.step inf op with
      | none => none
      | some r1 => LRUKReplacer.runLogged inf rest r1 (r.logStep inf log op)
    else none

/-- The replacer states reachable within the stated preconditions, each with
the log of the accesses made on the way. -/
def LRUKReplacer.ReachableLogged (inf : Int) (num_frames k : Nat) (r : LRUKReplacer)
    (log : Map (List Nat)) : Prop :=
  ∃ ops : List ReplacerOp,
    LRUKReplacer.runLogged inf ops (LRUKReplacer.create num_frames k) [] = some (r, log)

/-- The histories are what the access log prescribes: for every frame, the
most recent `k_` of the accesses logged for it. -/
def LRUKReplacer.Logged (r : LRUKReplacer) (log : Map (List Nat)) : Prop :=
  ∀ f, r.history f = lastN r.k_ (accessesOf log f)
/-! ## Further scenarios -/

/-- Three accesses on a fresh replacer (`N = 7`, `k = 2`): frame 1 twice,
then frame 2. -/
def opsAccesses : List ReplacerOp :=
  [ReplacerOp.RecordAccess 1, ReplacerOp.RecordAccess 1, ReplacerOp.RecordAccess 2]

/-- The replacer state the calls of `opsAccesses` lead to. -/
def stateAccesses : LRUKReplacer :=
  { replacer_size_ := 7, k_ := 2, accessHistory := [(1, [1, 2]), (2, [3])],
    evictablePages := [], curr_size_ := 0, current_timestamp_ := 3 }

/-- Calls on a fresh replacer with `N = 2`, `k = 2`: frames 0 and 1 are
accessed once each and frame 1 is set evictable; frame 0 is left without an
`evictablePages` entry. -/
def opsScan : List ReplacerOp :=
  [ReplacerOp.RecordAccess 0, ReplacerOp.RecordAccess 1, ReplacerOp.SetEvictable 1 true]

/-- The replacer state the calls of `opsScan` lead to. -/
def stateScan : LRUKReplacer :=
  { replacer_size_ := 2, k_ := 2, accessHistory := [(0, [1]), (1, [2])],
    evictablePages := [(1, true)], curr_size_ := 1, current_timestamp_ := 2 }

/-- The replacer state after `Evict` on `stateScan`: frame 1 is gone, and
frame 0 has got the entry `evictable[0] = false`. -/
def stateScanned : LRUKReplacer :=
  { replacer_size_ := 2, k_ := 2, accessHistory := [(0, [1])],
    evictablePages := [(0, false)], curr_size_ := 0, current_timestamp_ := 2 }

/-! # Properties -/

/-! ## Facts about ordered maps -/

theorem Map.find_assign {V : Type} (m : Map V) (k j : Int) (v : V) :
    Map.find (Map.assign m k v) j = if j = k then some v else Map.find m j := by
  induction m with
  | nil => simp [Map.assign, Map.find]
  | cons e t ih =>
    obtain ⟨a, b⟩ := e
    simp only [Map.assign]
    by_cases h1 : k < a
    · simp only [h1, if_true, Map.find]
    · by_cases h2 : k = a
      · subst h2
        simp only [h1, if_false, if_true, Map.find]
        by_cases h3 : j = k <;> simp [h3]
      · simp only [h1, h2, if_false, Map.find, ih]
        by_cases h3 : j = a
        · have : j ≠ k := fun h => h2 (h ▸ h3)
          simp [h3, Ne.symm h2]
        · simp [h3]

theorem Map.find_erase {V : Type} (m : Map V) (k j : Int) :
    Map.find (Map.erase m k) j = if j = k then none else Map.find m j := by
  induction m with
  | nil => simp [Map.erase, Map.find]
  | cons e t ih =>
    obtain ⟨a, b⟩ := e
    simp only [Map.erase]
    by_cases h2 : k = a
    · subst h2
      simp only [if_true, ih, Map.find]
      by_cases h3 : j = k <;> simp [h3]
    · simp only [h2, if_false, Map.find, ih]
      by_cases h3 : j = a
      · simp [h3, Ne.symm h2]
      · simp [h3]

theorem Map.find_some_mem {V : Type} (m : Map V) (k : Int) (v : V)
    (h : Map.find m k = some v) : (k, v) ∈ m := by
  induction m with
  | nil => simp [Map.find] at h
  | cons e t ih =>
    obtain ⟨a, b⟩ := e
    simp only [Map.find] at h
    by_cases h1 : k = a
    · simp only [h1, if_true, Option.some.injEq] at h
      simp [h1, h]
    · simp only [h1, if_false] at h
      exact List.mem_cons_of_mem _ (ih h)

theorem Map.find_none_iff {V : Type} (m : Map V) (k : Int) :
    Map.find m k = none ↔ k ∉ Map.keys m := by
  induction m with
  | nil => simp [Map.find, Map.keys]
  | cons e t ih =>
    obtain ⟨a, b⟩ := e
    simp only [Map.find, Map.keys, List.map_cons, List.mem_cons, not_or]
    by_cases h1 : k = a
    · simp [h1]
    · simp only [h1, if_false, not_false_eq_true, true_and]
      exact ih

theorem Map.find_tail_none {V : Type} (a : Int) (b : V) (t : Map V)
    (hs : Map.Sorted ((a, b) :: t)) (k : Int) (hk : k ≤ a) : Map.find t k = none := by
  rw [Map.find_none_iff]
  intro hmem
  obtain ⟨e, he, hek⟩ := List.mem_map.mp hmem
  have h1 : a < e.1 := (List.pairwise_cons.mp hs).1 e he
  omega

theorem Map.mem_find_of_sorted {V : Type} (m : Map V) (hs : Map.Sorted m) (k : Int) (v : V)
    (h : (k, v) ∈ m) : Map.find m k = some v := by
  induction m with
  | nil => simp at h
  | cons e t ih =>
    obtain ⟨a, b⟩ := e
    have hs1 := List.pairwise_cons.mp hs
    simp only [Map.find]
    rcases List.mem_cons.mp h with h1 | h1
    · simp only [Prod.mk.injEq] at h1
      simp [h1.1, h1.2]
    · have hlt : a < k := hs1.1 (k, v) h1
      have : k ≠ a := by omega
      simp only [this, if_false]
      exact ih hs1.2 h1

theorem Map.sorted_erase {V : Type} (m : Map V) (k : Int) (hs : Map.Sorted m) :
    Map.Sorted (Map.erase m k) := by
  induction m with
  | nil => simpa [Map.erase] using hs
  | cons e t ih =>
    obtain ⟨a, b⟩ := e
    have hs1 := List.pairwise_cons.mp hs
    simp only [Map.erase]
    by_cases h1 : k = a
    · simp only [h1, if_true]
      exact h1 ▸ ih hs1.2
    · simp only [h1, if_false]
      refine List.pairwise_cons.mpr ⟨?_, ih hs1.2⟩
      intro e he
      have hk : Map.find (Map.erase t k) e.1 = some e.2 :=
        Map.mem_find_of_sorted _ (ih hs1.2) e.1 e.2 he
      rw [Map.find_erase] at hk
      by_cases h2 : e.1 = k
      · simp [h2] at hk
      · simp only [h2, if_false] at hk
        exact hs1.1 e (Map.find_some_mem t e.1 e.2 hk)

theorem Map.sorted_assign {V : Type} (m : Map V) (k : Int) (v : V) (hs : Map.Sorted m) :
    Map.Sorted (Map.assign m k v) := by
  induction m with
  | nil => simp [Map.assign, Map.Sorted]
  | cons e t ih =>
    obtain ⟨a, b⟩ := e
    have hs1 := List.pairwise_cons.mp hs
    simp only [Map.assign]
    by_cases h1 : k < a
    · simp only [h1, if_true]
      refine List.pairwise_cons.mpr ⟨?_, hs⟩
      intro e he
      rcases List.mem_cons.mp he with h2 | h2
      · simpa [h2] using h1
      · have h3 : a < e.1 := hs1.1 e h2
        show k < e.1
        omega
    · by_cases h2 : k = a
      · simp only [h1, h2, if_false, if_true]
        rw [if_neg (by omega)]
        exact List.pairwise_cons.mpr ⟨hs1.1, hs1.2⟩
      · simp only [h1, h2, if_false]
        refine List.pairwise_cons.mpr ⟨?_, ih hs1.2⟩
        intro e he
        have hk : Map.find (Map.assign t k v) e.1 = some e.2 :=
          Map.mem_find_of_sorted _ (ih hs1.2) e.1 e.2 he
        rw [Map.find_assign] at hk
        by_cases h3 : e.1 = k
        · show a < e.1
          omega
        · simp only [h3, if_false] at hk
          exact hs1.1 e (Map.find_some_mem t e.1 e.2 hk)

theorem Map.size_erase {V : Type} (m : Map V) (k : Int) (hs : Map.Sorted m) :
    Map.size (Map.erase m k) + (if (Map.find m k).isSome then 1 else 0) = Map.size m := by
  induction m with
  | nil => simp [Map.erase, Map.find, Map.size]
  | cons e t ih =>
    obtain ⟨a, b⟩ := e
    have hs1 := List.pairwise_cons.mp hs
    have ih1 := ih hs1.2
    simp only [Map.erase, Map.find, Map.size] at ih1 ⊢
    by_cases h1 : k = a
    · have hn : Map.find t k = none := Map.find_tail_none a b t hs k (by omega)
      simp only [hn, Option.isSome_none] at ih1
      simp only [h1, if_true, Option.isSome_some, List.length_cons]
      rw [← h1]
      simpa using ih1
    · simp only [h1, if_false, List.length_cons]
      omega

theorem Map.size_assign {V : Type} (m : Map V) (k : Int) (v : V) (hs : Map.Sorted m) :
    Map.size (Map.assign m k v) = Map.size m + (if (Map.find m k).isSome then 0 else 1) := by
  induction m with
  | nil => simp [Map.assign, Map.find, Map.size]
  | cons e t ih =>
    obtain ⟨a, b⟩ := e
    have hs1 := List.pairwise_cons.mp hs
    have ih1 := ih hs1.2
    simp only [Map.assign, Map.find, Map.size] at ih1 ⊢
    by_cases h1 : k < a
    · have hka : k ≠ a := by omega
      have hn : Map.find t k = none := Map.find_tail_none a b t hs k (by omega)
      simp [h1, hka, hn]
    · by_cases h2 : k = a
      · simp [h2]
      · simp only [h1, h2, if_false, List.length_cons, ih1]
        omega

theorem evictableCount_cons (a : Int) (b : Bool) (t : Map Bool) :
    evictableCount ((a, b) :: t) = (if b = true then 1 else 0) + evictableCount t := by
  cases b <;> simp [evictableCount, List.filter_cons] ; omega

theorem evictableCount_erase (m : Map Bool) (k : Int) (hs : Map.Sorted m) :
    evictableCount (Map.erase m k) + (if Map.find m k = some true then 1 else 0)
      = evictableCount m := by
  induction m with
  | nil => simp [Map.erase, Map.find, evictableCount]
  | cons e t ih =>
    obtain ⟨a, b⟩ := e
    have hs1 := List.pairwise_cons.mp hs
    have ih1 := ih hs1.2
    simp only [Map.erase, Map.find]
    by_cases h1 : k = a
    · have hn : Map.find t k = none := Map.find_tail_none a b t hs k (by omega)
      simp only [hn] at ih1
      simp only [h1, if_true, evictableCount_cons]
      rw [← h1]
      cases b <;> simp at ih1 ⊢ <;> omega
    · simp only [h1, if_false, evictableCount_cons]
      omega

theorem evictableCount_assign (m : Map Bool) (k : Int) (v : Bool) (hs : Map.Sorted m) :
    evictableCount (Map.assign m k v) + (if Map.find m k = some true then 1 else 0)
      = evictableCount m + (if v = true then 1 else 0) := by
  induction m with
  | nil => cases v <;> simp [Map.assign, Map.find, evictableCount]
  | cons e t ih =>
    obtain ⟨a, b⟩ := e
    have hs1 := List.pairwise_cons.mp hs
    have ih1 := ih hs1.2
    simp only [Map.assign, Map.find]
    by_cases h1 : k < a
    · have hka : k ≠ a := by omega
      have hn : Map.find t k = none := Map.find_tail_none a b t hs k (by omega)
      simp only [h1, hka, hn, if_true, if_false, evictableCount_cons]
      simp
      omega
    · by_cases h2 : k = a
      · simp only [h2, lt_self_iff_false, if_false, if_true, evictableCount_cons]
        cases b <;> simp <;> omega
      · simp only [h1, h2, if_false, evictableCount_cons]
        omega

theorem evictableCount_ne_zero_iff (m : Map Bool) (hs : Map.Sorted m) :
    evictableCount m ≠ 0 ↔ ∃ f, Map.find m f = some true := by
  induction m with
  | nil => simp [evictableCount, Map.find]
  | cons e t ih =>
    obtain ⟨a, b⟩ := e
    rw [evictableCount_cons]
    cases b
    · simp only [Bool.false_eq_true, if_false, Nat.zero_add, ih (List.pairwise_cons.mp hs).2]
      constructor
      · rintro ⟨f, hf⟩
        refine ⟨f, ?_⟩
        have hfa : f ≠ a := by
          intro h
          rw [Map.find_tail_none a false t hs f (by omega)] at hf
          simp at hf
        simp [Map.find, hfa, hf]
      · rintro ⟨f, hf⟩
        simp only [Map.find] at hf
        by_cases h : f = a
        · simp [h] at hf
        · simp only [h, if_false] at hf
          exact ⟨f, hf⟩
    · constructor
      · intro _
        exact ⟨a, by simp [Map.find]⟩
      · intro _
        simp

/-! ## The scan of `Evict` -/

theorem EvictVisit_candidate (inf : Int) (k_ clock : Nat) (sc : EvictScan) (f : frame_id_t)
    (q : List Nat) (hq : q ≠ []) (hf : Map.find sc.evictablePages f = some true) :
    EvictVisit inf k_ clock sc (f, q) =
      EvictCompare inf sc f (scanTemp inf k_ clock q) (scanTempS q) := by
  obtain ⟨front, hfront⟩ : ∃ a, q.head? = some a := by
    cases q with
    | nil => exact absurd rfl hq
    | cons a t => exact ⟨a, rfl⟩
  obtain ⟨back, hback⟩ : ∃ a, q.getLast? = some a := by
    cases h : q.getLast? with
    | none => exact absurd (List.getLast?_eq_none_iff.mp h) hq
    | some a => exact ⟨a, rfl⟩
  simp only [EvictVisit, hf, scanTemp, scanTempS, hfront, hback, Option.getD_some]
  split_ifs <;> rfl

theorem ScanInv_visit (inf : Int) (k_ clock : Nat) (ev0 : Map Bool)
    (seen : List (frame_id_t × List Nat)) (sc : EvictScan) (e : frame_id_t × List Nat)
    (hinv : ScanInv inf k_ clock ev0 seen sc) (hq : e.2 ≠ [])
    (hpos : 0 ≤ scanTemp inf k_ clock e.2)
    (htie : ∀ e1 ∈ seen, NoTie inf k_ clock ev0 e1 e) :
    ∃ sc1, EvictVisit inf k_ clock sc e = some sc1 ∧
      ScanInv inf k_ clock ev0 (seen ++ [e]) sc1 := by
  obtain ⟨hchar, hsorted, hcount, hbest⟩ := hinv
  obtain ⟨f, q⟩ := e
  simp only at hq hpos
  have hkeys : ∀ g, g ∈ Map.keys (seen ++ [(f, q)]) ↔ g ∈ Map.keys seen ∨ g = f := by
    intro g; simp [Map.keys]
  have hcf := hchar f
  cases hfind : Map.find sc.evictablePages f with
  | none =>
    -- `evictablePages[f]` inserts a `false` entry
    rw [hfind] at hcf
    have h0 : Map.find ev0 f = none ∧ f ∉ Map.keys seen := by
      cases h : Map.find ev0 f with
      | some b => rw [h] at hcf; simp at hcf
      | none =>
        rw [h] at hcf
        by_cases hm : f ∈ Map.keys seen
        · simp [hm] at hcf
        · exact ⟨rfl, hm⟩
    refine ⟨{ sc with evictablePages := Map.assign sc.evictablePages f false }, ?_, ?_, ?_, ?_, ?_⟩
    · simp [EvictVisit, hfind]
    · intro g
      simp only [Map.find_assign, hkeys]
      by_cases hg : g = f
      · subst hg; simp [h0.1]
      · simp only [hg, if_false, or_false]; exact hchar g
    · exact Map.sorted_assign _ _ _ hsorted
    · have := evictableCount_assign sc.evictablePages f false hsorted
      simp only [hfind] at this
      simp at this
      simp only [this, hcount]
    · rcases hbest with ⟨hnone, ha, hv⟩ | ⟨e0, he0, hc0, ha, hv, ht, hall⟩
      · left
        refine ⟨?_, ha, hv⟩
        intro e1 he1
        rcases List.mem_append.mp he1 with h | h
        · exact hnone e1 h
        · simp only [List.mem_singleton] at h
          subst h; simp [h0.1]
      · right
        refine ⟨e0, List.mem_append_left _ he0, hc0, ha, hv, ht, ?_⟩
        intro e1 he1 hc1
        rcases List.mem_append.mp he1 with h | h
        · exact hall e1 h hc1
        · simp only [List.mem_singleton] at h
          subst h; simp [h0.1] at hc1
  | some b =>
    cases b with
    | false =>
      rw [hfind] at hcf
      have h0 : Map.find ev0 f ≠ some true := by
        intro h; rw [h] at hcf; simp at hcf
      refine ⟨sc, ?_, ?_, hsorted, hcount, ?_⟩
      · simp [EvictVisit, hfind]
      · intro g
        simp only [hkeys]
        by_cases hg : g = f
        · subst hg
          rw [hfind]
          cases h : Map.find ev0 g with
          | some b => rw [h] at hcf; simpa using hcf
          | none => simp
        · simp only [hg, or_false]; exact hchar g
      · rcases hbest with ⟨hnone, ha, hv⟩ | ⟨e0, he0, hc0, ha, hv, ht, hall⟩
        · left
          refine ⟨?_, ha, hv⟩
          intro e1 he1
          rcases List.mem_append.mp he1 with h | h
          · exact hnone e1 h
          · simp only [List.mem_singleton] at h
            subst h; exact h0
        · right
          refine ⟨e0, List.mem_append_left _ he0, hc0, ha, hv, ht, ?_⟩
          intro e1 he1 hc1
          rcases List.mem_append.mp he1 with h | h
          · exact hall e1 h hc1
          · simp only [List.mem_singleton] at h
            subst h; exact absurd hc1 h0
    | true =>
      rw [hfind] at hcf
      have h0 : Map.find ev0 f = some true := by
        cases h : Map.find ev0 f with
        | some b => rw [h] at hcf; simpa using hcf.symm
        | none =>
          rw [h] at hcf
          by_cases hm : f ∈ Map.keys seen <;> simp [hm] at hcf
      have hcharNew : ∀ (ev : Map Bool), ev = sc.evictablePages → ∀ g, Map.find ev g =
          match Map.find ev0 g with
          | some b => some b
          | none => if g ∈ Map.keys (seen ++ [(f, q)]) then some false else none := by
        intro ev hev g
        subst hev
        rw [hchar g]
        cases h : Map.find ev0 g with
        | some b => rfl
        | none =>
          simp only [hkeys]
          by_cases hg : g = f
          · subst hg; rw [h] at h0; simp at h0
          · simp [hg]
      rw [EvictVisit_candidate inf k_ clock sc f q hq hfind]
      unfold EvictCompare
      by_cases hlt : sc.val < scanTemp inf k_ clock q
      · -- strictly better: the entry becomes the candidate
        simp only [hlt, if_true]
        refine ⟨_, rfl, hcharNew _ rfl, hsorted, hcount, Or.inr ⟨(f, q), by simp, h0, rfl, rfl, rfl, ?_⟩⟩
        intro e1 he1 hc1
        rcases List.mem_append.mp he1 with h | h
        · rcases hbest with ⟨hnone, _, _⟩ | ⟨e0, he0, hc0, ha, hv, ht, hall⟩
          · exact absurd hc1 (hnone e1 h)
          · left
            show scanTemp inf k_ clock e1.2 < scanTemp inf k_ clock q
            rcases hall e1 h hc1 with h2 | h2 <;> omega
        · simp only [List.mem_singleton] at h
          subst h
          right; exact ⟨rfl, le_refl _⟩
      · simp only [hlt, if_false]
        by_cases heq : scanTemp inf k_ clock q = sc.val
        · simp only [heq, if_true]
          rcases hbest with ⟨hnone, _, hv⟩ | ⟨e0, he0, hc0, ha, hv, ht, hall⟩
          · omega
          · have hinf : sc.val = inf := by
              have := htie e0 he0 hc0 h0 (by rw [← hv, heq])
              simp only at this
              omega
            simp only [hinf, if_true]
            by_cases hts : scanTempS q < sc.timeS
            · simp only [hts, if_true]
              refine ⟨_, rfl, hcharNew _ rfl, hsorted, hcount,
                Or.inr ⟨(f, q), by simp, h0, rfl, ?_, rfl, ?_⟩⟩
              · show inf = scanTemp inf k_ clock q
                omega
              · intro e1 he1 hc1
                show scanTemp inf k_ clock e1.2 < inf ∨
                  (scanTemp inf k_ clock e1.2 = inf ∧ scanTempS q ≤ scanTempS e1.2)
                rcases List.mem_append.mp he1 with h | h
                · rcases hall e1 h hc1 with h2 | h2
                  · left; omega
                  · right; exact ⟨by omega, by omega⟩
                · simp only [List.mem_singleton] at h
                  subst h
                  right; exact ⟨by simp only; omega, le_refl _⟩
            · simp only [hts, if_false]
              refine ⟨_, rfl, hcharNew _ rfl, hsorted, hcount,
                Or.inr ⟨e0, List.mem_append_left _ he0, hc0, ha, hv, ht, ?_⟩⟩
              intro e1 he1 hc1
              rcases List.mem_append.mp he1 with h | h
              · exact hall e1 h hc1
              · simp only [List.mem_singleton] at h
                subst h
                right; exact ⟨by simp only; omega, by simp only; omega⟩
        · simp only [heq, if_false]
          rcases hbest with ⟨hnone, _, hv⟩ | ⟨e0, he0, hc0, ha, hv, ht, hall⟩
          · omega
          · refine ⟨_, rfl, hcharNew _ rfl, hsorted, hcount,
              Or.inr ⟨e0, List.mem_append_left _ he0, hc0, ha, hv, ht, ?_⟩⟩
            intro e1 he1 hc1
            rcases List.mem_append.mp he1 with h | h
            · exact hall e1 h hc1
            · simp only [List.mem_singleton] at h
              subst h
              left; simp only; omega

theorem ScanInv_loop (inf : Int) (k_ clock : Nat) (ev0 : Map Bool)
    (rest : List (frame_id_t × List Nat)) :
    ∀ (seen : List (frame_id_t × List Nat)) (sc : EvictScan),
      ScanInv inf k_ clock ev0 seen sc →
      (∀ e ∈ rest, e.2 ≠ [] ∧ 0 ≤ scanTemp inf k_ clock e.2) →
      List.Pairwise (NoTie inf k_ clock ev0) (seen ++ rest) →
      ∃ sc1, EvictLoop inf k_ clock rest sc = some sc1 ∧
        ScanInv inf k_ clock ev0 (seen ++ rest) sc1 := by
  induction rest with
  | nil =>
    intro seen sc hinv _ _
    exact ⟨sc, rfl, by simpa using hinv⟩
  | cons e rest ih =>
    intro seen sc hinv hne hpw
    have hpw1 := List.pairwise_append.mp hpw
    have he := hne e (List.mem_cons_self _ _)
    obtain ⟨sc1, hv, hinv1⟩ := ScanInv_visit inf k_ clock ev0 seen sc e hinv he.1 he.2
      (fun e1 h1 => hpw1.2.2 e1 h1 e (List.mem_cons_self _ _))
    have hpw2 : List.Pairwise (NoTie inf k_ clock ev0) ((seen ++ [e]) ++ rest) := by
      simpa using hpw
    obtain ⟨sc2, hl, hinv2⟩ := ih (seen ++ [e]) sc1 hinv1
      (fun e1 h1 => hne e1 (List.mem_cons_of_mem _ h1)) hpw2
    refine ⟨sc2, ?_, by simpa using hinv2⟩
    simp only [EvictLoop, hv, hl]

/-! ## Well-formedness of the replacer is preserved by its operations -/

theorem LRUKReplacer.wf_create (n k : Nat) : (LRUKReplacer.create n k).Inv := by
  constructor <;> simp [LRUKReplacer.create, Map.Sorted, Map.find, evictableCount]

theorem sizeDec_succ_mod (c : Nat) : sizeDec ((c + 1) % SIZE_MOD) = c % SIZE_MOD := by
  simp only [sizeDec, SIZE_MOD]; omega

theorem sizeInc_mod (c : Nat) : sizeInc (c % SIZE_MOD) = (c + 1) % SIZE_MOD := by
  simp only [sizeInc, SIZE_MOD]; omega

theorem LRUKReplacer.Inv_SetEvictable (r r1 : LRUKReplacer) (f : frame_id_t) (flag : Bool)
    (hinv : r.Inv) (hpre : flag = false ∨ (Map.find r.accessHistory f).isSome)
    (h : r.SetEvictable f flag = some r1) : r1.Inv := by
  unfold LRUKReplacer.SetEvictable at h
  by_cases hv : validFrame r.replacer_size_ f
  · simp only [hv, if_true, Option.some.injEq] at h
    subst h
    have hcnt := evictableCount_assign r.evictablePages f flag hinv.sortedEvictable
    constructor
    · exact hinv.sortedHistory
    · exact Map.sorted_assign _ _ _ hinv.sortedEvictable
    · exact hinv.validHistory
    · intro g hg
      simp only [Map.find_assign] at hg
      by_cases hgf : g = f
      · subst hgf; exact hv
      · simp only [hgf, if_false] at hg; exact hinv.validEvictable g hg
    · intro g hg
      simp only [Map.find_assign] at hg
      by_cases hgf : g = f
      · subst hgf
        simp only [if_true, Option.some.injEq] at hg
        rcases hpre with hp | hp
        · rw [hp] at hg; exact absurd hg (by decide)
        · exact hp
      · simp only [hgf, if_false] at hg; exact hinv.tracked g hg
    · exact hinv.stamps
    · exact hinv.distinct
    · show _ = evictableCount (Map.assign r.evictablePages f flag) % SIZE_MOD
      have hsz := hinv.size
      cases hfind : Map.find r.evictablePages f with
      | none =>
        simp only [hfind] at hcnt ⊢
        cases flag
        · simp at hcnt ⊢; rw [hcnt, hsz]
        · simp at hcnt ⊢; rw [hcnt, hsz, sizeInc_mod]
      | some old =>
        simp only [hfind] at hcnt ⊢
        cases old <;> cases flag <;> simp at hcnt ⊢
        · rw [hcnt, hsz]
        · rw [hcnt, hsz, sizeInc_mod]
        · rw [hsz, ← hcnt, sizeDec_succ_mod]
        · have : evictableCount (Map.assign r.evictablePages f true)
              = evictableCount r.evictablePages := by omega
          rw [this, hsz]
  · simp [hv] at h

theorem LRUKReplacer.Inv_erase (r : LRUKReplacer) (ev : Map Bool) (v : frame_id_t)
    (hinv : r.Inv) (hsorted : Map.Sorted ev)
    (hvalid : ∀ g, (Map.find ev g).isSome → validFrame r.replacer_size_ g)
    (htrue : ∀ g, Map.find ev g = some true → Map.find r.evictablePages g = some true)
    (hcount : evictableCount ev = evictableCount r.evictablePages)
    (hv : Map.find ev v = some true) :
    ({ r with evictablePages := ev, curr_size_ := sizeDec r.curr_size_ }.DeleteFrame v).Inv := by
  have hcnt := evictableCount_erase ev v hsorted
  simp only [hv, if_true] at hcnt
  constructor
  · exact Map.sorted_erase _ _ hinv.sortedHistory
  · exact Map.sorted_erase _ _ hsorted
  · intro g hg
    simp only [LRUKReplacer.DeleteFrame, Map.find_erase] at hg
    by_cases hgv : g = v
    · simp [hgv] at hg
    · simp only [hgv, if_false] at hg; exact hinv.validHistory g hg
  · intro g hg
    simp only [LRUKReplacer.DeleteFrame, Map.find_erase] at hg
    by_cases hgv : g = v
    · simp [hgv] at hg
    · simp only [hgv, if_false] at hg; exact hvalid g hg
  · intro g hg
    simp only [LRUKReplacer.DeleteFrame, Map.find_erase] at hg ⊢
    by_cases hgv : g = v
    · simp [hgv] at hg
    · simp only [hgv, if_false] at hg ⊢; exact hinv.tracked g (htrue g hg)
  · intro g q hq
    simp only [LRUKReplacer.DeleteFrame, Map.find_erase] at hq
    by_cases hgv : g = v
    · simp [hgv] at hq
    · simp only [hgv, if_false] at hq; exact hinv.stamps g q hq
  · intro f g q1 q2 t h1 h2
    simp only [LRUKReplacer.DeleteFrame, Map.find_erase] at h1 h2
    by_cases hfv : f = v
    · simp [hfv] at h1
    · by_cases hgv : g = v
      · simp [hgv] at h2
      · simp only [hfv, hgv, if_false] at h1 h2
        exact hinv.distinct f g q1 q2 t h1 h2
  · show sizeDec r.curr_size_ = evictableCount (Map.erase ev v) % SIZE_MOD
    rw [hinv.size, ← hcount, ← hcnt, sizeDec_succ_mod]

theorem LRUKReplacer.Inv_Remove (r r1 : LRUKReplacer) (f : frame_id_t) (hinv : r.Inv)
    (h : r.Remove f = some r1) : r1.Inv := by
  unfold LRUKReplacer.Remove at h
  by_cases hv : validFrame r.replacer_size_ f
  · simp only [hv, if_true] at h
    cases hfind : Map.find r.evictablePages f with
    | none =>
      simp only [hfind, Option.some.injEq] at h
      exact h ▸ hinv
    | some b =>
      cases b with
      | false => simp [hfind] at h
      | true =>
        simp only [hfind, Option.some.injEq] at h
        subst h
        exact LRUKReplacer.Inv_erase r r.evictablePages f hinv hinv.sortedEvictable
          hinv.validEvictable (fun _ hg => hg) rfl hfind
  · simp [hv] at h

theorem LRUKReplacer.Inv_record (r : LRUKReplacer) (f : frame_id_t) (base : List Nat)
    (hinv : r.Inv) (hv : validFrame r.replacer_size_ f)
    (hbase : ∀ t ∈ base, ∃ q, Map.find r.accessHistory f = some q ∧ t ∈ q)
    (hpw : List.Pairwise (fun a b => a < b) base)
    (hlen : 1 ≤ r.k_ → base.length + 1 ≤ r.k_) :
    LRUKReplacer.Inv { r with current_timestamp_ := r.current_timestamp_ + 1,
                              accessHistory := Map.assign r.accessHistory f
                                (base ++ [r.current_timestamp_ + 1]) } := by
  have hold : ∀ t ∈ base, 1 ≤ t ∧ t ≤ r.current_timestamp_ := by
    intro t ht
    obtain ⟨q, hq, htq⟩ := hbase t ht
    exact (hinv.stamps f q hq).2.2.1 t htq
  constructor
  · exact Map.sorted_assign _ _ _ hinv.sortedHistory
  · exact hinv.sortedEvictable
  · intro g hg
    simp only [Map.find_assign] at hg
    by_cases hgf : g = f
    · subst hgf; exact hv
    · simp only [hgf, if_false] at hg; exact hinv.validHistory g hg
  · exact hinv.validEvictable
  · intro g hg
    simp only [Map.find_assign]
    by_cases hgf : g = f
    · simp [hgf]
    · simp only [hgf, if_false]; exact hinv.tracked g hg
  · intro g q hq
    simp only [Map.find_assign] at hq
    by_cases hgf : g = f
    · simp only [hgf, if_true, Option.some.injEq] at hq
      subst hq
      refine ⟨by simp, ?_, ?_, ?_⟩
      · refine List.pairwise_append.mpr ⟨hpw, List.pairwise_singleton _ _, ?_⟩
        intro a ha b hb
        simp only [List.mem_singleton] at hb
        have := hold a ha
        omega
      · intro t ht
        rcases List.mem_append.mp ht with h | h
        · have := hold t h
          simp only; omega
        · simp only [List.mem_singleton] at h
          simp only; omega
      · intro hk
        simpa using hlen hk
    · simp only [hgf, if_false] at hq
      obtain ⟨h1, h2, h3, h4⟩ := hinv.stamps g q hq
      refine ⟨h1, h2, ?_, h4⟩
      intro t ht
      have := h3 t ht
      simp only; omega
  · intro g1 g2 q1 q2 t h1 h2 ht1 ht2
    simp only [Map.find_assign] at h1 h2
    by_cases hg1 : g1 = f
    · by_cases hg2 : g2 = f
      · rw [hg1, hg2]
      · simp only [hg1, hg2, if_true, if_false, Option.some.injEq] at h1 h2
        subst h1
        rcases List.mem_append.mp ht1 with h | h
        · obtain ⟨q, hq, htq⟩ := hbase t h
          rw [hg1]
          exact hinv.distinct f g2 q q2 t hq h2 htq ht2
        · simp only [List.mem_singleton] at h
          have := (hinv.stamps g2 q2 h2).2.2.1 t ht2
          omega
    · by_cases hg2 : g2 = f
      · simp only [hg1, hg2, if_true, if_false, Option.some.injEq] at h1 h2
        subst h2
        rcases List.mem_append.mp ht2 with h | h
        · obtain ⟨q, hq, htq⟩ := hbase t h
          rw [hg2]
          exact hinv.distinct g1 f q1 q t h1 hq ht1 htq
        · simp only [List.mem_singleton] at h
          have := (hinv.stamps g1 q1 h1).2.2.1 t ht1
          omega
      · simp only [hg1, hg2, if_false] at h1 h2
        exact hinv.distinct g1 g2 q1 q2 t h1 h2 ht1 ht2
  · exact hinv.size

theorem LRUKReplacer.Inv_RecordAccess (r r1 : LRUKReplacer) (f : frame_id_t) (hinv : r.Inv)
    (h : r.RecordAccess f = some r1) : r1.Inv := by
  unfold LRUKReplacer.RecordAccess at h
  by_cases hv : validFrame r.replacer_size_ f
  · simp only [hv, if_true] at h
    cases hfind : Map.find r.accessHistory f with
    | none =>
      simp only [hfind, Option.some.injEq] at h
      subst h
      have := LRUKReplacer.Inv_record r f [] hinv hv (by simp) List.Pairwise.nil (by simp)
      simpa using this
    | some q =>
      simp only [hfind] at h
      obtain ⟨hne, hpw, hst, hlen⟩ := hinv.stamps f q hfind
      by_cases hk : q.length = r.k_
      · simp only [hk, if_true] at h
        cases q with
        | nil => exact absurd rfl hne
        | cons a rest =>
          simp only [Option.some.injEq] at h
          subst h
          refine LRUKReplacer.Inv_record r f rest hinv hv ?_ (List.pairwise_cons.mp hpw).2 ?_
          · intro t ht
            exact ⟨a :: rest, hfind, List.mem_cons_of_mem _ ht⟩
          · intro _
            simp only [List.length_cons] at hk
            omega
      · simp only [hk, if_false, Option.some.injEq] at h
        subst h
        refine LRUKReplacer.Inv_record r f q hinv hv ?_ hpw ?_
        · intro t ht
          exact ⟨q, hfind, ht⟩
        · intro h1
          have := hlen h1
          omega
  · simp [hv] at h

/-! ## `Evict` on a well-formed replacer -/

theorem scanTemp_nonneg (inf : Int) (r : LRUKReplacer) (hinv : r.Inv) (hinf : 0 ≤ inf)
    (f : frame_id_t) (q : List Nat) (hq : Map.find r.accessHistory f = some q) :
    0 ≤ scanTemp inf r.k_ r.current_timestamp_ q := by
  obtain ⟨hne, _, hst, _⟩ := hinv.stamps f q hq
  unfold scanTemp
  split_ifs
  · exact hinf
  · cases q with
    | nil => exact absurd rfl hne
    | cons a t =>
      have := hst a (List.mem_cons_self _ _)
      simp only [List.head?_cons, Option.getD_some]
      omega

theorem LRUKReplacer.noTie (inf : Int) (r : LRUKReplacer) (hinv : r.Inv) :
    List.Pairwise (NoTie inf r.k_ r.current_timestamp_ r.evictablePages) r.accessHistory := by
  refine List.Pairwise.imp_of_mem ?_ hinv.sortedHistory
  intro a b ha hb hab _ _ heq
  have hfa := Map.mem_find_of_sorted _ hinv.sortedHistory a.1 a.2 ha
  have hfb := Map.mem_find_of_sorted _ hinv.sortedHistory b.1 b.2 hb
  obtain ⟨hnea, _, _, _⟩ := hinv.stamps a.1 a.2 hfa
  obtain ⟨hneb, _, _, _⟩ := hinv.stamps b.1 b.2 hfb
  unfold scanTemp at heq ⊢
  by_cases h2 : b.2.length < r.k_
  · simp [h2]
  · by_cases h1 : a.2.length < r.k_
    · simp only [h1, h2, if_true, if_false] at heq ⊢
      exact heq.symm
    · simp only [h1, h2, if_false] at heq
      exfalso
      obtain ⟨x, tx, hx⟩ : ∃ x tx, a.2 = x :: tx := by
        cases h : a.2 with
        | nil => exact absurd h hnea
        | cons x tx => exact ⟨x, tx, rfl⟩
      obtain ⟨y, ty, hy⟩ : ∃ y ty, b.2 = y :: ty := by
        cases h : b.2 with
        | nil => exact absurd h hneb
        | cons y ty => exact ⟨y, ty, rfl⟩
      simp only [hx, hy, List.head?_cons, Option.getD_some] at heq
      have hxy : x = y := by omega
      have := hinv.distinct a.1 b.1 a.2 b.2 x hfa hfb (by simp [hx]) (by simp [hy, hxy])
      omega

theorem LRUKReplacer.scan_total (inf : Int) (r : LRUKReplacer) (hinv : r.Inv) (hinf : 0 ≤ inf) :
    ∃ sc, EvictLoop inf r.k_ r.current_timestamp_ r.accessHistory
        { evictablePages := r.evictablePages, ans := -1, val := -1, timeS := inf + 5 } = some sc ∧
      ScanInv inf r.k_ r.current_timestamp_ r.evictablePages r.accessHistory sc := by
  have h0 : ScanInv inf r.k_ r.current_timestamp_ r.evictablePages []
      { evictablePages := r.evictablePages, ans := -1, val := -1, timeS := inf + 5 } := by
    refine ⟨?_, hinv.sortedEvictable, rfl, Or.inl ⟨by simp, rfl, rfl⟩⟩
    intro g
    cases Map.find r.evictablePages g <;> simp [Map.keys]
  have := ScanInv_loop inf r.k_ r.current_timestamp_ r.evictablePages r.accessHistory [] _ h0
    (fun e he => by
      have hf := Map.mem_find_of_sorted _ hinv.sortedHistory e.1 e.2 he
      exact ⟨(hinv.stamps e.1 e.2 hf).1, scanTemp_nonneg inf r hinv hinf e.1 e.2 hf⟩)
    (by simpa using LRUKReplacer.noTie inf r hinv)
  simpa using this

theorem LRUKReplacer.Evict_zero (inf : Int) (r : LRUKReplacer) (h : r.curr_size_ = 0) :
    r.Evict inf = some (none, r) := by
  simp [LRUKReplacer.Evict, h]

/-- On a well-formed replacer with `Size() ≠ 0`, `Evict` returns a frame `v`
that is flagged evictable and has a history `q`, leaves a well-formed
replacer, and no evictable frame beats `v` in the order of the scan. -/
theorem LRUKReplacer.Evict_victim (inf : Int) (r : LRUKReplacer) (hinv : r.Inv) (hinf : 0 ≤ inf)
    (hsz : r.curr_size_ ≠ 0) :
    ∃ v q sc, ScanInv inf r.k_ r.current_timestamp_ r.evictablePages r.accessHistory sc ∧
      Map.find r.evictablePages v = some true ∧ Map.find r.accessHistory v = some q ∧
      r.Evict inf = some (some v,
        { r with evictablePages := sc.evictablePages,
                 curr_size_ := sizeDec r.curr_size_ }.DeleteFrame v) ∧
      LRUKReplacer.Inv (LRUKReplacer.DeleteFrame
        { r with evictablePages := sc.evictablePages, curr_size_ := sizeDec r.curr_size_ } v) ∧
      ∀ g qg, Map.find r.evictablePages g = some true → Map.find r.accessHistory g = some qg →
        scanTemp inf r.k_ r.current_timestamp_ qg < scanTemp inf r.k_ r.current_timestamp_ q ∨
        (scanTemp inf r.k_ r.current_timestamp_ qg = scanTemp inf r.k_ r.current_timestamp_ q ∧
          scanTempS q ≤ scanTempS qg) := by
  obtain ⟨sc, hloop, hscan⟩ := LRUKReplacer.scan_total inf r hinv hinf
  have hscan0 := hscan
  obtain ⟨hchar, hsorted, hcount, hbest⟩ := hscan
  have hex : ∃ f, Map.find r.evictablePages f = some true := by
    rw [← evictableCount_ne_zero_iff _ hinv.sortedEvictable]
    intro h0
    apply hsz
    rw [hinv.size, h0]
    rfl
  rcases hbest with ⟨hnone, _, _⟩ | ⟨e, he, hc, ha, hv, ht, hall⟩
  · exfalso
    obtain ⟨f, hf⟩ := hex
    have htr := hinv.tracked f hf
    obtain ⟨q, hq⟩ := Option.isSome_iff_exists.mp htr
    exact hnone (f, q) (Map.find_some_mem _ _ _ hq) hf
  · have hfe := Map.mem_find_of_sorted _ hinv.sortedHistory e.1 e.2 he
    have hscv : Map.find sc.evictablePages e.1 = some true := by
      rw [hchar e.1, hc]
    refine ⟨e.1, e.2, sc, hscan0, hc, hfe, ?_, ?_, ?_⟩
    · simp only [LRUKReplacer.Evict, hsz, if_false, hloop, ha]
    · refine LRUKReplacer.Inv_erase r sc.evictablePages e.1 hinv hsorted ?_ ?_ hcount hscv
      · intro g hg
        rw [hchar g] at hg
        cases hfind : Map.find r.evictablePages g with
        | some b => exact hinv.validEvictable g (by simp [hfind])
        | none =>
          rw [hfind] at hg
          by_cases hm : g ∈ Map.keys r.accessHistory
          · apply hinv.validHistory g
            cases hh : Map.find r.accessHistory g with
            | none => exact absurd hm ((Map.find_none_iff _ _).mp hh)
            | some _ => rfl
          · simp [hm] at hg
      · intro g hg
        rw [hchar g] at hg
        cases hfind : Map.find r.evictablePages g with
        | some b => rw [hfind] at hg; simpa using hg
        | none =>
          rw [hfind] at hg
          by_cases hm : g ∈ Map.keys r.accessHistory <;> simp [hm] at hg
    · intro g qg hg hqg
      have := hall (g, qg) (Map.find_some_mem _ _ _ hqg) hg
      rw [hv, ht] at this
      exact this

theorem LRUKReplacer.Inv_Evict (inf : Int) (r r1 : LRUKReplacer) (res : Option frame_id_t)
    (hinv : r.Inv) (hinf : 0 ≤ inf) (h : r.Evict inf = some (res, r1)) : r1.Inv := by
  by_cases hsz : r.curr_size_ = 0
  · rw [LRUKReplacer.Evict_zero inf r hsz] at h
    simp only [Option.some.injEq, Prod.mk.injEq] at h
    exact h.2 ▸ hinv
  · obtain ⟨v, q, sc, _, _, _, hev, hinv1, _⟩ := LRUKReplacer.Evict_victim inf r hinv hinf hsz
    rw [hev] at h
    simp only [Option.some.injEq, Prod.mk.injEq] at h
    exact h.2 ▸ hinv1

/-! ## Reachable replacer states are well-formed -/

theorem LRUKReplacer.wf_step (inf : Int) (hinf : 0 ≤ inf) (r r1 : LRUKReplacer)
    (op : ReplacerOp) (hinv : r.Inv) (hadm : r.admits op = true)
    (h : r.step inf op = some r1) : r1.Inv := by
  cases op with
  | RecordAccess f => exact LRUKReplacer.Inv_RecordAccess r r1 f hinv h
  | SetEvictable f flag => exact LRUKReplacer.Inv_SetEvictable r r1 f flag hinv (Or.inr hadm) h
  | Evict =>
    simp only [LRUKReplacer.step, Option.map_eq_some'] at h
    obtain ⟨⟨res, r2⟩, h1, h2⟩ := h
    simp only at h2
    exact h2 ▸ LRUKReplacer.Inv_Evict inf r r2 res hinv hinf h1
  | Remove f => exact LRUKReplacer.Inv_Remove r r1 f hinv h

theorem LRUKReplacer.params_step (inf : Int) (r r1 : LRUKReplacer) (op : ReplacerOp)
    (h : r.step inf op = some r1) :
    r1.replacer_size_ = r.replacer_size_ ∧ r1.k_ = r.k_ := by
  cases op with
  | RecordAccess f =>
    simp only [LRUKReplacer.step, LRUKReplacer.RecordAccess] at h
    split_ifs at h
    split at h
    · simp only [Option.some.injEq] at h; subst h; exact ⟨rfl, rfl⟩
    · split_ifs at h
      · split at h
        · simp at h
        · simp only [Option.some.injEq] at h; subst h; exact ⟨rfl, rfl⟩
      · simp only [Option.some.injEq] at h; subst h; exact ⟨rfl, rfl⟩
  | SetEvictable f flag =>
    simp only [LRUKReplacer.step] at h
    unfold LRUKReplacer.SetEvictable at h
    by_cases hv : validFrame r.replacer_size_ f
    · simp only [hv, if_true, Option.some.injEq] at h; subst h; exact ⟨rfl, rfl⟩
    · simp [hv] at h
  | Evict =>
    simp only [LRUKReplacer.step, Option.map_eq_some'] at h
    obtain ⟨⟨res, r2⟩, h1, h2⟩ := h
    simp only at h2
    subst h2
    simp only [LRUKReplacer.Evict] at h1
    split_ifs at h1
    · simp only [Option.some.injEq, Prod.mk.injEq] at h1; rw [← h1.2]; exact ⟨rfl, rfl⟩
    · split at h1
      · simp at h1
      · simp only [Option.some.injEq, Prod.mk.injEq] at h1; rw [← h1.2]; exact ⟨rfl, rfl⟩
  | Remove f =>
    simp only [LRUKReplacer.step, LRUKReplacer.Remove] at h
    split_ifs at h
    split at h
    · simp only [Option.some.injEq] at h; subst h; exact ⟨rfl, rfl⟩
    · simp only [Option.some.injEq] at h; subst h; exact ⟨rfl, rfl⟩
    · simp at h

theorem LRUKReplacer.wf_run (inf : Int) (hinf : 0 ≤ inf) (ops : List ReplacerOp) :
    ∀ r r1 : LRUKReplacer, r.Inv → LRUKReplacer.run inf ops r = some r1 →
      r1.Inv ∧ r1.replacer_size_ = r.replacer_size_ ∧ r1.k_ = r.k_ := by
  induction ops with
  | nil =>
    intro r r1 hinv h
    simp only [LRUKReplacer.run, Option.some.injEq] at h
    subst h; exact ⟨hinv, rfl, rfl⟩
  | cons op rest ih =>
    intro r r1 hinv h
    simp only [LRUKReplacer.run] at h
    split_ifs at h with hadm
    split at h
    · simp at h
    · rename_i r2 hstep
      obtain ⟨h1, h2, h3⟩ := ih r2 r1 (LRUKReplacer.wf_step inf hinf r r2 op hinv hadm hstep) h
      obtain ⟨h4, h5⟩ := LRUKReplacer.params_step inf r r2 op hstep
      exact ⟨h1, by rw [h2, h4], by rw [h3, h5]⟩

theorem LRUKReplacer.wf_of_Reachable (inf : Int) (hinf : 0 ≤ inf) (n k : Nat) (r : LRUKReplacer)
    (h : LRUKReplacer.Reachable inf n k r) : r.Inv ∧ r.replacer_size_ = n ∧ r.k_ = k := by
  obtain ⟨ops, hops⟩ := h
  exact LRUKReplacer.wf_run inf hinf ops _ r (LRUKReplacer.wf_create n k) hops

/-- An ordered map whose keys all lie in `[lo, lo + n)` has at most `n`
entries. -/
theorem Map.size_le_of_range {V : Type} (m : Map V) :
    ∀ (lo : Int) (n : Nat), Map.Sorted m → (∀ e ∈ m, lo ≤ e.1 ∧ e.1 < lo + n) →
      Map.size m ≤ n := by
  induction m with
  | nil => intro lo n _ _; simp [Map.size]
  | cons e t ih =>
    intro lo n hs hr
    have hs1 := List.pairwise_cons.mp hs
    have he := hr e (List.mem_cons_self _ _)
    have := ih (e.1 + 1) (n - 1) hs1.2 (by
      intro e1 he1
      have h1 := hs1.1 e1 he1
      have h2 := hr e1 (List.mem_cons_of_mem _ he1)
      omega)
    simp only [Map.size, List.length_cons] at this ⊢
    omega

theorem evictableCount_le_size (m : Map Bool) : evictableCount m ≤ Map.size m := by
  simp only [evictableCount, Map.size]
  exact List.length_filter_le _ _

theorem LRUKReplacer.count_le (r : LRUKReplacer) (hinv : r.Inv) :
    evictableCount r.evictablePages ≤ r.replacer_size_ := by
  refine le_trans (evictableCount_le_size _) ?_
  refine Map.size_le_of_range r.evictablePages 0 r.replacer_size_ hinv.sortedEvictable ?_
  intro e he
  have hf := Map.mem_find_of_sorted _ hinv.sortedEvictable e.1 e.2 he
  obtain ⟨h1, h2⟩ := hinv.validEvictable e.1 (by simp [hf])
  exact ⟨h1, by simpa using h2⟩

/-! ## C1: the victim of `Evict` -/

theorem BufferPoolManagerInstance.frame_valid (s : BufferPoolManagerInstance) (f : Int) :
    (s.frame f).isSome ↔ validFrame s.pages_.length f := by
  unfold BufferPoolManagerInstance.frame validFrame
  by_cases h : 0 ≤ f
  · simp only [h, if_true, true_and]
    constructor
    · intro hs
      obtain ⟨pg, hpg⟩ := Option.isSome_iff_exists.mp hs
      obtain ⟨hlt, _⟩ := List.getElem?_eq_some.mp hpg
      omega
    · intro hlt
      have : f.toNat < s.pages_.length := by omega
      simp [List.getElem?_eq_getElem this]
  · simp [h]

theorem BufferPoolManagerInstance.frame_set (s s1 : BufferPoolManagerInstance) (f : Int)
    (x : Page) (hf : (s.frame f).isSome) (hs1 : s1.pages_ = s.pages_.set f.toNat x)
    (g : Int) : s1.frame g = if g = f then some x else s.frame g := by
  have hv := (BufferPoolManagerInstance.frame_valid s f).mp hf
  unfold validFrame at hv
  unfold BufferPoolManagerInstance.frame
  rw [hs1]
  by_cases hg : 0 ≤ g
  · simp only [hg, if_true, List.getElem?_set]
    by_cases hgf : g = f
    · subst hgf
      have : g.toNat < s.pages_.length := by omega
      simp [this]
    · have : f.toNat ≠ g.toNat := by omega
      simp [this, hgf]
  · have hgf : g ≠ f := by omega
    simp [hg, hgf]

theorem BufferPoolManagerInstance.modifyFrame_eq (s : BufferPoolManagerInstance)
    (f : frame_id_t) (g : Page → Page) (pg : Page) (hf : s.frame f = some pg) :
    s.modifyFrame f g = some { s with pages_ := s.pages_.set f.toNat (g pg) } := by
  simp [BufferPoolManagerInstance.modifyFrame, hf]

/-! ## The replacer calls made by the pool -/

theorem LRUKReplacer.SetEvictable_eq (r : LRUKReplacer) (f : frame_id_t) (flag : Bool)
    (hv : validFrame r.replacer_size_ f) :
    r.SetEvictable f flag = some
      { r with
        curr_size_ :=
          match Map.find r.evictablePages f with
          | none => if flag then sizeInc r.curr_size_ else r.curr_size_
          | some old =>
            if old ≠ flag then
              if flag then sizeInc r.curr_size_ else sizeDec r.curr_size_
            else r.curr_size_,
        evictablePages := Map.assign r.evictablePages f flag } := by
  unfold LRUKReplacer.SetEvictable
  simp only [hv, if_true]

theorem LRUKReplacer.RecordAccess_eq (r : LRUKReplacer) (f : frame_id_t) (hinv : r.Inv)
    (hv : validFrame r.replacer_size_ f) :
    r.RecordAccess f = some
      { r with current_timestamp_ := r.current_timestamp_ + 1,
               accessHistory := Map.assign r.accessHistory f
                 (pushed r.k_ (Map.find r.accessHistory f) (r.current_timestamp_ + 1)) } := by
  unfold LRUKReplacer.RecordAccess pushed
  simp only [hv, if_true]
  cases hfind : Map.find r.accessHistory f with
  | none => rfl
  | some q =>
    simp only
    by_cases hk : q.length = r.k_
    · simp only [hk, if_true]
      cases q with
      | nil => exact absurd rfl (hinv.stamps f [] hfind).1
      | cons a t => rfl
    · simp only [hk, if_false]

theorem BufferPoolManagerInstance.touch_spec (s : BufferPoolManagerInstance) (f : frame_id_t)
    (hinv : s.replacer_.Inv) (hv : validFrame s.replacer_.replacer_size_ f) :
    ∃ r2, s.touch f = some { s with replacer_ := r2 } ∧ Touched s.replacer_ f r2 := by
  have h1 := LRUKReplacer.SetEvictable_eq s.replacer_ f false hv
  obtain ⟨r1, hr1⟩ : ∃ r1, s.replacer_.SetEvictable f false = some r1 := ⟨_, h1⟩
  have hinv1 := LRUKReplacer.Inv_SetEvictable s.replacer_ r1 f false hinv (Or.inl rfl) hr1
  have hr1eq := hr1
  rw [h1, Option.some.injEq] at hr1eq
  have hsz1 : r1.replacer_size_ = s.replacer_.replacer_size_ := by rw [← hr1eq]
  have h2 := LRUKReplacer.RecordAccess_eq r1 f hinv1 (hsz1 ▸ hv)
  obtain ⟨r2, hr2⟩ : ∃ r2, r1.RecordAccess f = some r2 := ⟨_, h2⟩
  have hinv2 := LRUKReplacer.Inv_RecordAccess r1 r2 f hinv1 hr2
  have hr2eq := hr2
  rw [h2, Option.some.injEq] at hr2eq
  refine ⟨r2, ?_, ?_⟩
  · simp only [BufferPoolManagerInstance.touch, hr1, hr2]
  · have hev : r2.evictablePages = Map.assign s.replacer_.evictablePages f false := by
      rw [← hr2eq, ← hr1eq]
    have hhist : r2.accessHistory = Map.assign s.replacer_.accessHistory f
        (pushed s.replacer_.k_ (Map.find s.replacer_.accessHistory f)
          (s.replacer_.current_timestamp_ + 1)) := by
      rw [← hr2eq, ← hr1eq]
    constructor
    · exact hinv2
    · rw [← hr2eq, ← hr1eq]
    · rw [← hr2eq, ← hr1eq]
    · rw [← hr2eq, ← hr1eq]
    · rw [← hr2eq, ← hr1eq]
      show (match Map.find s.replacer_.evictablePages f with
        | none => if false = true then sizeInc s.replacer_.curr_size_ else s.replacer_.curr_size_
        | some old =>
          if old ≠ false then
            if false = true then sizeInc s.replacer_.curr_size_
            else sizeDec s.replacer_.curr_size_
          else s.replacer_.curr_size_) = _
      cases hfind : Map.find s.replacer_.evictablePages f with
      | none => simp
      | some old => cases old <;> simp
    · rw [hev, Map.find_assign]; simp
    · intro g hg
      rw [hev, Map.find_assign]; simp [hg]
    · rw [hhist, Map.find_assign]; simp
    · intro g hg
      rw [hhist, Map.find_assign]; simp [hg]

/-! ## `RetrieveFreePage` on a well-formed pool -/

theorem Map.mem_keys_iff {V : Type} (m : Map V) (k : Int) :
    k ∈ Map.keys m ↔ (Map.find m k).isSome := by
  cases h : Map.find m k with
  | none => simpa using (Map.find_none_iff m k).mp h
  | some v =>
    simp only [Option.isSome_some, iff_true]
    by_contra hk
    rw [(Map.find_none_iff m k).mpr hk] at h
    exact absurd h (by simp)

theorem LRUKReplacer.Evict_spec (inf : Int) (r : LRUKReplacer) (hinv : r.Inv) (hinf : 0 ≤ inf)
    (hsz : r.curr_size_ ≠ 0) :
    ∃ v r1, r.Evict inf = some (some v, r1) ∧ r.IsEvictable v ∧
      (Map.find r.accessHistory v).isSome ∧ Evicted r v r1 := by
  obtain ⟨v, q, sc, hscan, hv, hq, hev, hinv1, _⟩ :=
    LRUKReplacer.Evict_victim inf r hinv hinf hsz
  refine ⟨v, _, hev, hv, by simp [hq], ?_⟩
  constructor
  · exact hinv1
  · rfl
  · rfl
  · rfl
  · rfl
  · intro g
    simp only [LRUKReplacer.DeleteFrame, Map.find_erase]
  · intro g
    simp only [LRUKReplacer.DeleteFrame, Map.find_erase, hscan.1 g, Map.mem_keys_iff]

theorem BufferPoolManagerInstance.RetrieveFreePage_spec (inf : Int)
    (s : BufferPoolManagerInstance) (hinv : s.Inv) (hinf : 0 ≤ inf) :
    (s.free_list_ = [] ∧ s.replacer_.curr_size_ = 0 ∧
      s.RetrieveFreePage inf = some ((2, none), s)) ∨
    (∃ st f s1, s.RetrieveFreePage inf = some ((st, some f), s1) ∧ Acquired inf s st f s1) := by
  cases hfl : s.free_list_ with
  | cons f rest =>
    right
    refine ⟨0, f, { s with free_list_ := rest }, ?_, Or.inl ⟨rfl, rest, hfl, rfl⟩⟩
    simp only [BufferPoolManagerInstance.RetrieveFreePage, hfl]
  | nil =>
    by_cases hsz : s.replacer_.curr_size_ = 0
    · left
      refine ⟨rfl, hsz, ?_⟩
      simp only [BufferPoolManagerInstance.RetrieveFreePage, hfl,
        LRUKReplacer.Evict_zero inf s.replacer_ hsz]
      cases s
      simp only at hfl
      subst hfl
      rfl
    · right
      obtain ⟨v, r1, hev, hv, hh, hevd⟩ :=
        LRUKReplacer.Evict_spec inf s.replacer_ hinv.replacer hinf hsz
      have hvalid := hinv.replacer.validHistory v hh
      rw [hinv.replacerSize, ← hinv.size] at hvalid
      obtain ⟨pg, hpg⟩ := Option.isSome_iff_exists.mp
        ((BufferPoolManagerInstance.frame_valid s v).mpr hvalid)
      have hpin := (hinv.pins v pg hpg (by simp)).2 hv
      refine ⟨1, v, _, ?_, Or.inr ⟨rfl, hfl, hsz, pg, r1, hpg, hpin, hv, hev, hevd, rfl⟩⟩
      simp only [BufferPoolManagerInstance.RetrieveFreePage, hfl, hev, hpg]

theorem BufferPoolManagerInstance.InvHole_of_Acquired (inf : Int)
    (s s1 : BufferPoolManagerInstance) (st : Nat) (f : Int) (hinv : s.Inv)
    (h : Acquired inf s st f s1) : s1.InvHole (some f) := by
  rcases h with ⟨_, rest, hfl, hs1⟩ | ⟨_, hfl, hsz, pg, r1, hpg, hpin, hv, hev, hevd, hs1⟩
  · -- the frame comes from the free list
    subst hs1
    have hnd : f ∉ rest ∧ rest.Nodup := by
      have := hinv.freeNodup; rw [hfl] at this; exact List.nodup_cons.mp this
    have hfree := hinv.free f (by rw [hfl]; exact List.mem_cons_self _ _)
    constructor
    · exact hinv.size
    · exact hinv.replacerSize
    · exact hinv.replacer
    · exact hinv.tableSorted
    · intro p g hg
      obtain ⟨_, h2, h3⟩ := hinv.table p g hg
      refine ⟨?_, h2, h3⟩
      intro heq
      simp only [Option.some.injEq] at heq
      exact hfree.2.1 p (heq ▸ hg)
    · intro g hg
      obtain ⟨_, h2, h3⟩ := hinv.free g (by rw [hfl]; exact List.mem_cons_of_mem _ hg)
      refine ⟨?_, h2, h3⟩
      intro heq
      simp only [Option.some.injEq] at heq
      exact hnd.1 (heq ▸ hg)
    · exact hnd.2
    · intro g pg hg _
      exact hinv.pins g pg hg (by simp)
    · intro g hg
      simp only [Option.some.injEq] at hg
      subst hg
      obtain ⟨_, _, pg, hpg, _⟩ := hfree
      show (s.frame _).isSome
      rw [hpg]; rfl
  · -- the frame is the victim of the replacer
    subst hs1
    have hfv : (s.frame f).isSome := by rw [hpg]; rfl
    constructor
    · exact hinv.size
    · exact hevd.size.trans hinv.replacerSize
    · exact hevd.inv
    · exact Map.sorted_erase _ _ hinv.tableSorted
    · intro p g hg
      simp only [Map.find_erase] at hg
      by_cases hp : p = pg.page_id_
      · simp [hp] at hg
      · simp only [hp, if_false] at hg
        obtain ⟨_, h2, pg1, hpg1, hid⟩ := hinv.table p g hg
        have hgf : g ≠ f := by
          intro heq
          rw [heq, hpg] at hpg1
          simp only [Option.some.injEq] at hpg1
          exact hp (by rw [← hid, hpg1])
        refine ⟨by simpa using hgf, ?_, pg1, hpg1, hid⟩
        show (Map.find r1.accessHistory g).isSome
        rw [hevd.hist g]
        simpa [hgf] using h2
    · intro g hg
      rw [hfl] at hg
      simp at hg
    · exact hinv.freeNodup
    · intro g pg1 hg hne
      have hgf : g ≠ f := by simpa using hne
      obtain ⟨h1, h2⟩ := hinv.pins g pg1 hg (by simp)
      refine ⟨h1, ?_⟩
      intro htrue
      apply h2
      have := hevd.ev g
      simp only [hgf, if_false] at this
      change Map.find r1.evictablePages g = some true at htrue
      rw [this] at htrue
      cases hfind : Map.find s.replacer_.evictablePages g with
      | some b => rw [hfind] at htrue; simpa using htrue
      | none =>
        rw [hfind] at htrue
        by_cases hh : (Map.find s.replacer_.accessHistory g).isSome <;> simp [hh] at htrue
    · intro g hg
      simp only [Option.some.injEq] at hg
      subst hg
      exact hfv

/-! ## Three state changes that establish well-formedness -/

/-- A frame under reassignment receives a page: it gets new contents
`page`, the replacer has seen the two calls of a pin, and the page table
maps the page id of `page` to the frame. -/
theorem BufferPoolManagerInstance.Inv_install (s1 : BufferPoolManagerInstance) (f : Int)
    (page : Page) (r2 : LRUKReplacer) (pid n : Int) (dm : DiskManager)
    (h : s1.InvHole (some f)) (ht : Touched s1.replacer_ f r2)
    (hpid : page.page_id_ = pid) (hpin : 0 ≤ page.pin_count_) :
    BufferPoolManagerInstance.Inv
      { s1 with pages_ := s1.pages_.set f.toNat page, replacer_ := r2, next_page_id_ := n,
                page_to_frame_ := Map.assign s1.page_to_frame_ pid f, disk_manager_ := dm } := by
  have hfs := h.hole f rfl
  have hframe := BufferPoolManagerInstance.frame_set s1
    { s1 with pages_ := s1.pages_.set f.toNat page, replacer_ := r2, next_page_id_ := n,
              page_to_frame_ := Map.assign s1.page_to_frame_ pid f, disk_manager_ := dm }
    f page hfs rfl
  constructor
  · show (s1.pages_.set f.toNat page).length = s1.pool_size_
    rw [List.length_set]; exact h.size
  · exact ht.size.trans h.replacerSize
  · exact ht.inv
  · exact Map.sorted_assign _ _ _ h.tableSorted
  · intro p g hg
    change Map.find (Map.assign s1.page_to_frame_ pid f) p = some g at hg
    rw [Map.find_assign] at hg
    refine ⟨by simp, ?_⟩
    by_cases hp : p = pid
    · simp only [hp, if_true, Option.some.injEq] at hg
      subst hg
      refine ⟨?_, page, ?_, by rw [hpid, hp]⟩
      · show (Map.find r2.accessHistory f).isSome
        rw [ht.histSelf]; rfl
      · rw [hframe]; simp
    · simp only [hp, if_false] at hg
      obtain ⟨h1, h2, pg, hpg, hid⟩ := h.table p g hg
      have hgf : g ≠ f := by simpa using h1
      refine ⟨?_, pg, ?_, hid⟩
      · show (Map.find r2.accessHistory g).isSome
        rw [ht.histOther g hgf]; exact h2
      · rw [hframe]; simp [hgf, hpg]
  · intro g hg
    obtain ⟨h1, h2, pg, hpg, h3⟩ := h.free g hg
    have hgf : g ≠ f := by simpa using h1
    refine ⟨by simp, ?_, pg, ?_, h3⟩
    · intro p
      show Map.find (Map.assign s1.page_to_frame_ pid f) p ≠ some g
      rw [Map.find_assign]
      by_cases hp : p = pid
      · simp only [hp, if_true, ne_eq, Option.some.injEq]
        exact fun heq => hgf heq.symm
      · simp only [hp, if_false]; exact h2 p
    · rw [hframe]; simp [hgf, hpg]
  · exact h.freeNodup
  · intro g pg hg _
    rw [hframe] at hg
    by_cases hgf : g = f
    · simp only [hgf, if_true, Option.some.injEq] at hg
      subst hg
      refine ⟨hpin, ?_⟩
      intro htrue
      change Map.find r2.evictablePages g = some true at htrue
      rw [hgf, ht.evSelf] at htrue
      simp at htrue
    · simp only [hgf, if_false] at hg
      obtain ⟨h1, h2⟩ := h.pins g pg hg (by simpa using hgf)
      refine ⟨h1, ?_⟩
      intro htrue
      change Map.find r2.evictablePages g = some true at htrue
      rw [ht.evOther g hgf] at htrue
      exact h2 htrue
  · intro g hg
    simp at hg

/-- A frame keeps its page and gets new contents `page`, while the replacer
moves to `r2`. -/
theorem BufferPoolManagerInstance.Inv_update (s : BufferPoolManagerInstance) (f : Int)
    (pg page : Page) (r2 : LRUKReplacer) (dm : DiskManager) (hinv : s.Inv)
    (hf : s.frame f = some pg) (hid : page.page_id_ = pg.page_id_)
    (hfree : f ∈ s.free_list_ → page.pin_count_ = 0 ∧ page.is_dirty_ = false)
    (hr : r2.Inv) (hrs : r2.replacer_size_ = s.replacer_.replacer_size_)
    (hhist : ∀ g, (Map.find s.replacer_.accessHistory g).isSome →
      (Map.find r2.accessHistory g).isSome)
    (hev : ∀ g, g ≠ f → Map.find r2.evictablePages g = some true →
      Map.find s.replacer_.evictablePages g = some true)
    (hpin : 0 ≤ page.pin_count_ ∧
      (Map.find r2.evictablePages f = some true → page.pin_count_ = 0)) :
    BufferPoolManagerInstance.Inv
      { s with pages_ := s.pages_.set f.toNat page, replacer_ := r2, disk_manager_ := dm } := by
  have hfs : (s.frame f).isSome := by rw [hf]; rfl
  have hframe := BufferPoolManagerInstance.frame_set s
    { s with pages_ := s.pages_.set f.toNat page, replacer_ := r2, disk_manager_ := dm }
    f page hfs rfl
  constructor
  · show (s.pages_.set f.toNat page).length = s.pool_size_
    rw [List.length_set]; exact hinv.size
  · exact hrs.trans hinv.replacerSize
  · exact hr
  · exact hinv.tableSorted
  · intro p g hg
    obtain ⟨_, h2, pg1, hpg1, hid1⟩ := hinv.table p g hg
    refine ⟨by simp, hhist g h2, ?_⟩
    rw [hframe]
    by_cases hgf : g = f
    · refine ⟨page, by simp [hgf], ?_⟩
      rw [hgf, hf] at hpg1
      simp only [Option.some.injEq] at hpg1
      rw [hid, hpg1, hid1]
    · exact ⟨pg1, by simp [hgf, hpg1], hid1⟩
  · intro g hg
    obtain ⟨_, h2, pg1, hpg1, h3, h4, h5⟩ := hinv.free g hg
    refine ⟨by simp, h2, ?_⟩
    rw [hframe]
    by_cases hgf : g = f
    · rw [hgf, hf] at hpg1
      simp only [Option.some.injEq] at hpg1
      have := hfree (hgf ▸ hg)
      exact ⟨page, by simp [hgf], by rw [hid, hpg1, h3], this.1, this.2⟩
    · exact ⟨pg1, by simp [hgf, hpg1], h3, h4, h5⟩
  · exact hinv.freeNodup
  · intro g pg1 hg _
    rw [hframe] at hg
    by_cases hgf : g = f
    · simp only [hgf, if_true, Option.some.injEq] at hg
      subst hg
      rw [hgf]
      exact hpin
    · simp only [hgf, if_false] at hg
      obtain ⟨h1, h2⟩ := hinv.pins g pg1 hg (by simp)
      exact ⟨h1, fun htrue => h2 (hev g hgf htrue)⟩
  · intro g hg
    simp at hg

/-- A frame that holds the unpinned page `p` is reset and moved to the free
list. -/
theorem BufferPoolManagerInstance.Inv_release (s : BufferPoolManagerInstance) (p f : Int)
    (page : Page) (dm : DiskManager) (hinv : s.Inv)
    (hp : Map.find s.page_to_frame_ p = some f)
    (hpage : page.page_id_ = -1 ∧ page.pin_count_ = 0 ∧ page.is_dirty_ = false) :
    BufferPoolManagerInstance.Inv
      { s with pages_ := s.pages_.set f.toNat page, free_list_ := s.free_list_ ++ [f],
               page_to_frame_ := Map.erase s.page_to_frame_ p, disk_manager_ := dm } := by
  obtain ⟨_, hfh, pg, hf, hfid⟩ := hinv.table p f hp
  have hfs : (s.frame f).isSome := by rw [hf]; rfl
  have hframe := BufferPoolManagerInstance.frame_set s
    { s with pages_ := s.pages_.set f.toNat page, free_list_ := s.free_list_ ++ [f],
             page_to_frame_ := Map.erase s.page_to_frame_ p, disk_manager_ := dm }
    f page hfs rfl
  have hnotfree : f ∉ s.free_list_ := fun hmem => (hinv.free f hmem).2.1 p hp
  have hother : ∀ q g, Map.find (Map.erase s.page_to_frame_ p) q = some g →
      Map.find s.page_to_frame_ q = some g ∧ g ≠ f := by
    intro q g hg
    rw [Map.find_erase] at hg
    by_cases hq : q = p
    · simp [hq] at hg
    · simp only [hq, if_false] at hg
      refine ⟨hg, ?_⟩
      intro hgf
      obtain ⟨_, _, pg1, hpg1, hid1⟩ := hinv.table q g hg
      rw [hgf, hf] at hpg1
      simp only [Option.some.injEq] at hpg1
      exact hq (by rw [← hid1, ← hpg1, hfid])
  constructor
  · show (s.pages_.set f.toNat page).length = s.pool_size_
    rw [List.length_set]; exact hinv.size
  · exact hinv.replacerSize
  · exact hinv.replacer
  · exact Map.sorted_erase _ _ hinv.tableSorted
  · intro q g hg
    obtain ⟨hg1, hgf⟩ := hother q g hg
    obtain ⟨_, h2, pg1, hpg1, hid1⟩ := hinv.table q g hg1
    refine ⟨by simp, h2, pg1, ?_, hid1⟩
    rw [hframe]; simp [hgf, hpg1]
  · intro g hg
    change g ∈ s.free_list_ ++ [f] at hg
    rcases List.mem_append.mp hg with hmem | hmem
    · obtain ⟨_, h2, pg1, hpg1, h3⟩ := hinv.free g hmem
      have hgf : g ≠ f := fun heq => hnotfree (heq ▸ hmem)
      refine ⟨by simp, ?_, pg1, ?_, h3⟩
      · intro q hq
        exact h2 q (hother q g hq).1
      · rw [hframe]; simp [hgf, hpg1]
    · simp only [List.mem_singleton] at hmem
      refine ⟨by simp, ?_, page, ?_, hpage⟩
      · intro q hq
        exact (hother q g hq).2 hmem
      · rw [hframe]; simp [hmem]
  · show (s.free_list_ ++ [f]).Nodup
    refine List.nodup_append.mpr ⟨hinv.freeNodup, List.nodup_singleton f, ?_⟩
    intro a ha hb
    simp only [List.mem_singleton] at hb
    exact hnotfree (hb ▸ ha)
  · intro g pg1 hg _
    rw [hframe] at hg
    by_cases hgf : g = f
    · simp only [hgf, if_true, Option.some.injEq] at hg
      subst hg
      exact ⟨by rw [hpage.2.1], fun _ => hpage.2.1⟩
    · simp only [hgf, if_false] at hg
      exact hinv.pins g pg1 hg (by simp)
  · intro g hg
    simp at hg

/-! ## The public operations on a well-formed pool -/

theorem Acquired_same (inf : Int) (s s1 : BufferPoolManagerInstance) (st : Nat) (f : Int)
    (h : Acquired inf s st f s1) :
    s1.pages_ = s.pages_ ∧ s1.next_page_id_ = s.next_page_id_ ∧ s1.pool_size_ = s.pool_size_ := by
  rcases h with ⟨_, rest, _, hs1⟩ | ⟨_, _, _, pg, r1, _, _, _, _, _, hs1⟩ <;>
    (subst hs1; exact ⟨rfl, rfl, rfl⟩)

theorem BufferPoolManagerInstance.NewPgImp_spec (inf : Int) (s : BufferPoolManagerInstance)
    (hinv : s.Inv) (hinf : 0 ≤ inf) :
    (s.free_list_ = [] ∧ s.replacer_.curr_size_ = 0 ∧ s.NewPgImp inf = some (none, s)) ∨
    (∃ st f s1 r2, Acquired inf s st f s1 ∧ Touched s1.replacer_ f r2 ∧
      s.NewPgImp inf = some (some (s.next_page_id_, f),
        { s1 with
          pages_ := s1.pages_.set f.toNat
            { data_ := zeroData, page_id_ := s.next_page_id_, pin_count_ := 1,
              is_dirty_ := false },
          replacer_ := r2, next_page_id_ := s.next_page_id_ + 1,
          page_to_frame_ := Map.assign s1.page_to_frame_ s.next_page_id_ f })) := by
  rcases BufferPoolManagerInstance.RetrieveFreePage_spec inf s hinv hinf with
    ⟨h1, h2, h3⟩ | ⟨st, f, s1, hret, hacq⟩
  · left
    refine ⟨h1, h2, ?_⟩
    simp only [BufferPoolManagerInstance.NewPgImp, h3]
  · right
    have hhole := BufferPoolManagerInstance.InvHole_of_Acquired inf s s1 st f hinv hacq
    obtain ⟨_, hnext, _⟩ := Acquired_same inf s s1 st f hacq
    have hfs := hhole.hole f rfl
    obtain ⟨pg0, hpg0⟩ := Option.isSome_iff_exists.mp hfs
    have hvalid : validFrame s1.replacer_.replacer_size_ f := by
      rw [hhole.replacerSize, ← hhole.size]
      exact (BufferPoolManagerInstance.frame_valid s1 f).mp hfs
    have e1 := BufferPoolManagerInstance.modifyFrame_eq s1 f
      (fun _ => { data_ := zeroData, page_id_ := -1, pin_count_ := 0, is_dirty_ := false })
      pg0 hpg0
    have fA := BufferPoolManagerInstance.frame_set s1 _ f
      { data_ := zeroData, page_id_ := -1, pin_count_ := 0, is_dirty_ := false } hfs
      (rfl : BufferPoolManagerInstance.pages_
        { s1 with
          pages_ := s1.pages_.set f.toNat
            { data_ := zeroData, page_id_ := -1, pin_count_ := 0, is_dirty_ := false } } = _) f
    simp only [if_true] at fA
    have e2 := BufferPoolManagerInstance.modifyFrame_eq _ f
      (fun pg => { pg with pin_count_ := pg.pin_count_ + 1 }) _ fA
    obtain ⟨r2, e3, ht⟩ := BufferPoolManagerInstance.touch_spec
      { s1 with
        pages_ := (s1.pages_.set f.toNat
          { data_ := zeroData, page_id_ := -1, pin_count_ := 0, is_dirty_ := false }).set f.toNat
          { data_ := zeroData, page_id_ := -1, pin_count_ := 0 + 1, is_dirty_ := false } }
      f hhole.replacer hvalid
    refine ⟨st, f, s1, r2, hacq, ht, ?_⟩
    have fC : BufferPoolManagerInstance.frame
        { s1 with
          pages_ := (s1.pages_.set f.toNat
            { data_ := zeroData, page_id_ := -1, pin_count_ := 0, is_dirty_ := false }).set
              f.toNat
            { data_ := zeroData, page_id_ := -1, pin_count_ := 0 + 1, is_dirty_ := false },
          replacer_ := r2, next_page_id_ := s1.next_page_id_ + 1 } f =
        some { data_ := zeroData, page_id_ := -1, pin_count_ := 0 + 1, is_dirty_ := false } := by
      unfold BufferPoolManagerInstance.frame at hpg0 ⊢
      by_cases h0 : 0 ≤ f
      · simp only [h0, if_true] at hpg0 ⊢
        obtain ⟨hlt, _⟩ := List.getElem?_eq_some.mp hpg0
        simp [List.getElem?_set, hlt]
      · simp [h0] at hpg0
    have e4 := BufferPoolManagerInstance.modifyFrame_eq _ f
      (fun pg => { pg with page_id_ := s1.next_page_id_ }) _ fC
    simp only [BufferPoolManagerInstance.NewPgImp, hret, BufferPoolManagerInstance.ResetPageInfo,
      e1, e2, e3, BufferPoolManagerInstance.AllocatePage, e4]
    simp only [List.set_set, hnext]
    rfl

theorem BufferPoolManagerInstance.frame_set_self (s : BufferPoolManagerInstance) (f : Int)
    (pg x : Page) (hf : s.frame f = some pg) (s1 : BufferPoolManagerInstance)
    (hs1 : s1.pages_ = s.pages_.set f.toNat x) : s1.frame f = some x := by
  rw [BufferPoolManagerInstance.frame_set s s1 f x (by rw [hf]; rfl) hs1 f]
  simp

theorem BufferPoolManagerInstance.FetchPgImp_resident (inf : Int)
    (s : BufferPoolManagerInstance) (hinv : s.Inv) (p f : Int)
    (hp : Map.find s.page_to_frame_ p = some f) :
    ∃ pg r2, s.frame f = some pg ∧ Touched s.replacer_ f r2 ∧
      s.FetchPgImp inf p = some (some f,
        { s with pages_ := s.pages_.set f.toNat { pg with pin_count_ := pg.pin_count_ + 1 },
                 replacer_ := r2 }) := by
  obtain ⟨_, _, pg, hpg, _⟩ := hinv.table p f hp
  have hvalid : validFrame s.replacer_.replacer_size_ f := by
    rw [hinv.replacerSize, ← hinv.size]
    exact (BufferPoolManagerInstance.frame_valid s f).mp (by rw [hpg]; rfl)
  have e1 := BufferPoolManagerInstance.modifyFrame_eq s f
    (fun pg => { pg with pin_count_ := pg.pin_count_ + 1 }) pg hpg
  obtain ⟨r2, e2, ht⟩ := BufferPoolManagerInstance.touch_spec
    { s with pages_ := s.pages_.set f.toNat { pg with pin_count_ := pg.pin_count_ + 1 } }
    f hinv.replacer hvalid
  refine ⟨pg, r2, hpg, ht, ?_⟩
  simp only [BufferPoolManagerInstance.FetchPgImp, hp, e1, e2]

theorem BufferPoolManagerInstance.FetchPgImp_absent (inf : Int)
    (s : BufferPoolManagerInstance) (hinv : s.Inv) (hinf : 0 ≤ inf) (p : Int)
    (hp : Map.find s.page_to_frame_ p = none) :
    (s.free_list_ = [] ∧ s.replacer_.curr_size_ = 0 ∧ s.FetchPgImp inf p = some (none, s)) ∨
    (∃ st f s1 r2, Acquired inf s st f s1 ∧ Touched s1.replacer_ f r2 ∧
      s.FetchPgImp inf p = some (some f,
        { s1 with
          pages_ := s1.pages_.set f.toNat
            { data_ := (s1.disk_manager_.ReadPage p zeroData).1, page_id_ := p,
              pin_count_ := 1, is_dirty_ := false },
          disk_manager_ := (s1.disk_manager_.ReadPage p zeroData).2,
          replacer_ := r2,
          page_to_frame_ := Map.assign s1.page_to_frame_ p f })) := by
  rcases BufferPoolManagerInstance.RetrieveFreePage_spec inf s hinv hinf with
    ⟨h1, h2, h3⟩ | ⟨st, f, s1, hret, hacq⟩
  · left
    refine ⟨h1, h2, ?_⟩
    simp only [BufferPoolManagerInstance.FetchPgImp, hp, h3]
  · right
    have hhole := BufferPoolManagerInstance.InvHole_of_Acquired inf s s1 st f hinv hacq
    have hfs := hhole.hole f rfl
    obtain ⟨pg0, hpg0⟩ := Option.isSome_iff_exists.mp hfs
    have hvalid : validFrame s1.replacer_.replacer_size_ f := by
      rw [hhole.replacerSize, ← hhole.size]
      exact (BufferPoolManagerInstance.frame_valid s1 f).mp hfs
    have e1 := BufferPoolManagerInstance.modifyFrame_eq s1 f
      (fun _ => { data_ := zeroData, page_id_ := -1, pin_count_ := 0, is_dirty_ := false })
      pg0 hpg0
    have fA := BufferPoolManagerInstance.frame_set_self s1 f pg0
      { data_ := zeroData, page_id_ := -1, pin_count_ := 0, is_dirty_ := false } hpg0
      { s1 with
        pages_ := s1.pages_.set f.toNat
          { data_ := zeroData, page_id_ := -1, pin_count_ := 0, is_dirty_ := false } } rfl
    have e2 := BufferPoolManagerInstance.modifyFrame_eq _ f
      (fun pg => { pg with page_id_ := p, pin_count_ := pg.pin_count_ + 1 }) _ fA
    have fB := BufferPoolManagerInstance.frame_set_self _ f _
      { data_ := zeroData, page_id_ := p, pin_count_ := 0 + 1, is_dirty_ := false } fA
      { s1 with
        pages_ := (s1.pages_.set f.toNat
          { data_ := zeroData, page_id_ := -1, pin_count_ := 0, is_dirty_ := false }).set f.toNat
          { data_ := zeroData, page_id_ := p, pin_count_ := 0 + 1, is_dirty_ := false } } rfl
    obtain ⟨r2, e3, ht⟩ := BufferPoolManagerInstance.touch_spec
      { s1 with
        pages_ := ((s1.pages_.set f.toNat
          { data_ := zeroData, page_id_ := -1, pin_count_ := 0, is_dirty_ := false }).set f.toNat
          { data_ := zeroData, page_id_ := p, pin_count_ := 0 + 1, is_dirty_ := false }).set
            f.toNat
          { data_ := (s1.disk_manager_.ReadPage p zeroData).1, page_id_ := p,
            pin_count_ := 0 + 1, is_dirty_ := false },
        disk_manager_ := (s1.disk_manager_.ReadPage p zeroData).2 }
      f hhole.replacer hvalid
    refine ⟨st, f, s1, r2, hacq, ht, ?_⟩
    simp only [BufferPoolManagerInstance.FetchPgImp, hp, hret,
      BufferPoolManagerInstance.ResetPageInfo, e1, e2, BufferPoolManagerInstance.readInto, fB, e3]
    simp only [List.set_set]
    rfl

theorem BufferPoolManagerInstance.UnpinPgImp_spec (s : BufferPoolManagerInstance)
    (hinv : s.Inv) (p f : Int) (flag : Bool) (hp : Map.find s.page_to_frame_ p = some f) :
    ∃ pg, s.frame f = some pg ∧
      ((pg.pin_count_ = 0 ∧ s.UnpinPgImp p flag = some (false, s)) ∨
       (pg.pin_count_ ≠ 0 ∧ ∃ r1,
          (if pg.pin_count_ - 1 = 0 then s.replacer_.SetEvictable f true
           else some s.replacer_) = some r1 ∧
          s.UnpinPgImp p flag = some (true,
            { s with pages_ := s.pages_.set f.toNat
                       { pg with pin_count_ := pg.pin_count_ - 1, is_dirty_ := flag },
                     replacer_ := r1 }))) := by
  obtain ⟨_, _, pg, hpg, _⟩ := hinv.table p f hp
  refine ⟨pg, hpg, ?_⟩
  by_cases hpin : pg.pin_count_ = 0
  · left
    refine ⟨hpin, ?_⟩
    simp only [BufferPoolManagerInstance.UnpinPgImp, hp, hpg, hpin, if_true]
  · right
    have hvalid : validFrame s.replacer_.replacer_size_ f := by
      rw [hinv.replacerSize, ← hinv.size]
      exact (BufferPoolManagerInstance.frame_valid s f).mp (by rw [hpg]; rfl)
    obtain ⟨r1, hr1⟩ : ∃ r1, (if pg.pin_count_ - 1 = 0 then s.replacer_.SetEvictable f true
        else some s.replacer_) = some r1 := by
      by_cases h0 : pg.pin_count_ - 1 = 0
      · simp only [h0, if_true]
        exact ⟨_, LRUKReplacer.SetEvictable_eq s.replacer_ f true hvalid⟩
      · simp only [h0, if_false]
        exact ⟨_, rfl⟩
    refine ⟨hpin, r1, hr1, ?_⟩
    have e1 := BufferPoolManagerInstance.modifyFrame_eq s f
      (fun q => { q with pin_count_ := pg.pin_count_ - 1 }) pg hpg
    have fA := BufferPoolManagerInstance.frame_set_self s f pg
      { pg with pin_count_ := pg.pin_count_ - 1 } hpg
      { s with
        pages_ := s.pages_.set f.toNat { pg with pin_count_ := pg.pin_count_ - 1 },
        replacer_ := r1 } rfl
    have e2 := BufferPoolManagerInstance.modifyFrame_eq _ f
      (fun q => { q with is_dirty_ := flag }) _ fA
    simp only [BufferPoolManagerInstance.UnpinPgImp, hp, hpg, hpin, if_false, e1, hr1, e2]
    simp only [List.set_set]

theorem BufferPoolManagerInstance.FlushPgImp_spec (s : BufferPoolManagerInstance)
    (hinv : s.Inv) (p f : Int) (hp : Map.find s.page_to_frame_ p = some f) :
    ∃ pg, s.frame f = some pg ∧
      s.FlushPgImp p = some (true,
        { s with disk_manager_ := s.disk_manager_.WritePage p pg.data_,
                 pages_ := s.pages_.set f.toNat { pg with is_dirty_ := false } }) := by
  obtain ⟨_, _, pg, hpg, _⟩ := hinv.table p f hp
  refine ⟨pg, hpg, ?_⟩
  have fA : BufferPoolManagerInstance.frame
      { s with disk_manager_ := s.disk_manager_.WritePage p pg.data_ } f = some pg := hpg
  have e1 := BufferPoolManagerInstance.modifyFrame_eq _ f
    (fun q => { q with is_dirty_ := false }) pg fA
  simp only [BufferPoolManagerInstance.FlushPgImp, hp, hpg, e1]

theorem BufferPoolManagerInstance.DeletePgImp_spec (s : BufferPoolManagerInstance)
    (hinv : s.Inv) (p f : Int) (hp : Map.find s.page_to_frame_ p = some f) :
    ∃ pg, s.frame f = some pg ∧
      (((pg.is_dirty_ = true ∨ pg.pin_count_ ≠ 0) ∧ s.DeletePgImp p = some (false, s)) ∨
       (pg.is_dirty_ = false ∧ pg.pin_count_ = 0 ∧
        s.DeletePgImp p = some (true,
          { s with
            pages_ := s.pages_.set f.toNat
              { data_ := zeroData, page_id_ := -1, pin_count_ := 0, is_dirty_ := false },
            free_list_ := s.free_list_ ++ [f],
            page_to_frame_ := Map.erase s.page_to_frame_ p,
            disk_manager_ := s.disk_manager_.DeallocatePage p }))) := by
  obtain ⟨_, _, pg, hpg, _⟩ := hinv.table p f hp
  refine ⟨pg, hpg, ?_⟩
  by_cases hc : pg.is_dirty_ = true ∨ pg.pin_count_ ≠ 0
  · left
    refine ⟨hc, ?_⟩
    simp only [BufferPoolManagerInstance.DeletePgImp, hp, hpg, hc, if_true]
  · right
    have hd : pg.is_dirty_ = false := by
      cases h : pg.is_dirty_ with
      | false => rfl
      | true => exact absurd (Or.inl h) hc
    have hpin : pg.pin_count_ = 0 := by
      by_contra h
      exact hc (Or.inr h)
    refine ⟨hd, hpin, ?_⟩
    have e1 := BufferPoolManagerInstance.modifyFrame_eq s f
      (fun _ => { data_ := zeroData, page_id_ := -1, pin_count_ := 0, is_dirty_ := false })
      pg hpg
    simp only [BufferPoolManagerInstance.DeletePgImp, hp, hpg, hc, if_false,
      BufferPoolManagerInstance.ResetPageInfo, e1, BufferPoolManagerInstance.DeallocatePage]

/-! ## Reachable pool states are well-formed -/

theorem BufferPoolManagerInstance.Inv_create (n k : Nat) (dm : DiskManager) :
    (BufferPoolManagerInstance.create n dm k).Inv := by
  have hframe : ∀ (f : Int) pg, (BufferPoolManagerInstance.create n dm k).frame f = some pg →
      pg = Page.blank := by
    intro f pg hf
    unfold BufferPoolManagerInstance.frame BufferPoolManagerInstance.create at hf
    by_cases h0 : 0 ≤ f
    · simp only [h0, if_true, List.getElem?_replicate] at hf
      split_ifs at hf
      simpa using hf.symm
    · simp [h0] at hf
  constructor
  · simp [BufferPoolManagerInstance.create]
  · rfl
  · exact LRUKReplacer.wf_create n k
  · exact List.Pairwise.nil
  · intro p f hf
    simp [BufferPoolManagerInstance.create, Map.find] at hf
  · intro f hf
    refine ⟨by simp, fun p => by simp [BufferPoolManagerInstance.create, Map.find], ?_⟩
    simp only [BufferPoolManagerInstance.create, List.mem_map, List.mem_range] at hf
    obtain ⟨i, hi, hif⟩ := hf
    refine ⟨Page.blank, ?_, rfl, rfl, rfl⟩
    subst hif
    simp [BufferPoolManagerInstance.frame, BufferPoolManagerInstance.create,
      List.getElem?_replicate, hi]
  · simp only [BufferPoolManagerInstance.create]
    exact List.Nodup.map (fun a b h => by simpa using h) (List.nodup_range n)
  · intro f pg hf _
    rw [hframe f pg hf]
    exact ⟨le_refl _, fun _ => rfl⟩
  · intro g hg
    simp at hg

theorem BufferPoolManagerInstance.Inv_NewPgImp (inf : Int) (hinf : 0 ≤ inf)
    (s s1 : BufferPoolManagerInstance) (res : Option (page_id_t × frame_id_t)) (hinv : s.Inv)
    (h : s.NewPgImp inf = some (res, s1)) : s1.Inv := by
  rcases BufferPoolManagerInstance.NewPgImp_spec inf s hinv hinf with
    ⟨_, _, h3⟩ | ⟨st, f, s0, r2, hacq, ht, h3⟩
  · rw [h3] at h
    simp only [Option.some.injEq, Prod.mk.injEq] at h
    exact h.2 ▸ hinv
  · rw [h3] at h
    simp only [Option.some.injEq, Prod.mk.injEq] at h
    rw [← h.2]
    exact BufferPoolManagerInstance.Inv_install s0 f _ r2 s.next_page_id_ (s.next_page_id_ + 1)
      s0.disk_manager_ (BufferPoolManagerInstance.InvHole_of_Acquired inf s s0 st f hinv hacq)
      ht rfl (by show (0 : Int) ≤ 1; decide)

theorem BufferPoolManagerInstance.not_free_of_table (s : BufferPoolManagerInstance)
    (hinv : s.Inv) (p f : Int) (hp : Map.find s.page_to_frame_ p = some f) :
    f ∉ s.free_list_ :=
  fun hmem => (hinv.free f hmem).2.1 p hp

theorem BufferPoolManagerInstance.Inv_FetchPgImp (inf : Int) (hinf : 0 ≤ inf)
    (s s1 : BufferPoolManagerInstance) (p : Int) (res : Option frame_id_t) (hinv : s.Inv)
    (h : s.FetchPgImp inf p = some (res, s1)) : s1.Inv := by
  cases hp : Map.find s.page_to_frame_ p with
  | some f =>
    obtain ⟨pg, r2, hpg, ht, h3⟩ :=
      BufferPoolManagerInstance.FetchPgImp_resident inf s hinv p f hp
    rw [h3] at h
    simp only [Option.some.injEq, Prod.mk.injEq] at h
    rw [← h.2]
    have hpins := hinv.pins f pg hpg (by simp)
    refine BufferPoolManagerInstance.Inv_update s f pg _ r2 s.disk_manager_ hinv hpg rfl
      (fun hmem => absurd hmem (BufferPoolManagerInstance.not_free_of_table s hinv p f hp))
      ht.inv ht.size ?_ ?_ ⟨?_, ?_⟩
    · intro g hg
      by_cases hgf : g = f
      · rw [hgf, ht.histSelf]; rfl
      · rw [ht.histOther g hgf]; exact hg
    · intro g hgf hg
      rw [ht.evOther g hgf] at hg; exact hg
    · show 0 ≤ pg.pin_count_ + 1
      have := hpins.1
      omega
    · intro htrue
      rw [ht.evSelf] at htrue
      simp at htrue
  | none =>
    rcases BufferPoolManagerInstance.FetchPgImp_absent inf s hinv hinf p hp with
      ⟨_, _, h3⟩ | ⟨st, f, s0, r2, hacq, ht, h3⟩
    · rw [h3] at h
      simp only [Option.some.injEq, Prod.mk.injEq] at h
      exact h.2 ▸ hinv
    · rw [h3] at h
      simp only [Option.some.injEq, Prod.mk.injEq] at h
      rw [← h.2]
      exact BufferPoolManagerInstance.Inv_install s0 f _ r2 p s0.next_page_id_
        (s0.disk_manager_.ReadPage p zeroData).2
        (BufferPoolManagerInstance.InvHole_of_Acquired inf s s0 st f hinv hacq)
        ht rfl (by show (0 : Int) ≤ 1; decide)

theorem BufferPoolManagerInstance.Inv_UnpinPgImp (s s1 : BufferPoolManagerInstance) (p : Int)
    (flag res : Bool) (hinv : s.Inv) (h : s.UnpinPgImp p flag = some (res, s1)) : s1.Inv := by
  cases hp : Map.find s.page_to_frame_ p with
  | none =>
    simp only [BufferPoolManagerInstance.UnpinPgImp, hp, Option.some.injEq, Prod.mk.injEq] at h
    exact h.2 ▸ hinv
  | some f =>
    obtain ⟨pg, hpg, hcase⟩ := BufferPoolManagerInstance.UnpinPgImp_spec s hinv p f flag hp
    have hpins := hinv.pins f pg hpg (by simp)
    have hnf := BufferPoolManagerInstance.not_free_of_table s hinv p f hp
    rcases hcase with ⟨_, h3⟩ | ⟨hpin, r1, hr1, h3⟩
    · rw [h3] at h
      simp only [Option.some.injEq, Prod.mk.injEq] at h
      exact h.2 ▸ hinv
    · rw [h3] at h
      simp only [Option.some.injEq, Prod.mk.injEq] at h
      rw [← h.2]
      have hpos : 0 ≤ pg.pin_count_ - 1 := by
        have := hpins.1
        omega
      by_cases h0 : pg.pin_count_ - 1 = 0
      · simp only [h0, if_true] at hr1
        have htr := (hinv.table p f hp).2.1
        have hvalid : validFrame s.replacer_.replacer_size_ f :=
          hinv.replacer.validHistory f htr
        have hr1eq := hr1
        rw [LRUKReplacer.SetEvictable_eq s.replacer_ f true hvalid, Option.some.injEq] at hr1eq
        refine BufferPoolManagerInstance.Inv_update s f pg _ r1 s.disk_manager_ hinv hpg rfl
          (fun hmem => absurd hmem hnf)
          (LRUKReplacer.Inv_SetEvictable s.replacer_ r1 f true hinv.replacer (Or.inr htr) hr1)
          (by rw [← hr1eq]) ?_ ?_ ⟨hpos, fun _ => h0⟩
        · intro g hg
          rw [← hr1eq]; exact hg
        · intro g hgf hg
          rw [← hr1eq] at hg
          change Map.find (Map.assign s.replacer_.evictablePages f true) g = some true at hg
          rw [Map.find_assign] at hg
          simpa [hgf] using hg
      · simp only [h0, if_false, Option.some.injEq] at hr1
        subst hr1
        refine BufferPoolManagerInstance.Inv_update s f pg _ s.replacer_ s.disk_manager_ hinv
          hpg rfl (fun hmem => absurd hmem hnf) hinv.replacer rfl (fun _ hg => hg)
          (fun _ _ hg => hg) ⟨hpos, ?_⟩
        intro htrue
        exact absurd (hpins.2 htrue) hpin

theorem BufferPoolManagerInstance.Inv_FlushPgImp (s s1 : BufferPoolManagerInstance) (p : Int)
    (res : Bool) (hinv : s.Inv) (h : s.FlushPgImp p = some (res, s1)) : s1.Inv := by
  cases hp : Map.find s.page_to_frame_ p with
  | none =>
    simp only [BufferPoolManagerInstance.FlushPgImp, hp, Option.some.injEq, Prod.mk.injEq] at h
    exact h.2 ▸ hinv
  | some f =>
    obtain ⟨pg, hpg, h3⟩ := BufferPoolManagerInstance.FlushPgImp_spec s hinv p f hp
    have hpins := hinv.pins f pg hpg (by simp)
    rw [h3] at h
    simp only [Option.some.injEq, Prod.mk.injEq] at h
    rw [← h.2]
    exact BufferPoolManagerInstance.Inv_update s f pg _ s.replacer_ _ hinv hpg rfl
      (fun hmem => absurd hmem (BufferPoolManagerInstance.not_free_of_table s hinv p f hp))
      hinv.replacer rfl (fun _ hg => hg) (fun _ _ hg => hg) hpins

theorem BufferPoolManagerInstance.Inv_FlushLoop (ids : List page_id_t) :
    ∀ s s1 : BufferPoolManagerInstance, s.Inv →
      BufferPoolManagerInstance.FlushLoop ids s = some s1 → s1.Inv := by
  induction ids with
  | nil =>
    intro s s1 hinv h
    simp only [BufferPoolManagerInstance.FlushLoop, Option.some.injEq] at h
    exact h ▸ hinv
  | cons p rest ih =>
    intro s s1 hinv h
    simp only [BufferPoolManagerInstance.FlushLoop] at h
    split at h
    · simp at h
    · rename_i b s2 hfl
      exact ih s2 s1 (BufferPoolManagerInstance.Inv_FlushPgImp s s2 p b hinv hfl) h

theorem BufferPoolManagerInstance.Inv_DeletePgImp (s s1 : BufferPoolManagerInstance) (p : Int)
    (res : Bool) (hinv : s.Inv) (h : s.DeletePgImp p = some (res, s1)) : s1.Inv := by
  cases hp : Map.find s.page_to_frame_ p with
  | none =>
    simp only [BufferPoolManagerInstance.DeletePgImp, hp, Option.some.injEq, Prod.mk.injEq] at h
    exact h.2 ▸ hinv
  | some f =>
    obtain ⟨pg, hpg, hcase⟩ := BufferPoolManagerInstance.DeletePgImp_spec s hinv p f hp
    rcases hcase with ⟨_, h3⟩ | ⟨_, _, h3⟩
    · rw [h3] at h
      simp only [Option.some.injEq, Prod.mk.injEq] at h
      exact h.2 ▸ hinv
    · rw [h3] at h
      simp only [Option.some.injEq, Prod.mk.injEq] at h
      rw [← h.2]
      exact BufferPoolManagerInstance.Inv_release s p f _ _ hinv hp ⟨rfl, rfl, rfl⟩

theorem BufferPoolManagerInstance.Inv_WriteData (s s1 : BufferPoolManagerInstance) (f : Int)
    (data : List Nat) (hinv : s.Inv)
    (h : s.modifyFrame f (fun pg => { pg with data_ := data }) = some s1) : s1.Inv := by
  cases hpg : s.frame f with
  | none => simp [BufferPoolManagerInstance.modifyFrame, hpg] at h
  | some pg =>
    rw [BufferPoolManagerInstance.modifyFrame_eq s f _ pg hpg, Option.some.injEq] at h
    rw [← h]
    refine BufferPoolManagerInstance.Inv_update s f pg _ s.replacer_ s.disk_manager_ hinv hpg rfl
      ?_ hinv.replacer rfl (fun _ hg => hg) (fun _ _ hg => hg) (hinv.pins f pg hpg (by simp))
    intro hmem
    obtain ⟨_, _, pg1, hpg1, _, h4, h5⟩ := hinv.free f hmem
    rw [hpg, Option.some.injEq] at hpg1
    subst hpg1
    exact ⟨h4, h5⟩

theorem BufferPoolManagerInstance.Inv_step (inf : Int) (hinf : 0 ≤ inf)
    (s s1 : BufferPoolManagerInstance) (op : Op) (hinv : s.Inv)
    (h : s.step inf op = some s1) : s1.Inv := by
  cases op with
  | NewPage =>
    simp only [BufferPoolManagerInstance.step, Option.map_eq_some'] at h
    obtain ⟨⟨res, s2⟩, h1, h2⟩ := h
    exact h2 ▸ BufferPoolManagerInstance.Inv_NewPgImp inf hinf s s2 res hinv h1
  | FetchPage p =>
    simp only [BufferPoolManagerInstance.step, Option.map_eq_some'] at h
    obtain ⟨⟨res, s2⟩, h1, h2⟩ := h
    exact h2 ▸ BufferPoolManagerInstance.Inv_FetchPgImp inf hinf s s2 p res hinv h1
  | UnpinPage p flag =>
    simp only [BufferPoolManagerInstance.step, Option.map_eq_some'] at h
    obtain ⟨⟨res, s2⟩, h1, h2⟩ := h
    exact h2 ▸ BufferPoolManagerInstance.Inv_UnpinPgImp s s2 p flag res hinv h1
  | FlushPage p =>
    simp only [BufferPoolManagerInstance.step, Option.map_eq_some'] at h
    obtain ⟨⟨res, s2⟩, h1, h2⟩ := h
    exact h2 ▸ BufferPoolManagerInstance.Inv_FlushPgImp s s2 p res hinv h1
  | FlushAllPages =>
    exact BufferPoolManagerInstance.Inv_FlushLoop _ s s1 hinv h
  | DeletePage p =>
    simp only [BufferPoolManagerInstance.step, Option.map_eq_some'] at h
    obtain ⟨⟨res, s2⟩, h1, h2⟩ := h
    exact h2 ▸ BufferPoolManagerInstance.Inv_DeletePgImp s s2 p res hinv h1
  | WriteData f data =>
    exact BufferPoolManagerInstance.Inv_WriteData s s1 f data hinv h

theorem BufferPoolManagerInstance.Inv_run (inf : Int) (hinf : 0 ≤ inf) (ops : List Op) :
    ∀ s s1 : BufferPoolManagerInstance, s.Inv →
      BufferPoolManagerInstance.run inf ops s = some s1 → s1.Inv := by
  induction ops with
  | nil =>
    intro s s1 hinv h
    simp only [BufferPoolManagerInstance.run, Option.some.injEq] at h
    exact h ▸ hinv
  | cons op rest ih =>
    intro s s1 hinv h
    simp only [BufferPoolManagerInstance.run] at h
    split at h
    · simp at h
    · rename_i s2 hstep
      exact ih s2 s1 (BufferPoolManagerInstance.Inv_step inf hinf s s2 op hinv hstep) h

theorem Inv_of_Reachable (inf : Int) (hinf : 0 ≤ inf) (n k : Nat) (dm : DiskManager)
    (s : BufferPoolManagerInstance) (h : Reachable inf n k dm s) : s.Inv := by
  obtain ⟨ops, hops⟩ := h
  exact BufferPoolManagerInstance.Inv_run inf hinf ops _ s
    (BufferPoolManagerInstance.Inv_create n k dm) hops

/-! ## C2: a pinned frame is never evictable -/

theorem stateUnpinned_reachable : Reachable 1000 1 2 emptyDisk stateUnpinned :=
  ⟨[Op.NewPage, Op.UnpinPage 0 false], rfl⟩

/-- C2. In every state reachable from a fresh pool, a frame with a positive
pin count is not flagged evictable in the replacer; and whenever
`RetrieveFreePage` hands out a frame, that frame has pin count 0, and when it
comes from the replacer (status 1) it is the frame `Evict` returned and it
was flagged evictable. -/
theorem pinned_frame_never_evictable (inf : Int) (hinf : 0 ≤ inf) (n k : Nat) (dm : DiskManager)
    (s : BufferPoolManagerInstance) (hreach : Reachable inf n k dm s) :
    (∀ f pg, s.frame f = some pg → 0 < pg.pin_count_ → ¬ s.replacer_.IsEvictable f) ∧
    (∀ st f s1, s.RetrieveFreePage inf = some ((st, some f), s1) →
      ∃ pg, s.frame f = some pg ∧ pg.pin_count_ = 0 ∧
        (st = 1 → s.replacer_.IsEvictable f ∧
          ∃ r1, s.replacer_.Evict inf = some (some f, r1))) := by
  have hinv := Inv_of_Reachable inf hinf n k dm s hreach
  refine ⟨?_, ?_⟩
  · intro f pg hf hpos hev
    have := (hinv.pins f pg hf (by simp)).2 hev
    omega
  · intro st f s1 hret
    rcases BufferPoolManagerInstance.RetrieveFreePage_spec inf s hinv hinf with
      ⟨_, _, h3⟩ | ⟨st1, f1, s2, h3, hacq⟩
    · rw [h3] at hret
      simp at hret
    · rw [h3] at hret
      simp only [Option.some.injEq, Prod.mk.injEq] at hret
      obtain ⟨⟨hst, hf⟩, _⟩ := hret
      subst hst hf
      rcases hacq with ⟨hst0, rest, hfl, _⟩ | ⟨_, _, _, pg, r1, hpg, hpin, hev, hevict, _, _⟩
      · obtain ⟨_, _, pg, hpg, _, hpin, _⟩ :=
          hinv.free f1 (by rw [hfl]; exact List.mem_cons_self _ _)
        exact ⟨pg, hpg, hpin, fun h1 => by omega⟩
      · exact ⟨pg, hpg, hpin, fun _ => ⟨hev, r1, hevict⟩⟩

theorem pinned_frame_never_evictable_witness :
    (∀ f pg, stateUnpinned.frame f = some pg → 0 < pg.pin_count_ →
      ¬ stateUnpinned.replacer_.IsEvictable f) ∧
    (∀ st f s1, stateUnpinned.RetrieveFreePage 1000 = some ((st, some f), s1) →
      ∃ pg, stateUnpinned.frame f = some pg ∧ pg.pin_count_ = 0 ∧
        (st = 1 → stateUnpinned.replacer_.IsEvictable f ∧
          ∃ r1, stateUnpinned.replacer_.Evict 1000 = some (some f, r1))) :=
  pinned_frame_never_evictable 1000 (by decide) 1 2 emptyDisk stateUnpinned
    stateUnpinned_reachable

/-! ## C3: the free list and the page table account for all frames -/

theorem BufferPoolManagerInstance.Tight_create (n k : Nat) (dm : DiskManager) :
    (BufferPoolManagerInstance.create n dm k).Tight none := by
  constructor
  · intro f hf
    right; left
    simp only [BufferPoolManagerInstance.create, List.length_replicate, validFrame] at hf ⊢
    simp only [List.mem_map, List.mem_range]
    exact ⟨f.toNat, by omega, by simp; omega⟩
  · intro p f hf
    simp [BufferPoolManagerInstance.create, Map.find] at hf
  · simp [BufferPoolManagerInstance.create, Map.size]

theorem BufferPoolManagerInstance.Tight_of_Acquired (inf : Int)
    (s s1 : BufferPoolManagerInstance) (st : Nat) (f : Int) (hinv : s.Inv)
    (ht : s.Tight none) (h : Acquired inf s st f s1) : s1.Tight (some f) := by
  rcases h with ⟨_, rest, hfl, hs1⟩ | ⟨_, hfl, hsz, pg, r1, hpg, hpin, hv, hev, hevd, hs1⟩
  · subst hs1
    constructor
    · intro g hg
      rcases ht.cover g hg with h1 | h1 | h1
      · simp at h1
      · rw [hfl] at h1
        rcases List.mem_cons.mp h1 with h2 | h2
        · left; rw [h2]
        · right; left; exact h2
      · right; right; exact h1
    · exact ht.fresh
    · have := ht.count
      rw [hfl] at this
      simp only [List.length_cons, Option.isSome_none, Option.isSome_some, if_true] at this ⊢
      simp only [Bool.false_eq_true, if_false] at this
      omega
  · subst hs1
    have hvalid : validFrame s.pages_.length f :=
      (BufferPoolManagerInstance.frame_valid s f).mp (by rw [hpg]; rfl)
    have hin : Map.find s.page_to_frame_ pg.page_id_ = some f := by
      rcases ht.cover f hvalid with h1 | h1 | ⟨q, hq⟩
      · simp at h1
      · rw [hfl] at h1; simp at h1
      · obtain ⟨_, _, pg1, hpg1, hid⟩ := hinv.table q f hq
        rw [hpg, Option.some.injEq] at hpg1
        rw [hpg1, hid]; exact hq
    constructor
    · intro g hg
      rcases ht.cover g hg with h1 | h1 | ⟨q, hq⟩
      · simp at h1
      · rw [hfl] at h1; simp at h1
      · by_cases hgf : g = f
        · left; rw [hgf]
        · right; right
          refine ⟨q, ?_⟩
          show Map.find (Map.erase s.page_to_frame_ pg.page_id_) q = some g
          rw [Map.find_erase]
          have : q ≠ pg.page_id_ := by
            intro heq
            rw [heq, hin, Option.some.injEq] at hq
            exact hgf hq.symm
          simp [this, hq]
    · intro q g hg
      change Map.find (Map.erase s.page_to_frame_ pg.page_id_) q = some g at hg
      rw [Map.find_erase] at hg
      by_cases hq : q = pg.page_id_
      · simp [hq] at hg
      · simp only [hq, if_false] at hg
        exact ht.fresh q g hg
    · have h1 := ht.count
      have h2 := Map.size_erase s.page_to_frame_ pg.page_id_ hinv.tableSorted
      rw [hin] at h2
      simp only [Option.isSome_none, Option.isSome_some, if_true] at h1 h2 ⊢
      simp only [Bool.false_eq_true, if_false] at h1
      show s.free_list_.length + Map.size (Map.erase s.page_to_frame_ pg.page_id_) + 1 = _
      omega

theorem BufferPoolManagerInstance.Tight_install (s1 : BufferPoolManagerInstance) (f : Int)
    (page : Page) (r2 : LRUKReplacer) (pid n : Int) (dm : DiskManager)
    (hinv : s1.InvHole (some f)) (ht : s1.Tight (some f))
    (hnew : Map.find s1.page_to_frame_ pid = none) (hpid : pid < n)
    (hn : s1.next_page_id_ ≤ n) :
    BufferPoolManagerInstance.Tight
      { s1 with pages_ := s1.pages_.set f.toNat page, replacer_ := r2, next_page_id_ := n,
                page_to_frame_ := Map.assign s1.page_to_frame_ pid f, disk_manager_ := dm }
      none := by
  constructor
  · intro g hg
    change validFrame (s1.pages_.set f.toNat page).length g at hg
    rw [List.length_set] at hg
    right
    rcases ht.cover g hg with h1 | h1 | ⟨q, hq⟩
    · right
      refine ⟨pid, ?_⟩
      show Map.find (Map.assign s1.page_to_frame_ pid f) pid = some g
      rw [Map.find_assign]
      simpa using h1.symm
    · left; exact h1
    · right
      refine ⟨q, ?_⟩
      show Map.find (Map.assign s1.page_to_frame_ pid f) q = some g
      rw [Map.find_assign]
      have : q ≠ pid := by
        intro heq
        rw [heq, hnew] at hq
        simp at hq
      simp [this, hq]
  · intro q g hg
    change Map.find (Map.assign s1.page_to_frame_ pid f) q = some g at hg
    rw [Map.find_assign] at hg
    show q < n
    by_cases hq : q = pid
    · rw [hq]; exact hpid
    · simp only [hq, if_false] at hg
      exact lt_of_lt_of_le (ht.fresh q g hg) hn
  · have h1 := ht.count
    have h2 := Map.size_assign s1.page_to_frame_ pid f hinv.tableSorted
    rw [hnew] at h2
    simp only [Option.isSome_none, Option.isSome_some, if_true] at h1 h2 ⊢
    simp only [Bool.false_eq_true, if_false] at h2 ⊢
    show s1.free_list_.length + Map.size (Map.assign s1.page_to_frame_ pid f) + 0 = _
    omega

theorem BufferPoolManagerInstance.Tight_update (s : BufferPoolManagerInstance) (f : Int)
    (page : Page) (r2 : LRUKReplacer) (dm : DiskManager) (ht : s.Tight none) :
    BufferPoolManagerInstance.Tight
      { s with pages_ := s.pages_.set f.toNat page, replacer_ := r2, disk_manager_ := dm }
      none := by
  constructor
  · intro g hg
    change validFrame (s.pages_.set f.toNat page).length g at hg
    rw [List.length_set] at hg
    exact ht.cover g hg
  · exact ht.fresh
  · exact ht.count

theorem BufferPoolManagerInstance.Tight_release (s : BufferPoolManagerInstance) (p f : Int)
    (page : Page) (dm : DiskManager) (hinv : s.Inv) (ht : s.Tight none)
    (hp : Map.find s.page_to_frame_ p = some f) :
    BufferPoolManagerInstance.Tight
      { s with pages_ := s.pages_.set f.toNat page, free_list_ := s.free_list_ ++ [f],
               page_to_frame_ := Map.erase s.page_to_frame_ p, disk_manager_ := dm }
      none := by
  constructor
  · intro g hg
    change validFrame (s.pages_.set f.toNat page).length g at hg
    rw [List.length_set] at hg
    right
    rcases ht.cover g hg with h1 | h1 | ⟨q, hq⟩
    · simp at h1
    · left
      exact List.mem_append_left _ h1
    · by_cases hqp : q = p
      · left
        rw [hqp, hp, Option.some.injEq] at hq
        show g ∈ s.free_list_ ++ [f]
        simp [hq]
      · right
        refine ⟨q, ?_⟩
        show Map.find (Map.erase s.page_to_frame_ p) q = some g
        rw [Map.find_erase]
        simp [hqp, hq]
  · intro q g hg
    change Map.find (Map.erase s.page_to_frame_ p) q = some g at hg
    rw [Map.find_erase] at hg
    by_cases hq : q = p
    · simp [hq] at hg
    · simp only [hq, if_false] at hg
      exact ht.fresh q g hg
  · have h1 := ht.count
    have h2 := Map.size_erase s.page_to_frame_ p hinv.tableSorted
    rw [hp] at h2
    simp only [Option.isSome_none, Option.isSome_some, if_true] at h1 h2 ⊢
    simp only [Bool.false_eq_true, if_false] at h1 ⊢
    show (s.free_list_ ++ [f]).length + Map.size (Map.erase s.page_to_frame_ p) + 0 = _
    rw [List.length_append, List.length_singleton]
    omega

theorem Acquired_table_none (inf : Int) (s s1 : BufferPoolManagerInstance) (st : Nat) (f : Int)
    (h : Acquired inf s st f s1) (q : Int) (hq : Map.find s.page_to_frame_ q = none) :
    Map.find s1.page_to_frame_ q = none := by
  rcases h with ⟨_, rest, _, hs1⟩ | ⟨_, _, _, pg, r1, _, _, _, _, _, hs1⟩
  · subst hs1; exact hq
  · subst hs1
    show Map.find (Map.erase s.page_to_frame_ pg.page_id_) q = none
    rw [Map.find_erase]
    split_ifs
    · rfl
    · exact hq

theorem BufferPoolManagerInstance.Tight_NewPgImp (inf : Int) (hinf : 0 ≤ inf)
    (s s1 : BufferPoolManagerInstance) (res : Option (page_id_t × frame_id_t)) (hinv : s.Inv)
    (ht : s.Tight none) (h : s.NewPgImp inf = some (res, s1)) : s1.Tight none := by
  rcases BufferPoolManagerInstance.NewPgImp_spec inf s hinv hinf with
    ⟨_, _, h3⟩ | ⟨st, f, s0, r2, hacq, _, h3⟩
  · rw [h3] at h
    simp only [Option.some.injEq, Prod.mk.injEq] at h
    exact h.2 ▸ ht
  · rw [h3] at h
    simp only [Option.some.injEq, Prod.mk.injEq] at h
    rw [← h.2]
    have ht0 := BufferPoolManagerInstance.Tight_of_Acquired inf s s0 st f hinv ht hacq
    obtain ⟨_, hnext, _⟩ := Acquired_same inf s s0 st f hacq
    refine BufferPoolManagerInstance.Tight_install s0 f _ r2 s.next_page_id_
      (s.next_page_id_ + 1) s0.disk_manager_
      (BufferPoolManagerInstance.InvHole_of_Acquired inf s s0 st f hinv hacq) ht0 ?_
      (lt_add_one _) (by rw [hnext]; exact le_of_lt (lt_add_one _))
    cases hfind : Map.find s0.page_to_frame_ s.next_page_id_ with
    | none => rfl
    | some g =>
      have := ht0.fresh _ g hfind
      rw [hnext] at this
      exact absurd this (lt_irrefl _)

theorem BufferPoolManagerInstance.Tight_FetchPgImp (inf : Int) (hinf : 0 ≤ inf)
    (s s1 : BufferPoolManagerInstance) (p : Int) (res : Option frame_id_t) (hinv : s.Inv)
    (ht : s.Tight none) (hp : p < s.next_page_id_)
    (h : s.FetchPgImp inf p = some (res, s1)) : s1.Tight none := by
  cases hfind : Map.find s.page_to_frame_ p with
  | some f =>
    obtain ⟨pg, r2, hpg, _, h3⟩ :=
      BufferPoolManagerInstance.FetchPgImp_resident inf s hinv p f hfind
    rw [h3] at h
    simp only [Option.some.injEq, Prod.mk.injEq] at h
    rw [← h.2]
    exact BufferPoolManagerInstance.Tight_update s f _ r2 s.disk_manager_ ht
  | none =>
    rcases BufferPoolManagerInstance.FetchPgImp_absent inf s hinv hinf p hfind with
      ⟨_, _, h3⟩ | ⟨st, f, s0, r2, hacq, _, h3⟩
    · rw [h3] at h
      simp only [Option.some.injEq, Prod.mk.injEq] at h
      exact h.2 ▸ ht
    · rw [h3] at h
      simp only [Option.some.injEq, Prod.mk.injEq] at h
      rw [← h.2]
      obtain ⟨_, hnext, _⟩ := Acquired_same inf s s0 st f hacq
      exact BufferPoolManagerInstance.Tight_install s0 f _ r2 p s0.next_page_id_
        (s0.disk_manager_.ReadPage p zeroData).2
        (BufferPoolManagerInstance.InvHole_of_Acquired inf s s0 st f hinv hacq)
        (BufferPoolManagerInstance.Tight_of_Acquired inf s s0 st f hinv ht hacq)
        (Acquired_table_none inf s s0 st f hacq p hfind) (by rw [hnext]; exact hp) (le_refl _)

theorem BufferPoolManagerInstance.Tight_UnpinPgImp (s s1 : BufferPoolManagerInstance) (p : Int)
    (flag res : Bool) (hinv : s.Inv) (ht : s.Tight none)
    (h : s.UnpinPgImp p flag = some (res, s1)) : s1.Tight none := by
  cases hp : Map.find s.page_to_frame_ p with
  | none =>
    simp only [BufferPoolManagerInstance.UnpinPgImp, hp, Option.some.injEq, Prod.mk.injEq] at h
    exact h.2 ▸ ht
  | some f =>
    obtain ⟨pg, hpg, hcase⟩ := BufferPoolManagerInstance.UnpinPgImp_spec s hinv p f flag hp
    rcases hcase with ⟨_, h3⟩ | ⟨hpin, r1, hr1, h3⟩
    · rw [h3] at h
      simp only [Option.some.injEq, Prod.mk.injEq] at h
      exact h.2 ▸ ht
    · rw [h3] at h
      simp only [Option.some.injEq, Prod.mk.injEq] at h
      rw [← h.2]
      exact BufferPoolManagerInstance.Tight_update s f _ r1 s.disk_manager_ ht

theorem BufferPoolManagerInstance.Tight_FlushPgImp (s s1 : BufferPoolManagerInstance) (p : Int)
    (res : Bool) (hinv : s.Inv) (ht : s.Tight none)
    (h : s.FlushPgImp p = some (res, s1)) : s1.Tight none := by
  cases hp : Map.find s.page_to_frame_ p with
  | none =>
    simp only [BufferPoolManagerInstance.FlushPgImp, hp, Option.some.injEq, Prod.mk.injEq] at h
    exact h.2 ▸ ht
  | some f =>
    obtain ⟨pg, hpg, h3⟩ := BufferPoolManagerInstance.FlushPgImp_spec s hinv p f hp
    rw [h3] at h
    simp only [Option.some.injEq, Prod.mk.injEq] at h
    rw [← h.2]
    exact BufferPoolManagerInstance.Tight_update s f _ s.replacer_ _ ht

theorem BufferPoolManagerInstance.Tight_FlushLoop (ids : List page_id_t) :
    ∀ s s1 : BufferPoolManagerInstance, s.Inv → s.Tight none →
      BufferPoolManagerInstance.FlushLoop ids s = some s1 → s1.Tight none := by
  induction ids with
  | nil =>
    intro s s1 _ ht h
    simp only [BufferPoolManagerInstance.FlushLoop, Option.some.injEq] at h
    exact h ▸ ht
  | cons p rest ih =>
    intro s s1 hinv ht h
    simp only [BufferPoolManagerInstance.FlushLoop] at h
    split at h
    · simp at h
    · rename_i b s2 hfl
      exact ih s2 s1 (BufferPoolManagerInstance.Inv_FlushPgImp s s2 p b hinv hfl)
        (BufferPoolManagerInstance.Tight_FlushPgImp s s2 p b hinv ht hfl) h

theorem BufferPoolManagerInstance.Tight_DeletePgImp (s s1 : BufferPoolManagerInstance) (p : Int)
    (res : Bool) (hinv : s.Inv) (ht : s.Tight none)
    (h : s.DeletePgImp p = some (res, s1)) : s1.Tight none := by
  cases hp : Map.find s.page_to_frame_ p with
  | none =>
    simp only [BufferPoolManagerInstance.DeletePgImp, hp, Option.some.injEq, Prod.mk.injEq] at h
    exact h.2 ▸ ht
  | some f =>
    obtain ⟨pg, hpg, hcase⟩ := BufferPoolManagerInstance.DeletePgImp_spec s hinv p f hp
    rcases hcase with ⟨_, h3⟩ | ⟨_, _, h3⟩
    · rw [h3] at h
      simp only [Option.some.injEq, Prod.mk.injEq] at h
      exact h.2 ▸ ht
    · rw [h3] at h
      simp only [Option.some.injEq, Prod.mk.injEq] at h
      rw [← h.2]
      exact BufferPoolManagerInstance.Tight_release s p f _ _ hinv ht hp

theorem BufferPoolManagerInstance.Tight_step (inf : Int) (hinf : 0 ≤ inf)
    (s s1 : BufferPoolManagerInstance) (op : Op) (hinv : s.Inv) (ht : s.Tight none)
    (hadm : s.admits op = true) (h : s.step inf op = some s1) : s1.Tight none := by
  cases op with
  | NewPage =>
    simp only [BufferPoolManagerInstance.step, Option.map_eq_some'] at h
    obtain ⟨⟨res, s2⟩, h1, h2⟩ := h
    exact h2 ▸ BufferPoolManagerInstance.Tight_NewPgImp inf hinf s s2 res hinv ht h1
  | FetchPage p =>
    simp only [BufferPoolManagerInstance.step, Option.map_eq_some'] at h
    obtain ⟨⟨res, s2⟩, h1, h2⟩ := h
    simp only [BufferPoolManagerInstance.admits, decide_eq_true_eq] at hadm
    exact h2 ▸ BufferPoolManagerInstance.Tight_FetchPgImp inf hinf s s2 p res hinv ht hadm h1
  | UnpinPage p flag =>
    simp only [BufferPoolManagerInstance.step, Option.map_eq_some'] at h
    obtain ⟨⟨res, s2⟩, h1, h2⟩ := h
    exact h2 ▸ BufferPoolManagerInstance.Tight_UnpinPgImp s s2 p flag res hinv ht h1
  | FlushPage p =>
    simp only [BufferPoolManagerInstance.step, Option.map_eq_some'] at h
    obtain ⟨⟨res, s2⟩, h1, h2⟩ := h
    exact h2 ▸ BufferPoolManagerInstance.Tight_FlushPgImp s s2 p res hinv ht h1
  | FlushAllPages =>
    exact BufferPoolManagerInstance.Tight_FlushLoop _ s s1 hinv ht h
  | DeletePage p =>
    simp only [BufferPoolManagerInstance.step, Option.map_eq_some'] at h
    obtain ⟨⟨res, s2⟩, h1, h2⟩ := h
    exact h2 ▸ BufferPoolManagerInstance.Tight_DeletePgImp s s2 p res hinv ht h1
  | WriteData f data =>
    simp only [BufferPoolManagerInstance.step] at h
    cases hpg : s.frame f with
    | none => simp [BufferPoolManagerInstance.modifyFrame, hpg] at h
    | some pg =>
      rw [BufferPoolManagerInstance.modifyFrame_eq s f _ pg hpg, Option.some.injEq] at h
      rw [← h]
      exact BufferPoolManagerInstance.Tight_update s f _ s.replacer_ s.disk_manager_ ht

theorem BufferPoolManagerInstance.same_FlushPgImp (s s1 : BufferPoolManagerInstance)
    (p : Int) (res : Bool) (hinv : s.Inv) (h : s.FlushPgImp p = some (res, s1)) :
    s1.pool_size_ = s.pool_size_ ∧ s1.next_page_id_ = s.next_page_id_ := by
  cases hp : Map.find s.page_to_frame_ p with
  | none =>
    simp only [BufferPoolManagerInstance.FlushPgImp, hp, Option.some.injEq, Prod.mk.injEq] at h
    rw [← h.2]
    exact ⟨rfl, rfl⟩
  | some f =>
    obtain ⟨pg, hpg, h3⟩ := BufferPoolManagerInstance.FlushPgImp_spec s hinv p f hp
    rw [h3] at h
    simp only [Option.some.injEq, Prod.mk.injEq] at h
    rw [← h.2]
    exact ⟨rfl, rfl⟩

theorem BufferPoolManagerInstance.same_FlushLoop (ids : List page_id_t) :
    ∀ s s1 : BufferPoolManagerInstance, s.Inv →
      BufferPoolManagerInstance.FlushLoop ids s = some s1 →
      s1.pool_size_ = s.pool_size_ ∧ s1.next_page_id_ = s.next_page_id_ := by
  induction ids with
  | nil =>
    intro s s1 _ h
    simp only [BufferPoolManagerInstance.FlushLoop, Option.some.injEq] at h
    rw [← h]
    exact ⟨rfl, rfl⟩
  | cons p rest ih =>
    intro s s1 hinv h
    simp only [BufferPoolManagerInstance.FlushLoop] at h
    split at h
    · simp at h
    · rename_i b s2 hfl
      obtain ⟨h1, h2⟩ := ih s2 s1 (BufferPoolManagerInstance.Inv_FlushPgImp s s2 p b hinv hfl) h
      obtain ⟨h3, h4⟩ := BufferPoolManagerInstance.same_FlushPgImp s s2 p b hinv hfl
      exact ⟨h1.trans h3, h2.trans h4⟩

/-- No call changes the pool size, and no call lowers the allocation
counter. -/
theorem BufferPoolManagerInstance.pool_size_step (inf : Int) (hinf : 0 ≤ inf)
    (s s1 : BufferPoolManagerInstance) (op : Op) (hinv : s.Inv)
    (h : s.step inf op = some s1) :
    s1.pool_size_ = s.pool_size_ ∧ s.next_page_id_ ≤ s1.next_page_id_ := by
  cases op with
  | NewPage =>
    simp only [BufferPoolManagerInstance.step, Option.map_eq_some'] at h
    obtain ⟨⟨res, s2⟩, h1, h2⟩ := h
    simp only at h2
    subst h2
    rcases BufferPoolManagerInstance.NewPgImp_spec inf s hinv hinf with
      ⟨_, _, h3⟩ | ⟨st, f, s0, r2, hacq, _, h3⟩
    · rw [h3] at h1
      simp only [Option.some.injEq, Prod.mk.injEq] at h1
      rw [← h1.2]
      exact ⟨rfl, le_refl _⟩
    · rw [h3] at h1
      simp only [Option.some.injEq, Prod.mk.injEq] at h1
      rw [← h1.2]
      exact ⟨(Acquired_same inf s s0 st f hacq).2.2, le_of_lt (lt_add_one _)⟩
  | FetchPage p =>
    simp only [BufferPoolManagerInstance.step, Option.map_eq_some'] at h
    obtain ⟨⟨res, s2⟩, h1, h2⟩ := h
    simp only at h2
    subst h2
    cases hfind : Map.find s.page_to_frame_ p with
    | some f =>
      obtain ⟨pg, r2, hpg, _, h3⟩ :=
        BufferPoolManagerInstance.FetchPgImp_resident inf s hinv p f hfind
      rw [h3] at h1
      simp only [Option.some.injEq, Prod.mk.injEq] at h1
      rw [← h1.2]
      exact ⟨rfl, le_refl _⟩
    | none =>
      rcases BufferPoolManagerInstance.FetchPgImp_absent inf s hinv hinf p hfind with
        ⟨_, _, h3⟩ | ⟨st, f, s0, r2, hacq, _, h3⟩
      · rw [h3] at h1
        simp only [Option.some.injEq, Prod.mk.injEq] at h1
        rw [← h1.2]
        exact ⟨rfl, le_refl _⟩
      · rw [h3] at h1
        simp only [Option.some.injEq, Prod.mk.injEq] at h1
        rw [← h1.2]
        obtain ⟨_, h4, h5⟩ := Acquired_same inf s s0 st f hacq
        exact ⟨h5, le_of_eq h4.symm⟩
  | UnpinPage p flag =>
    simp only [BufferPoolManagerInstance.step, Option.map_eq_some'] at h
    obtain ⟨⟨res, s2⟩, h1, h2⟩ := h
    simp only at h2
    subst h2
    cases hp : Map.find s.page_to_frame_ p with
    | none =>
      simp only [BufferPoolManagerInstance.UnpinPgImp, hp, Option.some.injEq,
        Prod.mk.injEq] at h1
      rw [← h1.2]
      exact ⟨rfl, le_refl _⟩
    | some f =>
      obtain ⟨pg, hpg, hcase⟩ := BufferPoolManagerInstance.UnpinPgImp_spec s hinv p f flag hp
      rcases hcase with ⟨_, h3⟩ | ⟨hpin, r1, hr1, h3⟩
      · rw [h3] at h1
        simp only [Option.some.injEq, Prod.mk.injEq] at h1
        rw [← h1.2]
        exact ⟨rfl, le_refl _⟩
      · rw [h3] at h1
        simp only [Option.some.injEq, Prod.mk.injEq] at h1
        rw [← h1.2]
        exact ⟨rfl, le_refl _⟩
  | FlushPage p =>
    simp only [BufferPoolManagerInstance.step, Option.map_eq_some'] at h
    obtain ⟨⟨res, s2⟩, h1, h2⟩ := h
    simp only at h2
    subst h2
    obtain ⟨h3, h4⟩ := BufferPoolManagerInstance.same_FlushPgImp s s2 p res hinv h1
    exact ⟨h3, le_of_eq h4.symm⟩
  | FlushAllPages =>
    obtain ⟨h3, h4⟩ := BufferPoolManagerInstance.same_FlushLoop _ s s1 hinv h
    exact ⟨h3, le_of_eq h4.symm⟩
  | DeletePage p =>
    simp only [BufferPoolManagerInstance.step, Option.map_eq_some'] at h
    obtain ⟨⟨res, s2⟩, h1, h2⟩ := h
    simp only at h2
    subst h2
    cases hp : Map.find s.page_to_frame_ p with
    | none =>
      simp only [BufferPoolManagerInstance.DeletePgImp, hp, Option.some.injEq,
        Prod.mk.injEq] at h1
      rw [← h1.2]
      exact ⟨rfl, le_refl _⟩
    | some f =>
      obtain ⟨pg, hpg, hcase⟩ := BufferPoolManagerInstance.DeletePgImp_spec s hinv p f hp
      rcases hcase with ⟨_, h3⟩ | ⟨_, _, h3⟩
      · rw [h3] at h1
        simp only [Option.some.injEq, Prod.mk.injEq] at h1
        rw [← h1.2]
        exact ⟨rfl, le_refl _⟩
      · rw [h3] at h1
        simp only [Option.some.injEq, Prod.mk.injEq] at h1
        rw [← h1.2]
        exact ⟨rfl, le_refl _⟩
  | WriteData f data =>
    simp only [BufferPoolManagerInstance.step] at h
    cases hpg : s.frame f with
    | none => simp [BufferPoolManagerInstance.modifyFrame, hpg] at h
    | some pg =>
      rw [BufferPoolManagerInstance.modifyFrame_eq s f _ pg hpg, Option.some.injEq] at h
      rw [← h]
      exact ⟨rfl, le_refl _⟩

theorem BufferPoolManagerInstance.Tight_runAllocated (inf : Int) (hinf : 0 ≤ inf)
    (ops : List Op) :
    ∀ s s1 : BufferPoolManagerInstance, s.Inv → s.Tight none →
      BufferPoolManagerInstance.runAllocated inf ops s = some s1 →
      s1.Inv ∧ s1.Tight none ∧ s1.pool_size_ = s.pool_size_ := by
  induction ops with
  | nil =>
    intro s s1 hinv ht h
    simp only [BufferPoolManagerInstance.runAllocated, Option.some.injEq] at h
    exact h ▸ ⟨hinv, ht, rfl⟩
  | cons op rest ih =>
    intro s s1 hinv ht h
    simp only [BufferPoolManagerInstance.runAllocated] at h
    split_ifs at h with hadm
    split at h
    · simp at h
    · rename_i s2 hstep
      obtain ⟨h1, h2, h3⟩ := ih s2 s1
        (BufferPoolManagerInstance.Inv_step inf hinf s s2 op hinv hstep)
        (BufferPoolManagerInstance.Tight_step inf hinf s s2 op hinv ht hadm hstep) h
      exact ⟨h1, h2, by
        rw [h3, (BufferPoolManagerInstance.pool_size_step inf hinf s s2 op hinv hstep).1]⟩

theorem Tight_of_ReachableAllocated (inf : Int) (hinf : 0 ≤ inf) (n k : Nat) (dm : DiskManager)
    (s : BufferPoolManagerInstance) (h : ReachableAllocated inf n k dm s) :
    s.Inv ∧ s.Tight none ∧ s.pool_size_ = n := by
  obtain ⟨ops, hops⟩ := h
  exact BufferPoolManagerInstance.Tight_runAllocated inf hinf ops _ s
    (BufferPoolManagerInstance.Inv_create n k dm) (BufferPoolManagerInstance.Tight_create n k dm)
    hops

/-- C3 does not hold for arbitrary page ids: after `fetch_page(0)` and `new_page`
on a fresh pool of two frames, the id handed out by `new_page` is the id
already fetched, the page table keeps one entry for both frames, and the free
list and the page table together count one frame, not two. -/
theorem free_plus_table_counterexample :
    BufferPoolManagerInstance.run 1000 [Op.FetchPage 0, Op.NewPage]
      (BufferPoolManagerInstance.create 2 emptyDisk 2) = some stateDuplicate ∧
    stateDuplicate.free_list_.length + Map.size stateDuplicate.page_to_frame_ = 1 :=
  ⟨rfl, rfl⟩

/-- C3, for allocated page ids. For every sequence of calls on a fresh pool of `n` frames
in which `fetch_page` is only asked for page ids below the allocation counter
(ids that `new_page` has handed out), the state after the last call satisfies
`|free_list| + |page_table| = n`. -/
theorem free_plus_table_eq_pool_size (inf : Int) (hinf : 0 ≤ inf) (n k : Nat)
    (dm : DiskManager) (ops : List Op) (s : BufferPoolManagerInstance)
    (hrun : BufferPoolManagerInstance.runAllocated inf ops
      (BufferPoolManagerInstance.create n dm k) = some s) :
    s.free_list_.length + Map.size s.page_to_frame_ = n := by
  obtain ⟨_, ht, hn⟩ := Tight_of_ReachableAllocated inf hinf n k dm s ⟨ops, hrun⟩
  have := ht.count
  simp only [Option.isSome_none, Bool.false_eq_true, if_false, Nat.add_zero] at this
  rw [this, hn]

theorem free_plus_table_eq_pool_size_witness :
    ∃ s, BufferPoolManagerInstance.runAllocated 1000 opsChurn
        (BufferPoolManagerInstance.create 2 emptyDisk 2) = some s ∧
      s.free_list_ = [1] ∧ s.page_to_frame_ = [(2, 0)] ∧
      s.free_list_.length + Map.size s.page_to_frame_ = 2 :=
  ⟨_, rfl, rfl, rfl,
   free_plus_table_eq_pool_size 1000 (by decide) 2 2 emptyDisk opsChurn _ rfl⟩

/-! ## C4: frames in the free list -/

/-- In every reachable state a frame in the free list has pin count 0, is
clean and holds no page. -/
theorem free_frames_are_reset (inf : Int) (hinf : 0 ≤ inf) (n k : Nat) (dm : DiskManager)
    (s : BufferPoolManagerInstance) (hreach : Reachable inf n k dm s) :
    ∀ f ∈ s.free_list_, ∃ pg, s.frame f = some pg ∧
      pg.pin_count_ = 0 ∧ pg.is_dirty_ = false ∧ pg.page_id_ = -1 := by
  intro f hf
  obtain ⟨_, _, pg, hpg, h1, h2, h3⟩ := (Inv_of_Reachable inf hinf n k dm s hreach).free f hf
  exact ⟨pg, hpg, h2, h3, h1⟩

/-- C4 fails after `delete_page`. On a one-frame pool, after
`new_page` and `unpin_page(0, false)`, `delete_page(0)` returns `true` and
puts frame 0 in the free list, but the replacer still has the access history
and the evictable entry of frame 0, and `Size()` still counts it. -/
theorem delete_page_keeps_frame_tracked :
    BufferPoolManagerInstance.run 1000 [Op.NewPage, Op.UnpinPage 0 false]
      (BufferPoolManagerInstance.create 1 emptyDisk 2) = some stateUnpinned ∧
    stateUnpinned.DeletePgImp 0 = some (true, stateDeleted) ∧
    stateDeleted.free_list_ = [0] ∧
    Map.find stateDeleted.replacer_.accessHistory 0 = some [1] ∧
    Map.find stateDeleted.replacer_.evictablePages 0 = some true ∧
    stateDeleted.replacer_.Size = 1 :=
  ⟨rfl, rfl, rfl, rfl, rfl, rfl⟩

/-! ## C5: pool exhaustion -/

theorem BufferPoolManagerInstance.pool_size_run (inf : Int) (hinf : 0 ≤ inf) (ops : List Op) :
    ∀ s s1 : BufferPoolManagerInstance, s.Inv →
      BufferPoolManagerInstance.run inf ops s = some s1 →
      s1.pool_size_ = s.pool_size_ ∧ s.next_page_id_ ≤ s1.next_page_id_ := by
  induction ops with
  | nil =>
    intro s s1 _ h
    simp only [BufferPoolManagerInstance.run, Option.some.injEq] at h
    rw [← h]
    exact ⟨rfl, le_refl _⟩
  | cons op rest ih =>
    intro s s1 hinv h
    simp only [BufferPoolManagerInstance.run] at h
    split at h
    · simp at h
    · rename_i s2 hstep
      obtain ⟨h1, h2⟩ := ih s2 s1
        (BufferPoolManagerInstance.Inv_step inf hinf s s2 op hinv hstep) h
      obtain ⟨h3, h4⟩ := BufferPoolManagerInstance.pool_size_step inf hinf s s2 op hinv hstep
      exact ⟨h1.trans h3, le_trans h4 h2⟩

/-- C5. In every reachable state `new_page` returns, and so does
`fetch_page(p)` for a non-resident `p`; the result is `none` exactly when the
free list is empty and `Size()` is 0, and then the state is unchanged. For a
pool whose size fits a `size_t`, `Size() = 0` says that no frame is flagged
evictable. -/
theorem new_and_fetch_fail_iff_exhausted (inf : Int) (hinf : 0 ≤ inf) (n k : Nat)
    (dm : DiskManager) (s : BufferPoolManagerInstance) (hreach : Reachable inf n k dm s) :
    (∃ res s1, s.NewPgImp inf = some (res, s1) ∧
      (res = none ↔ s.free_list_ = [] ∧ s.replacer_.Size = 0) ∧ (res = none → s1 = s)) ∧
    (∀ p, Map.find s.page_to_frame_ p = none →
      ∃ res s1, s.FetchPgImp inf p = some (res, s1) ∧
        (res = none ↔ s.free_list_ = [] ∧ s.replacer_.Size = 0) ∧ (res = none → s1 = s)) ∧
    (n < SIZE_MOD → (s.replacer_.Size = 0 ↔ ∀ f, ¬ s.replacer_.IsEvictable f)) := by
  have hinv := Inv_of_Reachable inf hinf n k dm s hreach
  have hexh : ∀ st f s0, Acquired inf s st f s0 →
      ¬ (s.free_list_ = [] ∧ s.replacer_.Size = 0) := by
    intro st f s0 hacq hcon
    rcases hacq with ⟨_, rest, hfl, _⟩ | ⟨_, _, hsz, _⟩
    · rw [hcon.1] at hfl; simp at hfl
    · exact hsz hcon.2
  refine ⟨?_, ?_, ?_⟩
  · rcases BufferPoolManagerInstance.NewPgImp_spec inf s hinv hinf with
      ⟨h1, h2, h3⟩ | ⟨st, f, s0, r2, hacq, _, h3⟩
    · exact ⟨none, s, h3, ⟨fun _ => ⟨h1, h2⟩, fun _ => rfl⟩, fun _ => rfl⟩
    · refine ⟨_, _, h3, ⟨fun h => by simp at h, fun h => absurd h (hexh st f s0 hacq)⟩,
        fun h => by simp at h⟩
  · intro p hp
    rcases BufferPoolManagerInstance.FetchPgImp_absent inf s hinv hinf p hp with
      ⟨h1, h2, h3⟩ | ⟨st, f, s0, r2, hacq, _, h3⟩
    · exact ⟨none, s, h3, ⟨fun _ => ⟨h1, h2⟩, fun _ => rfl⟩, fun _ => rfl⟩
    · refine ⟨_, _, h3, ⟨fun h => by simp at h, fun h => absurd h (hexh st f s0 hacq)⟩,
        fun h => by simp at h⟩
  · intro hn
    obtain ⟨ops, hops⟩ := hreach
    have hps := (BufferPoolManagerInstance.pool_size_run inf hinf ops _ s
      (BufferPoolManagerInstance.Inv_create n k dm) hops).1
    have hle := LRUKReplacer.count_le s.replacer_ hinv.replacer
    rw [hinv.replacerSize, hps] at hle
    have hsize : s.replacer_.Size = evictableCount s.replacer_.evictablePages := by
      show s.replacer_.curr_size_ = _
      rw [hinv.replacer.size]
      apply Nat.mod_eq_of_lt
      have : (BufferPoolManagerInstance.create n dm k).pool_size_ = n := rfl
      omega
    rw [hsize]
    have := evictableCount_ne_zero_iff _ hinv.replacer.sortedEvictable
    constructor
    · intro h0 f hf
      exact (this.mpr ⟨f, hf⟩) h0
    · intro hall
      by_contra hne
      obtain ⟨f, hf⟩ := this.mp hne
      exact hall f hf

theorem statePinned_reachable : Reachable 1000 1 2 emptyDisk statePinned :=
  ⟨[Op.NewPage], rfl⟩

theorem new_and_fetch_fail_iff_exhausted_witness :
    (BufferPoolManagerInstance.create 1 emptyDisk 2).NewPgImp 1000
      = some (some (0, 0), statePinned) ∧
    statePinned.NewPgImp 1000 = some (none, statePinned) ∧
    statePinned.UnpinPgImp 0 false = some (true, stateUnpinned) ∧
    (∃ s1, stateUnpinned.NewPgImp 1000 = some (some (1, 0), s1)) ∧
    ((∃ res s1, statePinned.NewPgImp 1000 = some (res, s1) ∧
      (res = none ↔ statePinned.free_list_ = [] ∧ statePinned.replacer_.Size = 0) ∧
      (res = none → s1 = statePinned)) ∧
    (∀ p, Map.find statePinned.page_to_frame_ p = none →
      ∃ res s1, statePinned.FetchPgImp 1000 p = some (res, s1) ∧
        (res = none ↔ statePinned.free_list_ = [] ∧ statePinned.replacer_.Size = 0) ∧
        (res = none → s1 = statePinned)) ∧
    (1 < SIZE_MOD →
      (statePinned.replacer_.Size = 0 ↔ ∀ f, ¬ statePinned.replacer_.IsEvictable f))) :=
  ⟨rfl, rfl, rfl, ⟨_, rfl⟩,
   new_and_fetch_fail_iff_exhausted 1000 (by decide) 1 2 emptyDisk statePinned
     statePinned_reachable⟩

/-! ## C6: `unpin_page` -/

/-- C6. In every reachable state `unpin_page(p, flag)` returns; it returns
`false` exactly when `p` is not in the page table or its frame has pin count
0, and then the state is unchanged; otherwise it returns `true`, the frame of
`p` has its pin count lowered by one and its dirty flag set to `flag`, and
the other frames, the page table and the free list are unchanged. -/
theorem unpin_page_effect (inf : Int) (hinf : 0 ≤ inf) (n k : Nat) (dm : DiskManager)
    (s : BufferPoolManagerInstance) (hreach : Reachable inf n k dm s) (p : page_id_t)
    (flag : Bool) :
    ∃ res s1, s.UnpinPgImp p flag = some (res, s1) ∧
      (res = false ↔ (Map.find s.page_to_frame_ p = none ∨
        ∃ f pg, Map.find s.page_to_frame_ p = some f ∧ s.frame f = some pg ∧
          pg.pin_count_ = 0)) ∧
      (res = false → s1 = s) ∧
      (res = true → ∃ f pg, Map.find s.page_to_frame_ p = some f ∧ s.frame f = some pg ∧
        s1.frame f = some { pg with pin_count_ := pg.pin_count_ - 1, is_dirty_ := flag } ∧
        (∀ g, g ≠ f → s1.frame g = s.frame g) ∧
        s1.page_to_frame_ = s.page_to_frame_ ∧ s1.free_list_ = s.free_list_) := by
  have hinv := Inv_of_Reachable inf hinf n k dm s hreach
  cases hp : Map.find s.page_to_frame_ p with
  | none =>
    refine ⟨false, s, ?_, ⟨fun _ => Or.inl rfl, fun _ => rfl⟩, fun _ => rfl, fun h => by simp at h⟩
    simp only [BufferPoolManagerInstance.UnpinPgImp, hp]
  | some f =>
    obtain ⟨pg, hpg, hcase⟩ := BufferPoolManagerInstance.UnpinPgImp_spec s hinv p f flag hp
    rcases hcase with ⟨hpin, h3⟩ | ⟨hpin, r1, _, h3⟩
    · refine ⟨false, s, h3, ⟨fun _ => Or.inr ⟨f, pg, rfl, hpg, hpin⟩, fun _ => rfl⟩,
        fun _ => rfl, fun h => by simp at h⟩
    · refine ⟨true, _, h3, ⟨fun h => by simp at h, ?_⟩, fun h => by simp at h, ?_⟩
      · rintro (h | ⟨f1, pg1, hf1, hpg1, hpin1⟩)
        · simp at h
        · simp only [Option.some.injEq] at hf1
          subst hf1
          rw [hpg, Option.some.injEq] at hpg1
          subst hpg1
          exact absurd hpin1 hpin
      · intro _
        have hframe := BufferPoolManagerInstance.frame_set s
          { s with pages_ := s.pages_.set f.toNat
                     { pg with pin_count_ := pg.pin_count_ - 1, is_dirty_ := flag },
                   replacer_ := r1 }
          f { pg with pin_count_ := pg.pin_count_ - 1, is_dirty_ := flag }
          (by rw [hpg]; rfl) rfl
        refine ⟨f, pg, rfl, hpg, ?_, ?_, rfl, rfl⟩
        · rw [hframe]; simp
        · intro g hg
          rw [hframe]; simp [hg]

theorem stateTwicePinned_reachable : Reachable 1000 1 2 emptyDisk stateTwicePinned :=
  ⟨[Op.NewPage, Op.FetchPage 0], rfl⟩

theorem unpin_page_effect_witness :
    (∃ s1 s2, stateTwicePinned.UnpinPgImp 0 true = some (true, s1) ∧
      s1.frame 0 = some { data_ := zeroData, page_id_ := 0, pin_count_ := 1,
                          is_dirty_ := true } ∧
      s1.UnpinPgImp 0 false = some (true, s2) ∧
      s2.frame 0 = some { data_ := zeroData, page_id_ := 0, pin_count_ := 0,
                          is_dirty_ := false } ∧
      s2.UnpinPgImp 0 false = some (false, s2)) ∧
    ∃ res s1, stateTwicePinned.UnpinPgImp 0 true = some (res, s1) ∧
      (res = false ↔ (Map.find stateTwicePinned.page_to_frame_ 0 = none ∨
        ∃ f pg, Map.find stateTwicePinned.page_to_frame_ 0 = some f ∧
          stateTwicePinned.frame f = some pg ∧ pg.pin_count_ = 0)) ∧
      (res = false → s1 = stateTwicePinned) ∧
      (res = true → ∃ f pg, Map.find stateTwicePinned.page_to_frame_ 0 = some f ∧
        stateTwicePinned.frame f = some pg ∧
        s1.frame f = some { pg with pin_count_ := pg.pin_count_ - 1, is_dirty_ := true } ∧
        (∀ g, g ≠ f → s1.frame g = stateTwicePinned.frame g) ∧
        s1.page_to_frame_ = stateTwicePinned.page_to_frame_ ∧
        s1.free_list_ = stateTwicePinned.free_list_) :=
  ⟨⟨_, _, rfl, rfl, rfl, rfl, rfl⟩,
   unpin_page_effect 1000 (by decide) 1 2 emptyDisk stateTwicePinned
     stateTwicePinned_reachable 0 true⟩

/-! ## C7: `delete_page` -/

/-- C7. In every reachable state `delete_page(p)` returns. For a page that
is not resident it returns `true` and changes nothing. For a resident page
whose frame is pinned or dirty it returns `false` and changes nothing, so the
page stays in the page table. Otherwise it returns `true`, the frame is reset
(no page, pin count 0, clean, zeroed data), `p` leaves the page table, whose
other entries stay, and the frame index is appended to the free list. -/
theorem delete_page_effect (inf : Int) (hinf : 0 ≤ inf) (n k : Nat) (dm : DiskManager)
    (s : BufferPoolManagerInstance) (hreach : Reachable inf n k dm s) (p : page_id_t) :
    ∃ res s1, s.DeletePgImp p = some (res, s1) ∧
      (Map.find s.page_to_frame_ p = none → res = true ∧ s1 = s) ∧
      (∀ f pg, Map.find s.page_to_frame_ p = some f → s.frame f = some pg →
        ((pg.pin_count_ ≠ 0 ∨ pg.is_dirty_ = true) → res = false ∧ s1 = s) ∧
        (pg.pin_count_ = 0 ∧ pg.is_dirty_ = false →
          res = true ∧
          s1.frame f = some { data_ := zeroData, page_id_ := -1, pin_count_ := 0,
                              is_dirty_ := false } ∧
          (∀ g, g ≠ f → s1.frame g = s.frame g) ∧
          Map.find s1.page_to_frame_ p = none ∧
          (∀ q, q ≠ p → Map.find s1.page_to_frame_ q = Map.find s.page_to_frame_ q) ∧
          s1.free_list_ = s.free_list_ ++ [f])) := by
  have hinv := Inv_of_Reachable inf hinf n k dm s hreach
  cases hp : Map.find s.page_to_frame_ p with
  | none =>
    refine ⟨true, s, ?_, fun _ => ⟨rfl, rfl⟩, fun f pg h => by simp at h⟩
    simp only [BufferPoolManagerInstance.DeletePgImp, hp]
  | some f =>
    obtain ⟨pg, hpg, hcase⟩ := BufferPoolManagerInstance.DeletePgImp_spec s hinv p f hp
    rcases hcase with ⟨hc, h3⟩ | ⟨hd, hpin, h3⟩
    · refine ⟨false, s, h3, fun h => by simp at h, ?_⟩
      intro f1 pg1 hf1 hpg1
      simp only [Option.some.injEq] at hf1
      subst hf1
      rw [hpg, Option.some.injEq] at hpg1
      subst hpg1
      refine ⟨fun _ => ⟨rfl, rfl⟩, ?_⟩
      rintro ⟨h1, h2⟩
      rcases hc with hc | hc
      · rw [h2] at hc; simp at hc
      · exact absurd h1 hc
    · refine ⟨true, _, h3, fun h => by simp at h, ?_⟩
      intro f1 pg1 hf1 hpg1
      simp only [Option.some.injEq] at hf1
      subst hf1
      rw [hpg, Option.some.injEq] at hpg1
      subst hpg1
      refine ⟨?_, ?_⟩
      · rintro (h | h)
        · exact absurd hpin h
        · rw [hd] at h; simp at h
      · intro _
        have hframe := BufferPoolManagerInstance.frame_set s
          { s with
            pages_ := s.pages_.set f.toNat
              { data_ := zeroData, page_id_ := -1, pin_count_ := 0, is_dirty_ := false },
            free_list_ := s.free_list_ ++ [f],
            page_to_frame_ := Map.erase s.page_to_frame_ p,
            disk_manager_ := s.disk_manager_.DeallocatePage p }
          f { data_ := zeroData, page_id_ := -1, pin_count_ := 0, is_dirty_ := false }
          (by rw [hpg]; rfl) rfl
        refine ⟨rfl, ?_, ?_, ?_, ?_, rfl⟩
        · rw [hframe]; simp
        · intro g hg
          rw [hframe]; simp [hg]
        · show Map.find (Map.erase s.page_to_frame_ p) p = none
          rw [Map.find_erase]; simp
        · intro q hq
          show Map.find (Map.erase s.page_to_frame_ p) q = _
          rw [Map.find_erase]; simp [hq]

theorem delete_page_effect_witness :
    statePinned.DeletePgImp 0 = some (false, statePinned) ∧
    (∃ s1, statePinned.FetchPgImp 1000 0 = some (some 0, s1)) ∧
    stateUnpinned.DeletePgImp 0 = some (true, stateDeleted) ∧
    ∃ res s1, statePinned.DeletePgImp 0 = some (res, s1) ∧
      (Map.find statePinned.page_to_frame_ 0 = none → res = true ∧ s1 = statePinned) ∧
      (∀ f pg, Map.find statePinned.page_to_frame_ 0 = some f → statePinned.frame f = some pg →
        ((pg.pin_count_ ≠ 0 ∨ pg.is_dirty_ = true) → res = false ∧ s1 = statePinned) ∧
        (pg.pin_count_ = 0 ∧ pg.is_dirty_ = false →
          res = true ∧
          s1.frame f = some { data_ := zeroData, page_id_ := -1, pin_count_ := 0,
                              is_dirty_ := false } ∧
          (∀ g, g ≠ f → s1.frame g = statePinned.frame g) ∧
          Map.find s1.page_to_frame_ 0 = none ∧
          (∀ q, q ≠ 0 →
            Map.find s1.page_to_frame_ q = Map.find statePinned.page_to_frame_ q) ∧
          s1.free_list_ = statePinned.free_list_ ++ [f])) :=
  ⟨rfl, ⟨_, rfl⟩, rfl,
   delete_page_effect 1000 (by decide) 1 2 emptyDisk statePinned statePinned_reachable 0⟩

/-! ## C8: write-back of a dirty victim and the fetch that follows -/

theorem Acquired_retrieve (inf : Int) (s s1 : BufferPoolManagerInstance) (st : Nat) (f : Int)
    (h : Acquired inf s st f s1) : s.RetrieveFreePage inf = some ((st, some f), s1) := by
  rcases h with ⟨hst, rest, hfl, hs1⟩ | ⟨hst, hfl, _, pg, r1, hpg, _, _, hev, _, hs1⟩
  · subst hs1 hst
    simp only [BufferPoolManagerInstance.RetrieveFreePage, hfl]
  · subst hs1 hst
    simp only [BufferPoolManagerInstance.RetrieveFreePage, hfl, hev, hpg]

theorem BufferPoolManagerInstance.victim_in_table (s : BufferPoolManagerInstance) (hinv : s.Inv)
    (ht : s.Tight none) (hfl : s.free_list_ = []) (f : Int) (pg : Page)
    (hpg : s.frame f = some pg) : Map.find s.page_to_frame_ pg.page_id_ = some f := by
  have hvalid : validFrame s.pages_.length f :=
    (BufferPoolManagerInstance.frame_valid s f).mp (by rw [hpg]; rfl)
  rcases ht.cover f hvalid with h1 | h1 | ⟨q, hq⟩
  · simp at h1
  · rw [hfl] at h1; simp at h1
  · obtain ⟨_, _, pg1, hpg1, hid⟩ := hinv.table q f hq
    rw [hpg, Option.some.injEq] at hpg1
    rw [hpg1, hid]; exact hq

theorem Acquired_parked (inf : Int) (s s1 : BufferPoolManagerInstance) (st : Nat) (f : Int)
    (hinv : s.Inv) (ht : s.Tight none) (p : Int) (b : List Nat) (hpark : Parked p b s)
    (h : Acquired inf s st f s1) :
    Map.find s1.page_to_frame_ p = none ∧ Map.find s1.disk_manager_.store p = some b := by
  refine ⟨Acquired_table_none inf s s1 st f h p hpark.1, ?_⟩
  rcases h with ⟨_, rest, _, hs1⟩ | ⟨_, hfl, _, pg, r1, hpg, _, _, _, _, hs1⟩
  · subst hs1; exact hpark.2.1
  · subst hs1
    have hin := BufferPoolManagerInstance.victim_in_table s hinv ht hfl f pg hpg
    have hne : p ≠ pg.page_id_ := by
      intro heq
      rw [← heq, hpark.1] at hin
      simp at hin
    show Map.find (if pg.is_dirty_ = true then s.disk_manager_.WritePage pg.page_id_ pg.data_
      else s.disk_manager_).store p = some b
    split_ifs
    · show Map.find (Map.assign s.disk_manager_.store pg.page_id_ pg.data_) p = some b
      rw [Map.find_assign]
      simp only [hne, if_false]
      exact hpark.2.1
    · exact hpark.2.1

theorem Parked_FlushPgImp (s s1 : BufferPoolManagerInstance) (q : Int) (res : Bool)
    (hinv : s.Inv) (p : Int) (b : List Nat) (hpark : Parked p b s)
    (h : s.FlushPgImp q = some (res, s1)) : Parked p b s1 := by
  cases hq : Map.find s.page_to_frame_ q with
  | none =>
    simp only [BufferPoolManagerInstance.FlushPgImp, hq, Option.some.injEq, Prod.mk.injEq] at h
    exact h.2 ▸ hpark
  | some f =>
    obtain ⟨pg, hpg, h3⟩ := BufferPoolManagerInstance.FlushPgImp_spec s hinv q f hq
    rw [h3] at h
    simp only [Option.some.injEq, Prod.mk.injEq] at h
    rw [← h.2]
    have hne : p ≠ q := by
      intro heq
      have h0 := hpark.1
      rw [heq, hq] at h0
      simp at h0
    refine ⟨hpark.1, ?_, hpark.2.2⟩
    show Map.find (Map.assign s.disk_manager_.store q pg.data_) p = some b
    rw [Map.find_assign]
    simp only [hne, if_false]
    exact hpark.2.1

theorem Parked_FlushLoop (ids : List page_id_t) (p : Int) (b : List Nat) :
    ∀ s s1 : BufferPoolManagerInstance, s.Inv → Parked p b s →
      BufferPoolManagerInstance.FlushLoop ids s = some s1 → Parked p b s1 := by
  induction ids with
  | nil =>
    intro s s1 _ hpark h
    simp only [BufferPoolManagerInstance.FlushLoop, Option.some.injEq] at h
    exact h ▸ hpark
  | cons q rest ih =>
    intro s s1 hinv hpark h
    simp only [BufferPoolManagerInstance.FlushLoop] at h
    split at h
    · simp at h
    · rename_i r s2 hfl
      exact ih s2 s1 (BufferPoolManagerInstance.Inv_FlushPgImp s s2 q r hinv hfl)
        (Parked_FlushPgImp s s2 q r hinv p b hpark hfl) h

theorem Parked_step (inf : Int) (hinf : 0 ≤ inf) (s s1 : BufferPoolManagerInstance) (op : Op)
    (hinv : s.Inv) (ht : s.Tight none) (p : Int) (b : List Nat) (hpark : Parked p b s)
    (hop : op ≠ Op.FetchPage p) (h : s.step inf op = some s1) : Parked p b s1 := by
  cases op with
  | NewPage =>
    simp only [BufferPoolManagerInstance.step, Option.map_eq_some'] at h
    obtain ⟨⟨res, s2⟩, h1, h2⟩ := h
    simp only at h2
    subst h2
    rcases BufferPoolManagerInstance.NewPgImp_spec inf s hinv hinf with
      ⟨_, _, h3⟩ | ⟨st, f, s0, r2, hacq, _, h3⟩
    · rw [h3] at h1
      simp only [Option.some.injEq, Prod.mk.injEq] at h1
      exact h1.2 ▸ hpark
    · rw [h3] at h1
      simp only [Option.some.injEq, Prod.mk.injEq] at h1
      rw [← h1.2]
      obtain ⟨hp1, hp2⟩ := Acquired_parked inf s s0 st f hinv ht p b hpark hacq
      have hne : p ≠ s.next_page_id_ := ne_of_lt hpark.2.2
      refine ⟨?_, hp2, lt_trans hpark.2.2 (lt_add_one _)⟩
      show Map.find (Map.assign s0.page_to_frame_ s.next_page_id_ f) p = none
      rw [Map.find_assign]
      simp only [hne, if_false]
      exact hp1
  | FetchPage q =>
    have hne : p ≠ q := fun heq => hop (by rw [heq])
    simp only [BufferPoolManagerInstance.step, Option.map_eq_some'] at h
    obtain ⟨⟨res, s2⟩, h1, h2⟩ := h
    simp only at h2
    subst h2
    cases hfind : Map.find s.page_to_frame_ q with
    | some f =>
      obtain ⟨pg, r2, hpg, _, h3⟩ :=
        BufferPoolManagerInstance.FetchPgImp_resident inf s hinv q f hfind
      rw [h3] at h1
      simp only [Option.some.injEq, Prod.mk.injEq] at h1
      rw [← h1.2]
      exact hpark
    | none =>
      rcases BufferPoolManagerInstance.FetchPgImp_absent inf s hinv hinf q hfind with
        ⟨_, _, h3⟩ | ⟨st, f, s0, r2, hacq, _, h3⟩
      · rw [h3] at h1
        simp only [Option.some.injEq, Prod.mk.injEq] at h1
        exact h1.2 ▸ hpark
      · rw [h3] at h1
        simp only [Option.some.injEq, Prod.mk.injEq] at h1
        rw [← h1.2]
        obtain ⟨hp1, hp2⟩ := Acquired_parked inf s s0 st f hinv ht p b hpark hacq
        obtain ⟨_, hnext, _⟩ := Acquired_same inf s s0 st f hacq
        refine ⟨?_, ?_, ?_⟩
        · show Map.find (Map.assign s0.page_to_frame_ q f) p = none
          rw [Map.find_assign]
          simp only [hne, if_false]
          exact hp1
        · show Map.find (s0.disk_manager_.ReadPage q zeroData).2.store p = some b
          exact hp2
        · show p < s0.next_page_id_
          rw [hnext]; exact hpark.2.2
  | UnpinPage q flag =>
    simp only [BufferPoolManagerInstance.step, Option.map_eq_some'] at h
    obtain ⟨⟨res, s2⟩, h1, h2⟩ := h
    simp only at h2
    subst h2
    cases hq : Map.find s.page_to_frame_ q with
    | none =>
      simp only [BufferPoolManagerInstance.UnpinPgImp, hq, Option.some.injEq,
        Prod.mk.injEq] at h1
      exact h1.2 ▸ hpark
    | some f =>
      obtain ⟨pg, hpg, hcase⟩ := BufferPoolManagerInstance.UnpinPgImp_spec s hinv q f flag hq
      rcases hcase with ⟨_, h3⟩ | ⟨hpin, r1, hr1, h3⟩
      · rw [h3] at h1
        simp only [Option.some.injEq, Prod.mk.injEq] at h1
        exact h1.2 ▸ hpark
      · rw [h3] at h1
        simp only [Option.some.injEq, Prod.mk.injEq] at h1
        rw [← h1.2]
        exact hpark
  | FlushPage q =>
    simp only [BufferPoolManagerInstance.step, Option.map_eq_some'] at h
    obtain ⟨⟨res, s2⟩, h1, h2⟩ := h
    simp only at h2
    subst h2
    exact Parked_FlushPgImp s s2 q res hinv p b hpark h1
  | FlushAllPages =>
    exact Parked_FlushLoop _ p b s s1 hinv hpark h
  | DeletePage q =>
    simp only [BufferPoolManagerInstance.step, Option.map_eq_some'] at h
    obtain ⟨⟨res, s2⟩, h1, h2⟩ := h
    simp only at h2
    subst h2
    cases hq : Map.find s.page_to_frame_ q with
    | none =>
      simp only [BufferPoolManagerInstance.DeletePgImp, hq, Option.some.injEq,
        Prod.mk.injEq] at h1
      exact h1.2 ▸ hpark
    | some f =>
      obtain ⟨pg, hpg, hcase⟩ := BufferPoolManagerInstance.DeletePgImp_spec s hinv q f hq
      rcases hcase with ⟨_, h3⟩ | ⟨_, _, h3⟩
      · rw [h3] at h1
        simp only [Option.some.injEq, Prod.mk.injEq] at h1
        exact h1.2 ▸ hpark
      · rw [h3] at h1
        simp only [Option.some.injEq, Prod.mk.injEq] at h1
        rw [← h1.2]
        have hne : p ≠ q := by
          intro heq
          have h0 := hpark.1
          rw [heq, hq] at h0
          simp at h0
        refine ⟨?_, ?_, hpark.2.2⟩
        · show Map.find (Map.erase s.page_to_frame_ q) p = none
          rw [Map.find_erase]
          simp only [hne, if_false]
          exact hpark.1
        · show Map.find (Map.erase s.disk_manager_.store q) p = some b
          rw [Map.find_erase]
          simp only [hne, if_false]
          exact hpark.2.1
  | WriteData f data =>
    simp only [BufferPoolManagerInstance.step] at h
    cases hpg : s.frame f with
    | none => simp [BufferPoolManagerInstance.modifyFrame, hpg] at h
    | some pg =>
      rw [BufferPoolManagerInstance.modifyFrame_eq s f _ pg hpg, Option.some.injEq] at h
      rw [← h]
      exact hpark

theorem Parked_runAllocated (inf : Int) (hinf : 0 ≤ inf) (p : Int) (b : List Nat)
    (ops : List Op) :
    ∀ s s1 : BufferPoolManagerInstance, s.Inv → s.Tight none → Parked p b s →
      Op.FetchPage p ∉ ops →
      BufferPoolManagerInstance.runAllocated inf ops s = some s1 →
      s1.Inv ∧ s1.Tight none ∧ Parked p b s1 := by
  induction ops with
  | nil =>
    intro s s1 hinv ht hpark _ h
    simp only [BufferPoolManagerInstance.runAllocated, Option.some.injEq] at h
    exact h ▸ ⟨hinv, ht, hpark⟩
  | cons op rest ih =>
    intro s s1 hinv ht hpark hno h
    simp only [BufferPoolManagerInstance.runAllocated] at h
    split_ifs at h with hadm
    split at h
    · simp at h
    · rename_i s2 hstep
      have hop : op ≠ Op.FetchPage p := fun heq => hno (by rw [heq]; exact List.mem_cons_self _ _)
      exact ih s2 s1 (BufferPoolManagerInstance.Inv_step inf hinf s s2 op hinv hstep)
        (BufferPoolManagerInstance.Tight_step inf hinf s s2 op hinv ht hadm hstep)
        (Parked_step inf hinf s s2 op hinv ht p b hpark hop hstep)
        (fun hmem => hno (List.mem_cons_of_mem _ hmem)) h

theorem zeroData_ne_bytes : zeroData ≠ bytes 7 := by
  intro h
  have := congrArg (fun l => l.head?) h
  simp [zeroData, bytes, PAGE_SIZE, List.head?_replicate] at this

theorem BufferPoolManagerInstance.RetrieveFreePage_victim (inf : Int)
    (s s0 : BufferPoolManagerInstance) (f : Int) (pg : Page)
    (h : s.RetrieveFreePage inf = some ((1, some f), s0)) (hpg : s.frame f = some pg) :
    s.free_list_ = [] ∧ ∃ r,
      s0 = { s with replacer_ := r,
                    disk_manager_ := if pg.is_dirty_ = true
                      then s.disk_manager_.WritePage pg.page_id_ pg.data_
                      else s.disk_manager_,
                    page_to_frame_ := Map.erase s.page_to_frame_ pg.page_id_ } := by
  unfold BufferPoolManagerInstance.RetrieveFreePage at h
  cases hfl : s.free_list_ with
  | cons a rest => simp [hfl] at h
  | nil =>
    simp only [hfl] at h
    cases hev : s.replacer_.Evict inf with
    | none => simp [hev] at h
    | some res =>
      obtain ⟨v, r⟩ := res
      cases v with
      | none => simp [hev] at h
      | some id =>
        simp only [hev] at h
        cases hid : s.frame id with
        | none => simp [hid] at h
        | some pg1 =>
          simp only [hid, Option.some.injEq, Prod.mk.injEq, true_and] at h
          obtain ⟨hf, hs0⟩ := h
          subst hf
          rw [hpg, Option.some.injEq] at hid
          subst hid
          exact ⟨rfl, r, hs0.symm⟩

theorem Held_frame_ne (s : BufferPoolManagerInstance) (hinv : s.Inv) (p q : Int) (f g : Int)
    (hp : Map.find s.page_to_frame_ p = some f) (hq : Map.find s.page_to_frame_ q = some g)
    (hne : q ≠ p) : g ≠ f := by
  intro heq
  obtain ⟨_, _, pg, hpg, hid⟩ := hinv.table p f hp
  obtain ⟨_, _, pg1, hpg1, hid1⟩ := hinv.table q g hq
  rw [heq, hpg, Option.some.injEq] at hpg1
  rw [← hpg1, hid] at hid1
  exact hne hid1.symm

/-- A frame other than `f` gets new contents, and the disk keeps what it
stores under `p`. -/
theorem Held_update (p : Int) (b : List Nat) (f : Int) (s : BufferPoolManagerInstance) (g : Int)
    (page : Page) (r2 : LRUKReplacer) (dm : DiskManager) (h : Held p b f s)
    (hg : (s.frame g).isSome) (hgf : g ≠ f)
    (hdm : Map.find dm.store p = Map.find s.disk_manager_.store p) :
    Held p b f
      { s with pages_ := s.pages_.set g.toNat page, replacer_ := r2, disk_manager_ := dm } := by
  obtain ⟨hp, pg, hpg, hdata, hpin, hsafe⟩ := h
  have hframe := BufferPoolManagerInstance.frame_set s
    { s with pages_ := s.pages_.set g.toNat page, replacer_ := r2, disk_manager_ := dm }
    g page hg rfl f
  refine ⟨hp, pg, ?_, hdata, hpin, ?_⟩
  · rw [hframe]; simp [Ne.symm hgf, hpg]
  · rcases hsafe with h1 | h1
    · exact Or.inl h1
    · right
      show Map.find dm.store p = some b
      rw [hdm]; exact h1

theorem Held_of_Acquired (inf : Int) (p : Int) (b : List Nat) (f : Int)
    (s s0 : BufferPoolManagerInstance) (st : Nat) (f0 : Int) (hinv : s.Inv) (ht : s.Tight none)
    (h : Held p b f s) (hacq : Acquired inf s st f0 s0) :
    (f0 ≠ f ∧ Held p b f s0) ∨ (f0 = f ∧ Map.find s0.page_to_frame_ p = none) := by
  obtain ⟨hp, pg, hpg, hdata, hpin, hsafe⟩ := h
  rcases hacq with ⟨_, rest, hfl, hs1⟩ | ⟨_, hfl, _, pg0, r1, hpg0, _, _, _, _, hs1⟩
  · subst hs1
    left
    refine ⟨?_, hp, pg, hpg, hdata, hpin, hsafe⟩
    intro heq
    have := BufferPoolManagerInstance.not_free_of_table s hinv p f hp
    rw [hfl, ← heq] at this
    exact this (List.mem_cons_self _ _)
  · subst hs1
    have hin := BufferPoolManagerInstance.victim_in_table s hinv ht hfl f0 pg0 hpg0
    by_cases hff : f0 = f
    · right
      refine ⟨hff, ?_⟩
      obtain ⟨_, _, pg1, hpg1, hid⟩ := hinv.table p f hp
      rw [hff, hpg1, Option.some.injEq] at hpg0
      show Map.find (Map.erase s.page_to_frame_ pg0.page_id_) p = none
      rw [← hpg0, hid, Map.find_erase]; simp
    · left
      have hne : p ≠ pg0.page_id_ := by
        intro heq
        rw [← heq, hp, Option.some.injEq] at hin
        exact hff hin.symm
      refine ⟨hff, ?_, pg, hpg, hdata, hpin, ?_⟩
      · show Map.find (Map.erase s.page_to_frame_ pg0.page_id_) p = some f
        rw [Map.find_erase]; simp only [hne, if_false]; exact hp
      · rcases hsafe with h1 | h1
        · exact Or.inl h1
        · right
          show Map.find (if pg0.is_dirty_ = true
            then s.disk_manager_.WritePage pg0.page_id_ pg0.data_
            else s.disk_manager_).store p = some b
          split_ifs
          · show Map.find (Map.assign s.disk_manager_.store pg0.page_id_ pg0.data_) p = some b
            rw [Map.find_assign]; simp only [hne, if_false]; exact h1
          · exact h1

/-- A frame under reassignment, other than `f`, receives a page other than
`p`, and the disk keeps what it stores. -/
theorem Held_install (p : Int) (b : List Nat) (f : Int) (s0 : BufferPoolManagerInstance)
    (f0 : Int) (page : Page) (r2 : LRUKReplacer) (pid n : Int) (dm : DiskManager)
    (h : Held p b f s0) (hhole : (s0.frame f0).isSome) (hff : f0 ≠ f) (hpid : p ≠ pid)
    (hdm : dm.store = s0.disk_manager_.store) :
    Held p b f
      { s0 with pages_ := s0.pages_.set f0.toNat page, replacer_ := r2, next_page_id_ := n,
                page_to_frame_ := Map.assign s0.page_to_frame_ pid f0, disk_manager_ := dm } := by
  obtain ⟨hp, pg, hpg, hdata, hpin, hsafe⟩ := h
  have hframe := BufferPoolManagerInstance.frame_set s0
    { s0 with pages_ := s0.pages_.set f0.toNat page, replacer_ := r2, next_page_id_ := n,
              page_to_frame_ := Map.assign s0.page_to_frame_ pid f0, disk_manager_ := dm }
    f0 page hhole rfl f
  refine ⟨?_, pg, ?_, hdata, hpin, ?_⟩
  · show Map.find (Map.assign s0.page_to_frame_ pid f0) p = some f
    rw [Map.find_assign]; simp only [hpid, if_false]; exact hp
  · rw [hframe]; simp [Ne.symm hff, hpg]
  · rcases hsafe with h1 | h1
    · exact Or.inl h1
    · right
      show Map.find dm.store p = some b
      rw [hdm]; exact h1

theorem Held_FlushPgImp (p : Int) (b : List Nat) (f : Int) (s s1 : BufferPoolManagerInstance)
    (q : Int) (res : Bool) (hinv : s.Inv) (h : Held p b f s)
    (hfl : s.FlushPgImp q = some (res, s1)) : Held p b f s1 := by
  cases hq : Map.find s.page_to_frame_ q with
  | none =>
    simp only [BufferPoolManagerInstance.FlushPgImp, hq, Option.some.injEq, Prod.mk.injEq] at hfl
    exact hfl.2 ▸ h
  | some g =>
    obtain ⟨pg1, hpg1, h3⟩ := BufferPoolManagerInstance.FlushPgImp_spec s hinv q g hq
    rw [h3] at hfl
    simp only [Option.some.injEq, Prod.mk.injEq] at hfl
    rw [← hfl.2]
    by_cases hqp : q = p
    · obtain ⟨hp, pg, hpg, hdata, hpin, _⟩ := h
      rw [hqp, hp, Option.some.injEq] at hq
      subst hq
      rw [hpg, Option.some.injEq] at hpg1
      subst hpg1
      have hframe := BufferPoolManagerInstance.frame_set_self s f pg
        { pg with is_dirty_ := false } hpg
        { s with disk_manager_ := s.disk_manager_.WritePage q pg.data_,
                 pages_ := s.pages_.set f.toNat { pg with is_dirty_ := false } } rfl
      refine ⟨hp, _, hframe, hdata, hpin, Or.inr ?_⟩
      show Map.find (Map.assign s.disk_manager_.store q pg.data_) p = some b
      rw [Map.find_assign, hqp, hdata]; simp
    · have hgf := Held_frame_ne s hinv p q f g h.1 hq hqp
      refine Held_update p b f s g _ s.replacer_ _ h (by rw [hpg1]; rfl) hgf ?_
      show Map.find (Map.assign s.disk_manager_.store q pg1.data_) p = _
      rw [Map.find_assign]
      simp [Ne.symm hqp]

theorem Held_FlushLoop (p : Int) (b : List Nat) (f : Int) (ids : List page_id_t) :
    ∀ s s1 : BufferPoolManagerInstance, s.Inv → Held p b f s →
      BufferPoolManagerInstance.FlushLoop ids s = some s1 → Held p b f s1 := by
  induction ids with
  | nil =>
    intro s s1 _ h hfl
    simp only [BufferPoolManagerInstance.FlushLoop, Option.some.injEq] at hfl
    exact hfl ▸ h
  | cons q rest ih =>
    intro s s1 hinv h hfl
    simp only [BufferPoolManagerInstance.FlushLoop] at hfl
    split at hfl
    · simp at hfl
    · rename_i r s2 hq
      exact ih s2 s1 (BufferPoolManagerInstance.Inv_FlushPgImp s s2 q r hinv hq)
        (Held_FlushPgImp p b f s s2 q r hinv h hq) hfl

theorem Held_step (inf : Int) (hinf : 0 ≤ inf) (p : Int) (b : List Nat) (f : Int)
    (s s1 : BufferPoolManagerInstance) (op : Op) (hinv : s.Inv) (ht : s.Tight none)
    (h : Held p b f s) (hop : op ≠ Op.FetchPage p) (hw : ∀ d, op ≠ Op.WriteData f d)
    (hstep : s.step inf op = some s1) : Held p b f s1 ∨ Gone p s1 := by
  have hp := h.1
  have hlt : p < s.next_page_id_ := ht.fresh p f hp
  cases op with
  | NewPage =>
    simp only [BufferPoolManagerInstance.step, Option.map_eq_some'] at hstep
    obtain ⟨⟨res, s2⟩, h1, h2⟩ := hstep
    simp only at h2
    subst h2
    rcases BufferPoolManagerInstance.NewPgImp_spec inf s hinv hinf with
      ⟨_, _, h3⟩ | ⟨st, f0, s0, r2, hacq, _, h3⟩
    · rw [h3] at h1
      simp only [Option.some.injEq, Prod.mk.injEq] at h1
      exact Or.inl (h1.2 ▸ h)
    · rw [h3] at h1
      simp only [Option.some.injEq, Prod.mk.injEq] at h1
      rw [← h1.2]
      have hhole := BufferPoolManagerInstance.InvHole_of_Acquired inf s s0 st f0 hinv hacq
      rcases Held_of_Acquired inf p b f s s0 st f0 hinv ht h hacq with ⟨hff, h0⟩ | ⟨_, h0⟩
      · left
        exact Held_install p b f s0 f0 _ r2 s.next_page_id_ (s.next_page_id_ + 1)
          s0.disk_manager_ h0 (hhole.hole f0 rfl) hff (ne_of_lt hlt) rfl
      · right
        refine ⟨?_, lt_trans hlt (lt_add_one _)⟩
        show Map.find (Map.assign s0.page_to_frame_ s.next_page_id_ f0) p = none
        rw [Map.find_assign]
        simp only [ne_of_lt hlt, if_false]
        exact h0
  | FetchPage q =>
    have hne : p ≠ q := fun heq => hop (by rw [heq])
    simp only [BufferPoolManagerInstance.step, Option.map_eq_some'] at hstep
    obtain ⟨⟨res, s2⟩, h1, h2⟩ := hstep
    simp only at h2
    subst h2
    cases hfind : Map.find s.page_to_frame_ q with
    | some g =>
      obtain ⟨pg1, r2, hpg1, _, h3⟩ :=
        BufferPoolManagerInstance.FetchPgImp_resident inf s hinv q g hfind
      rw [h3] at h1
      simp only [Option.some.injEq, Prod.mk.injEq] at h1
      rw [← h1.2]
      left
      exact Held_update p b f s g _ r2 s.disk_manager_ h (by rw [hpg1]; rfl)
        (Held_frame_ne s hinv p q f g hp hfind (Ne.symm hne)) rfl
    | none =>
      rcases BufferPoolManagerInstance.FetchPgImp_absent inf s hinv hinf q hfind with
        ⟨_, _, h3⟩ | ⟨st, f0, s0, r2, hacq, _, h3⟩
      · rw [h3] at h1
        simp only [Option.some.injEq, Prod.mk.injEq] at h1
        exact Or.inl (h1.2 ▸ h)
      · rw [h3] at h1
        simp only [Option.some.injEq, Prod.mk.injEq] at h1
        rw [← h1.2]
        have hhole := BufferPoolManagerInstance.InvHole_of_Acquired inf s s0 st f0 hinv hacq
        obtain ⟨_, hnext, _⟩ := Acquired_same inf s s0 st f0 hacq
        rcases Held_of_Acquired inf p b f s s0 st f0 hinv ht h hacq with ⟨hff, h0⟩ | ⟨_, h0⟩
        · left
          exact Held_install p b f s0 f0 _ r2 q s0.next_page_id_
            (s0.disk_manager_.ReadPage q zeroData).2 h0 (hhole.hole f0 rfl) hff hne rfl
        · right
          refine ⟨?_, ?_⟩
          · show Map.find (Map.assign s0.page_to_frame_ q f0) p = none
            rw [Map.find_assign]
            simp only [hne, if_false]
            exact h0
          · show p < s0.next_page_id_
            rw [hnext]; exact hlt
  | UnpinPage q flag =>
    left
    simp only [BufferPoolManagerInstance.step, Option.map_eq_some'] at hstep
    obtain ⟨⟨res, s2⟩, h1, h2⟩ := hstep
    simp only at h2
    subst h2
    cases hq : Map.find s.page_to_frame_ q with
    | none =>
      simp only [BufferPoolManagerInstance.UnpinPgImp, hq, Option.some.injEq,
        Prod.mk.injEq] at h1
      exact h1.2 ▸ h
    | some g =>
      obtain ⟨pg1, hpg1, hcase⟩ := BufferPoolManagerInstance.UnpinPgImp_spec s hinv q g flag hq
      rcases hcase with ⟨_, h3⟩ | ⟨hpin1, r1, _, h3⟩
      · rw [h3] at h1
        simp only [Option.some.injEq, Prod.mk.injEq] at h1
        exact h1.2 ▸ h
      · rw [h3] at h1
        simp only [Option.some.injEq, Prod.mk.injEq] at h1
        rw [← h1.2]
        have hqp : q ≠ p := by
          intro heq
          obtain ⟨_, pg, hpg, _, hpin, _⟩ := h
          rw [heq, hp, Option.some.injEq] at hq
          rw [← hq, hpg, Option.some.injEq] at hpg1
          rw [← hpg1] at hpin1
          exact hpin1 hpin
        exact Held_update p b f s g _ r1 s.disk_manager_ h (by rw [hpg1]; rfl)
          (Held_frame_ne s hinv p q f g hp hq hqp) rfl
  | FlushPage q =>
    left
    simp only [BufferPoolManagerInstance.step, Option.map_eq_some'] at hstep
    obtain ⟨⟨res, s2⟩, h1, h2⟩ := hstep
    simp only at h2
    subst h2
    exact Held_FlushPgImp p b f s s2 q res hinv h h1
  | FlushAllPages =>
    left
    exact Held_FlushLoop p b f _ s s1 hinv h hstep
  | DeletePage q =>
    simp only [BufferPoolManagerInstance.step, Option.map_eq_some'] at hstep
    obtain ⟨⟨res, s2⟩, h1, h2⟩ := hstep
    simp only at h2
    subst h2
    cases hq : Map.find s.page_to_frame_ q with
    | none =>
      simp only [BufferPoolManagerInstance.DeletePgImp, hq, Option.some.injEq,
        Prod.mk.injEq] at h1
      exact Or.inl (h1.2 ▸ h)
    | some g =>
      obtain ⟨pg1, hpg1, hcase⟩ := BufferPoolManagerInstance.DeletePgImp_spec s hinv q g hq
      rcases hcase with ⟨_, h3⟩ | ⟨_, _, h3⟩
      · rw [h3] at h1
        simp only [Option.some.injEq, Prod.mk.injEq] at h1
        exact Or.inl (h1.2 ▸ h)
      · rw [h3] at h1
        simp only [Option.some.injEq, Prod.mk.injEq] at h1
        rw [← h1.2]
        by_cases hqp : q = p
        · right
          refine ⟨?_, hlt⟩
          show Map.find (Map.erase s.page_to_frame_ q) p = none
          rw [Map.find_erase, hqp]; simp
        · left
          have hgf := Held_frame_ne s hinv p q f g hp hq hqp
          obtain ⟨_, pg, hpg, hdata, hpin, hsafe⟩ := h
          have hframe := BufferPoolManagerInstance.frame_set s
            { s with
              pages_ := s.pages_.set g.toNat
                { data_ := zeroData, page_id_ := -1, pin_count_ := 0, is_dirty_ := false },
              free_list_ := s.free_list_ ++ [g],
              page_to_frame_ := Map.erase s.page_to_frame_ q,
              disk_manager_ := s.disk_manager_.DeallocatePage q }
            g { data_ := zeroData, page_id_ := -1, pin_count_ := 0, is_dirty_ := false }
            (by rw [hpg1]; rfl) rfl f
          refine ⟨?_, pg, ?_, hdata, hpin, ?_⟩
          · show Map.find (Map.erase s.page_to_frame_ q) p = some f
            rw [Map.find_erase]
            simp only [Ne.symm hqp, if_false]
            exact hp
          · rw [hframe]; simp [Ne.symm hgf, hpg]
          · rcases hsafe with h5 | h5
            · exact Or.inl h5
            · right
              show Map.find (Map.erase s.disk_manager_.store q) p = some b
              rw [Map.find_erase]
              simp only [Ne.symm hqp, if_false]
              exact h5
  | WriteData g data =>
    left
    simp only [BufferPoolManagerInstance.step] at hstep
    cases hpg1 : s.frame g with
    | none => simp [BufferPoolManagerInstance.modifyFrame, hpg1] at hstep
    | some pg1 =>
      rw [BufferPoolManagerInstance.modifyFrame_eq s g _ pg1 hpg1, Option.some.injEq] at hstep
      rw [← hstep]
      have hgf : g ≠ f := fun heq => hw data (by rw [heq])
      exact Held_update p b f s g _ s.replacer_ s.disk_manager_ h (by rw [hpg1]; rfl) hgf rfl

theorem Gone_FlushLoop (p : Int) (ids : List page_id_t) :
    ∀ s s1 : BufferPoolManagerInstance, s.Inv → Gone p s →
      BufferPoolManagerInstance.FlushLoop ids s = some s1 → Gone p s1 := by
  induction ids with
  | nil =>
    intro s s1 _ h hfl
    simp only [BufferPoolManagerInstance.FlushLoop, Option.some.injEq] at hfl
    exact hfl ▸ h
  | cons q rest ih =>
    intro s s1 hinv h hfl
    simp only [BufferPoolManagerInstance.FlushLoop] at hfl
    split at hfl
    · simp at hfl
    · rename_i r s2 hq
      refine ih s2 s1 (BufferPoolManagerInstance.Inv_FlushPgImp s s2 q r hinv hq) ?_ hfl
      cases hfind : Map.find s.page_to_frame_ q with
      | none =>
        simp only [BufferPoolManagerInstance.FlushPgImp, hfind, Option.some.injEq,
          Prod.mk.injEq] at hq
        exact hq.2 ▸ h
      | some g =>
        obtain ⟨pg1, _, h3⟩ := BufferPoolManagerInstance.FlushPgImp_spec s hinv q g hfind
        rw [h3] at hq
        simp only [Option.some.injEq, Prod.mk.injEq] at hq
        rw [← hq.2]
        exact h

theorem Gone_step (inf : Int) (hinf : 0 ≤ inf) (p : Int) (s s1 : BufferPoolManagerInstance)
    (op : Op) (hinv : s.Inv) (h : Gone p s) (hop : op ≠ Op.FetchPage p)
    (hstep : s.step inf op = some s1) : Gone p s1 := by
  obtain ⟨hp, hlt⟩ := h
  cases op with
  | NewPage =>
    simp only [BufferPoolManagerInstance.step, Option.map_eq_some'] at hstep
    obtain ⟨⟨res, s2⟩, h1, h2⟩ := hstep
    simp only at h2
    subst h2
    rcases BufferPoolManagerInstance.NewPgImp_spec inf s hinv hinf with
      ⟨_, _, h3⟩ | ⟨st, f0, s0, r2, hacq, _, h3⟩
    · rw [h3] at h1
      simp only [Option.some.injEq, Prod.mk.injEq] at h1
      exact h1.2 ▸ ⟨hp, hlt⟩
    · rw [h3] at h1
      simp only [Option.some.injEq, Prod.mk.injEq] at h1
      rw [← h1.2]
      refine ⟨?_, lt_trans hlt (lt_add_one _)⟩
      show Map.find (Map.assign s0.page_to_frame_ s.next_page_id_ f0) p = none
      rw [Map.find_assign]
      simp only [ne_of_lt hlt, if_false]
      exact Acquired_table_none inf s s0 st f0 hacq p hp
  | FetchPage q =>
    have hne : p ≠ q := fun heq => hop (by rw [heq])
    simp only [BufferPoolManagerInstance.step, Option.map_eq_some'] at hstep
    obtain ⟨⟨res, s2⟩, h1, h2⟩ := hstep
    simp only at h2
    subst h2
    cases hfind : Map.find s.page_to_frame_ q with
    | some g =>
      obtain ⟨pg1, r2, _, _, h3⟩ :=
        BufferPoolManagerInstance.FetchPgImp_resident inf s hinv q g hfind
      rw [h3] at h1
      simp only [Option.some.injEq, Prod.mk.injEq] at h1
      rw [← h1.2]
      exact ⟨hp, hlt⟩
    | none =>
      rcases BufferPoolManagerInstance.FetchPgImp_absent inf s hinv hinf q hfind with
        ⟨_, _, h3⟩ | ⟨st, f0, s0, r2, hacq, _, h3⟩
      · rw [h3] at h1
        simp only [Option.some.injEq, Prod.mk.injEq] at h1
        exact h1.2 ▸ ⟨hp, hlt⟩
      · rw [h3] at h1
        simp only [Option.some.injEq, Prod.mk.injEq] at h1
        rw [← h1.2]
        obtain ⟨_, hnext, _⟩ := Acquired_same inf s s0 st f0 hacq
        refine ⟨?_, ?_⟩
        · show Map.find (Map.assign s0.page_to_frame_ q f0) p = none
          rw [Map.find_assign]
          simp only [hne, if_false]
          exact Acquired_table_none inf s s0 st f0 hacq p hp
        · show p < s0.next_page_id_
          rw [hnext]; exact hlt
  | UnpinPage q flag =>
    simp only [BufferPoolManagerInstance.step, Option.map_eq_some'] at hstep
    obtain ⟨⟨res, s2⟩, h1, h2⟩ := hstep
    simp only at h2
    subst h2
    cases hq : Map.find s.page_to_frame_ q with
    | none =>
      simp only [BufferPoolManagerInstance.UnpinPgImp, hq, Option.some.injEq,
        Prod.mk.injEq] at h1
      exact h1.2 ▸ ⟨hp, hlt⟩
    | some g =>
      obtain ⟨pg1, _, hcase⟩ := BufferPoolManagerInstance.UnpinPgImp_spec s hinv q g flag hq
      rcases hcase with ⟨_, h3⟩ | ⟨_, r1, _, h3⟩
      · rw [h3] at h1
        simp only [Option.some.injEq, Prod.mk.injEq] at h1
        exact h1.2 ▸ ⟨hp, hlt⟩
      · rw [h3] at h1
        simp only [Option.some.injEq, Prod.mk.injEq] at h1
        rw [← h1.2]
        exact ⟨hp, hlt⟩
  | FlushPage q =>
    exact Gone_FlushLoop p [q] s s1 hinv ⟨hp, hlt⟩ (by
      simp only [BufferPoolManagerInstance.step, Option.map_eq_some'] at hstep
      obtain ⟨⟨res, s2⟩, h1, h2⟩ := hstep
      simp only at h2
      subst h2
      simp only [BufferPoolManagerInstance.FlushLoop, h1])
  | FlushAllPages =>
    exact Gone_FlushLoop p _ s s1 hinv ⟨hp, hlt⟩ hstep
  | DeletePage q =>
    simp only [BufferPoolManagerInstance.step, Option.map_eq_some'] at hstep
    obtain ⟨⟨res, s2⟩, h1, h2⟩ := hstep
    simp only at h2
    subst h2
    cases hq : Map.find s.page_to_frame_ q with
    | none =>
      simp only [BufferPoolManagerInstance.DeletePgImp, hq, Option.some.injEq,
        Prod.mk.injEq] at h1
      exact h1.2 ▸ ⟨hp, hlt⟩
    | some g =>
      obtain ⟨pg1, _, hcase⟩ := BufferPoolManagerInstance.DeletePgImp_spec s hinv q g hq
      rcases hcase with ⟨_, h3⟩ | ⟨_, _, h3⟩
      · rw [h3] at h1
        simp only [Option.some.injEq, Prod.mk.injEq] at h1
        exact h1.2 ▸ ⟨hp, hlt⟩
      · rw [h3] at h1
        simp only [Option.some.injEq, Prod.mk.injEq] at h1
        rw [← h1.2]
        refine ⟨?_, hlt⟩
        show Map.find (Map.erase s.page_to_frame_ q) p = none
        rw [Map.find_erase]
        split_ifs
        · rfl
        · exact hp
  | WriteData g data =>
    simp only [BufferPoolManagerInstance.step] at hstep
    cases hpg1 : s.frame g with
    | none => simp [BufferPoolManagerInstance.modifyFrame, hpg1] at hstep
    | some pg1 =>
      rw [BufferPoolManagerInstance.modifyFrame_eq s g _ pg1 hpg1, Option.some.injEq] at hstep
      rw [← hstep]
      exact ⟨hp, hlt⟩

theorem Held_runAllocated (inf : Int) (hinf : 0 ≤ inf) (p : Int) (b : List Nat) (f : Int)
    (ops : List Op) :
    ∀ s s1 : BufferPoolManagerInstance, s.Inv → s.Tight none → (Held p b f s ∨ Gone p s) →
      Op.FetchPage p ∉ ops → (∀ d, Op.WriteData f d ∉ ops) →
      BufferPoolManagerInstance.runAllocated inf ops s = some s1 →
      s1.Inv ∧ s1.Tight none ∧ (Held p b f s1 ∨ Gone p s1) := by
  induction ops with
  | nil =>
    intro s s1 hinv ht h _ _ hrun
    simp only [BufferPoolManagerInstance.runAllocated, Option.some.injEq] at hrun
    exact hrun ▸ ⟨hinv, ht, h⟩
  | cons op rest ih =>
    intro s s1 hinv ht h hno hw hrun
    simp only [BufferPoolManagerInstance.runAllocated] at hrun
    split_ifs at hrun with hadm
    split at hrun
    · simp at hrun
    · rename_i s2 hstep
      have hop : op ≠ Op.FetchPage p := fun heq => hno (by rw [heq]; exact List.mem_cons_self _ _)
      have hwop : ∀ d, op ≠ Op.WriteData f d :=
        fun d heq => hw d (by rw [heq]; exact List.mem_cons_self _ _)
      refine ih s2 s1 (BufferPoolManagerInstance.Inv_step inf hinf s s2 op hinv hstep)
        (BufferPoolManagerInstance.Tight_step inf hinf s s2 op hinv ht hadm hstep) ?_
        (fun hmem => hno (List.mem_cons_of_mem _ hmem))
        (fun d hmem => hw d (List.mem_cons_of_mem _ hmem)) hrun
      rcases h with h | h
      · exact Held_step inf hinf p b f s s2 op hinv ht h hop hwop hstep
      · exact Or.inr (Gone_step inf hinf p s s2 op hinv h hop hstep)

/-- A call of `new_page`, or of `fetch_page` for a non-resident page, that
evicts a frame whose contents are dirty or already on disk leaves the page of
that frame out of the pool with these contents on disk. -/
theorem Parked_of_eviction (inf : Int) (hinf : 0 ≤ inf) (s s0 s1 : BufferPoolManagerInstance)
    (f : Int) (pg : Page) (op : Op) (hinv : s.Inv) (ht : s.Tight none)
    (hret : s.RetrieveFreePage inf = some ((1, some f), s0)) (hpg : s.frame f = some pg)
    (hsafe : pg.is_dirty_ = true ∨
      Map.find s.disk_manager_.store pg.page_id_ = some pg.data_)
    (hop : op = Op.NewPage ∨ ∃ q, op = Op.FetchPage q ∧ q < s.next_page_id_ ∧
      Map.find s.page_to_frame_ q = none)
    (hstep : s.step inf op = some s1) : Parked pg.page_id_ pg.data_ s1 := by
  obtain ⟨hfl, r, hs0⟩ :=
    BufferPoolManagerInstance.RetrieveFreePage_victim inf s s0 f pg hret hpg
  have hin := BufferPoolManagerInstance.victim_in_table s hinv ht hfl f pg hpg
  have hlt : pg.page_id_ < s.next_page_id_ := ht.fresh _ f hin
  have hs0pt : Map.find s0.page_to_frame_ pg.page_id_ = none := by
    rw [hs0]
    show Map.find (Map.erase s.page_to_frame_ pg.page_id_) pg.page_id_ = none
    rw [Map.find_erase]; simp
  have hs0st : Map.find s0.disk_manager_.store pg.page_id_ = some pg.data_ := by
    rw [hs0]
    show Map.find (if pg.is_dirty_ = true then s.disk_manager_.WritePage pg.page_id_ pg.data_
      else s.disk_manager_).store pg.page_id_ = some pg.data_
    by_cases hd : pg.is_dirty_ = true
    · rw [if_pos hd]
      show Map.find (Map.assign s.disk_manager_.store pg.page_id_ pg.data_) pg.page_id_ = _
      rw [Map.find_assign]; simp
    · rw [if_neg hd]
      rcases hsafe with h | h
      · exact absurd h hd
      · exact h
  rcases hop with h | ⟨q, h, hq, hqn⟩
  · subst h
    simp only [BufferPoolManagerInstance.step, Option.map_eq_some'] at hstep
    obtain ⟨⟨res, s4⟩, h1, h2⟩ := hstep
    simp only at h2
    subst h2
    rcases BufferPoolManagerInstance.NewPgImp_spec inf s hinv hinf with
      ⟨_, h5, _⟩ | ⟨st, f0, s5, r2, hacq, _, h3⟩
    · have h7 := LRUKReplacer.Evict_zero inf s.replacer_ h5
      simp only [BufferPoolManagerInstance.RetrieveFreePage, hfl, h7] at hret
      simp at hret
    · have hr := Acquired_retrieve inf s s5 st f0 hacq
      rw [hret] at hr
      simp only [Option.some.injEq, Prod.mk.injEq] at hr
      obtain ⟨⟨_, hf0⟩, hs5⟩ := hr
      subst hs5
      rw [h3] at h1
      simp only [Option.some.injEq, Prod.mk.injEq] at h1
      rw [← h1.2]
      refine ⟨?_, hs0st, lt_trans hlt (lt_add_one _)⟩
      show Map.find (Map.assign s0.page_to_frame_ s.next_page_id_ f0) pg.page_id_ = none
      rw [Map.find_assign]
      simp only [ne_of_lt hlt, if_false]
      exact hs0pt
  · subst h
    have hne : pg.page_id_ ≠ q := by
      intro heq
      rw [← heq, hin] at hqn
      simp at hqn
    simp only [BufferPoolManagerInstance.step, Option.map_eq_some'] at hstep
    obtain ⟨⟨res, s4⟩, h1, h2⟩ := hstep
    simp only at h2
    subst h2
    rcases BufferPoolManagerInstance.FetchPgImp_absent inf s hinv hinf q hqn with
      ⟨_, h5, _⟩ | ⟨st, f0, s5, r2, hacq, _, h3⟩
    · have h7 := LRUKReplacer.Evict_zero inf s.replacer_ h5
      simp only [BufferPoolManagerInstance.RetrieveFreePage, hfl, h7] at hret
      simp at hret
    · have hr := Acquired_retrieve inf s s5 st f0 hacq
      rw [hret] at hr
      simp only [Option.some.injEq, Prod.mk.injEq] at hr
      obtain ⟨⟨_, hf0⟩, hs5⟩ := hr
      subst hs5
      rw [h3] at h1
      simp only [Option.some.injEq, Prod.mk.injEq] at h1
      rw [← h1.2]
      refine ⟨?_, hs0st, ?_⟩
      · show Map.find (Map.assign s0.page_to_frame_ q f0) pg.page_id_ = none
        rw [Map.find_assign]
        simp only [hne, if_false]
        exact hs0pt
      · show pg.page_id_ < s0.next_page_id_
        rw [hs0]; exact hlt

/-- A successful `fetch_page(p)` of a page that is out of the pool with the
contents `b` on disk reads `p` from disk and returns a frame that holds `p`
with data `b`. -/
theorem Parked_fetch (inf : Int) (hinf : 0 ≤ inf) (s2 s3 : BufferPoolManagerInstance)
    (p : Int) (b : List Nat) (f2 : Int) (hinv2 : s2.Inv) (ht2 : s2.Tight none)
    (hpark2 : Parked p b s2) (hfetch : s2.FetchPgImp inf p = some (some f2, s3)) :
    ∃ pg3, s3.frame f2 = some pg3 ∧ pg3.data_ = b ∧ pg3.page_id_ = p ∧
      s3.disk_manager_.log.getLast? = some (DiskOp.ReadPage p) := by
  rcases BufferPoolManagerInstance.FetchPgImp_absent inf s2 hinv2 hinf p hpark2.1
    with ⟨_, _, h3⟩ | ⟨st, f0, s5, r2, hacq, _, h3⟩
  · rw [h3] at hfetch; simp at hfetch
  · rw [h3] at hfetch
    simp only [Option.some.injEq, Prod.mk.injEq] at hfetch
    obtain ⟨hf2, hs3⟩ := hfetch
    subst hf2
    obtain ⟨_, hst⟩ := Acquired_parked inf s2 s5 st f0 hinv2 ht2 _ _ hpark2 hacq
    have hhole := BufferPoolManagerInstance.InvHole_of_Acquired inf s2 s5 st f0 hinv2 hacq
    have hframe := BufferPoolManagerInstance.frame_set s5 s3 f0
      { data_ := (s5.disk_manager_.ReadPage p zeroData).1,
        page_id_ := p, pin_count_ := 1, is_dirty_ := false }
      (hhole.hole f0 rfl) (by rw [← hs3]) f0
    refine ⟨{ data_ := (s5.disk_manager_.ReadPage p zeroData).1,
              page_id_ := p, pin_count_ := 1, is_dirty_ := false },
      by rw [hframe]; simp, ?_, rfl, ?_⟩
    · show (s5.disk_manager_.ReadPage p zeroData).1 = b
      simp only [DiskManager.ReadPage, hst]
    · rw [← hs3]
      show (s5.disk_manager_.log ++ [DiskOp.ReadPage p]).getLast? = _
      simp

theorem bytes_nine_ne_seven : bytes 9 ≠ bytes 7 := by
  intro h
  have := congrArg (fun l => l.head?) h
  simp [bytes, PAGE_SIZE, List.head?_replicate] at this

theorem stateS3_reachable : ReachableAllocated 1000 1 1 emptyDisk stateS3 :=
  ⟨opsS3, rfl⟩

/-- C8 does not hold in every reachable state. (1) On a two-frame pool, after
the calls `opsTwoCopies`, in which `fetch_page(0)` is asked before page 0 is
allocated, page 0 sits in frame 1 with the bytes 7, dirty and unpinned. The
next `new_page` evicts frame 1 and writes these bytes to disk under page 0.
The `fetch_page(0)` that follows succeeds, but it evicts frame 0, which also
carries page id 0 and is dirty, so that frame is written over page 0 first,
and the fetch returns zeroed data. (2) On a one-frame pool, page 0 is released
by `unpin_page(0, true)` with the bytes 7, then fetched again and released by
`unpin_page(0, false)`, which clears the dirty flag: the `new_page` that
evicts its frame writes nothing to disk, and the next `fetch_page(0)` returns
zeroed data. (3) On a one-frame pool, page 0 is released by
`unpin_page(0, true)` with the bytes 7 and the byte 9 is then written into its
frame: after the eviction, `fetch_page(0)` returns the bytes 9. -/
theorem released_page_fetched_stale :
    (∃ sA s0 sB sC,
      BufferPoolManagerInstance.run 1000 opsTwoCopies
        (BufferPoolManagerInstance.create 2 emptyDisk 2) = some sA ∧
      sA.frame 1 = some { data_ := bytes 7, page_id_ := 0, pin_count_ := 0,
                          is_dirty_ := true } ∧
      Map.find sA.page_to_frame_ 0 = some 1 ∧
      sA.RetrieveFreePage 1000 = some ((1, some 1), s0) ∧
      Map.find s0.disk_manager_.store 0 = some (bytes 7) ∧
      sA.NewPgImp 1000 = some (some (1, 1), sB) ∧
      sB.FetchPgImp 1000 0 = some (some 0, sC) ∧
      sC.frame 0 = some { data_ := zeroData, page_id_ := 0, pin_count_ := 1,
                          is_dirty_ := false } ∧
      zeroData ≠ bytes 7) ∧
    (∃ sA sB sC sD,
      BufferPoolManagerInstance.runAllocated 1000 [Op.NewPage, Op.WriteData 0 (bytes 7)]
        (BufferPoolManagerInstance.create 1 emptyDisk 1) = some stateWritten ∧
      stateWritten.UnpinPgImp 0 true = some (true, stateS3) ∧
      BufferPoolManagerInstance.runAllocated 1000 [Op.FetchPage 0, Op.UnpinPage 0 false]
        stateS3 = some sA ∧
      sA.frame 0 = some { data_ := bytes 7, page_id_ := 0, pin_count_ := 0,
                          is_dirty_ := false } ∧
      sA.NewPgImp 1000 = some (some (1, 0), sB) ∧
      sB.disk_manager_ = emptyDisk ∧
      BufferPoolManagerInstance.runAllocated 1000 [Op.UnpinPage 1 false] sB = some sC ∧
      sC.FetchPgImp 1000 0 = some (some 0, sD) ∧
      sD.frame 0 = some { data_ := zeroData, page_id_ := 0, pin_count_ := 1,
                          is_dirty_ := false } ∧
      sD.disk_manager_.log = [DiskOp.ReadPage 0]) ∧
    (∃ sA sB sC sD,
      stateWritten.UnpinPgImp 0 true = some (true, stateS3) ∧
      BufferPoolManagerInstance.runAllocated 1000 [Op.WriteData 0 (bytes 9)] stateS3
        = some sA ∧
      sA.NewPgImp 1000 = some (some (1, 0), sB) ∧
      BufferPoolManagerInstance.runAllocated 1000 [Op.UnpinPage 1 false] sB = some sC ∧
      sC.FetchPgImp 1000 0 = some (some 0, sD) ∧
      sD.frame 0 = some { data_ := bytes 9, page_id_ := 0, pin_count_ := 1,
                          is_dirty_ := false } ∧
      bytes 9 ≠ bytes 7) :=
  ⟨⟨_, _, _, _, rfl, rfl, rfl, rfl, rfl, rfl, rfl, rfl, zeroData_ne_bytes⟩,
   ⟨_, _, _, _, rfl, rfl, rfl, rfl, rfl, rfl, rfl, rfl, rfl, rfl⟩,
   ⟨_, _, _, _, rfl, rfl, rfl, rfl, rfl, rfl, bytes_nine_ne_seven⟩⟩

/-- C8, for allocated page ids and a page left alone until its eviction.
Whenever `RetrieveFreePage` takes a dirty victim it writes the data of that
frame to disk under the page id of that frame, and leaves the frame as it is
(the reset comes later, in the caller). Hence, when only allocated page ids
are fetched: let `unpin_page(P0, true)` return `true` and leave `P0` in frame
`f` with pin count 0 and data `b`; let calls follow among which there is no
`fetch_page(P0)` and no write into frame `f`, after which `P0` is still in
frame `f`; let then a call of `new_page`, or of `fetch_page` for a
non-resident page, evict frame `f`; then after any further calls other than
`fetch_page(P0)`, a successful `fetch_page(P0)` reads `P0` from disk and
returns a frame that holds `P0` with data `b`. -/
theorem released_dirty_page_round_trip (inf : Int) (hinf : 0 ≤ inf) (n k : Nat)
    (dm : DiskManager) :
    (∀ (s s0 : BufferPoolManagerInstance) (f : frame_id_t) (pg : Page),
      s.RetrieveFreePage inf = some ((1, some f), s0) → s.frame f = some pg →
      pg.is_dirty_ = true →
      s0.pages_ = s.pages_ ∧
      s0.disk_manager_ = s.disk_manager_.WritePage pg.page_id_ pg.data_) ∧
    (∀ (sa sb s s0 s1 s2 s3 : BufferPoolManagerInstance) (p : page_id_t) (f f2 : frame_id_t)
      (pg : Page) (op : Op) (ops1 ops2 : List Op),
      ReachableAllocated inf n k dm sa →
      sa.UnpinPgImp p true = some (true, sb) →
      Map.find sb.page_to_frame_ p = some f → sb.frame f = some pg → pg.pin_count_ = 0 →
      Op.FetchPage p ∉ ops1 → (∀ d, Op.WriteData f d ∉ ops1) →
      BufferPoolManagerInstance.runAllocated inf ops1 sb = some s →
      Map.find s.page_to_frame_ p = some f →
      s.RetrieveFreePage inf = some ((1, some f), s0) →
      (op = Op.NewPage ∨ ∃ q, op = Op.FetchPage q ∧ q < s.next_page_id_ ∧
        Map.find s.page_to_frame_ q = none) →
      s.step inf op = some s1 →
      Op.FetchPage p ∉ ops2 →
      BufferPoolManagerInstance.runAllocated inf ops2 s1 = some s2 →
      s2.FetchPgImp inf p = some (some f2, s3) →
      ∃ pg3, s3.frame f2 = some pg3 ∧ pg3.data_ = pg.data_ ∧ pg3.page_id_ = p ∧
        s3.disk_manager_.log.getLast? = some (DiskOp.ReadPage p)) := by
  refine ⟨?_, ?_⟩
  · intro s s0 f pg hret hpg hdirty
    obtain ⟨_, r, hs0⟩ := BufferPoolManagerInstance.RetrieveFreePage_victim inf s s0 f pg hret hpg
    rw [hs0]
    refine ⟨rfl, ?_⟩
    show (if pg.is_dirty_ = true then s.disk_manager_.WritePage pg.page_id_ pg.data_
      else s.disk_manager_) = _
    rw [if_pos hdirty]
  · intro sa sb s s0 s1 s2 s3 p f f2 pg op ops1 ops2 hreach hunpin hpb hpgb hpin hno1 hw1 hrun1
      hps hret hop hstep hno2 hrun2 hfetch
    obtain ⟨hinva, hta, _⟩ := Tight_of_ReachableAllocated inf hinf n k dm sa hreach
    have hinvb := BufferPoolManagerInstance.Inv_UnpinPgImp sa sb p true true hinva hunpin
    have htb := BufferPoolManagerInstance.Tight_UnpinPgImp sa sb p true true hinva hta hunpin
    -- the release leaves the frame dirty
    have hdirty : pg.is_dirty_ = true := by
      cases hpa : Map.find sa.page_to_frame_ p with
      | none =>
        simp [BufferPoolManagerInstance.UnpinPgImp, hpa] at hunpin
      | some g =>
        obtain ⟨pga, hpga, hcase⟩ :=
          BufferPoolManagerInstance.UnpinPgImp_spec sa hinva p g true hpa
        rcases hcase with ⟨_, h3⟩ | ⟨_, r1, _, h3⟩
        · rw [h3] at hunpin
          simp at hunpin
        · rw [h3] at hunpin
          simp only [Option.some.injEq, Prod.mk.injEq, true_and] at hunpin
          subst hunpin
          change Map.find sa.page_to_frame_ p = some f at hpb
          rw [hpa, Option.some.injEq] at hpb
          subst hpb
          have hframe := BufferPoolManagerInstance.frame_set_self sa g pga
            { pga with pin_count_ := pga.pin_count_ - 1, is_dirty_ := true } hpga
            { sa with pages_ := sa.pages_.set g.toNat
                        { pga with pin_count_ := pga.pin_count_ - 1, is_dirty_ := true },
                      replacer_ := r1 } rfl
          rw [hframe, Option.some.injEq] at hpgb
          rw [← hpgb]
    have hheld : Held p pg.data_ f sb := ⟨hpb, pg, hpgb, rfl, hpin, Or.inl hdirty⟩
    obtain ⟨hinv, ht, hcase⟩ :=
      Held_runAllocated inf hinf p pg.data_ f ops1 sb s hinvb htb (Or.inl hheld) hno1 hw1 hrun1
    have hheld1 : Held p pg.data_ f s := by
      rcases hcase with h | h
      · exact h
      · rw [h.1] at hps
        simp at hps
    obtain ⟨_, pgs, hpgs, hdata, _, hsafe⟩ := hheld1
    obtain ⟨_, _, pgs1, hpgs1, hid⟩ := hinv.table p f hps
    rw [hpgs, Option.some.injEq] at hpgs1
    subst hpgs1
    have hpark1 : Parked pgs.page_id_ pgs.data_ s1 :=
      Parked_of_eviction inf hinf s s0 s1 f pgs op hinv ht hret hpgs
        (by rw [hid, hdata]; exact hsafe) hop hstep
    rw [hid, hdata] at hpark1
    have hadm : s.admits op = true := by
      rcases hop with h | ⟨q, h, hq, _⟩
      · rw [h]; rfl
      · rw [h]; simpa [BufferPoolManagerInstance.admits] using hq
    have hinv1 := BufferPoolManagerInstance.Inv_step inf hinf s s1 op hinv hstep
    have ht1 := BufferPoolManagerInstance.Tight_step inf hinf s s1 op hinv ht hadm hstep
    obtain ⟨hinv2, ht2, hpark2⟩ :=
      Parked_runAllocated inf hinf p pg.data_ ops2 s1 s2 hinv1 ht1 hpark1 hno2 hrun2
    exact Parked_fetch inf hinf s2 s3 p pg.data_ f2 hinv2 ht2 hpark2 hfetch

theorem stateWritten_reachable : ReachableAllocated 1000 1 1 emptyDisk stateWritten :=
  ⟨[Op.NewPage, Op.WriteData 0 (bytes 7)], rfl⟩

theorem released_dirty_page_round_trip_witness :
    (∃ s0 s1 s2 s3,
      stateWritten.UnpinPgImp 0 true = some (true, stateS3) ∧
      stateS3.RetrieveFreePage 1000 = some ((1, some 0), s0) ∧
      s0.disk_manager_ = emptyDisk.WritePage 0 (bytes 7) ∧
      stateS3.step 1000 Op.NewPage = some s1 ∧
      BufferPoolManagerInstance.runAllocated 1000 [Op.UnpinPage 1 false] s1 = some s2 ∧
      s2.FetchPgImp 1000 0 = some (some 0, s3) ∧
      ∃ pg3, s3.frame 0 = some pg3 ∧ pg3.data_ = bytes 7 ∧ pg3.page_id_ = 0 ∧
        s3.disk_manager_.log.getLast? = some (DiskOp.ReadPage 0)) ∧
    (∃ s s0 s1 s2 s3,
      BufferPoolManagerInstance.runAllocated 1000 [Op.FlushPage 0, Op.DeletePage 5] stateS3
        = some s ∧
      s.frame 0 = some { data_ := bytes 7, page_id_ := 0, pin_count_ := 0,
                         is_dirty_ := false } ∧
      s.RetrieveFreePage 1000 = some ((1, some 0), s0) ∧
      s.step 1000 Op.NewPage = some s1 ∧
      BufferPoolManagerInstance.runAllocated 1000 [Op.UnpinPage 1 false] s1 = some s2 ∧
      s2.FetchPgImp 1000 0 = some (some 0, s3) ∧
      ∃ pg3, s3.frame 0 = some pg3 ∧ pg3.data_ = bytes 7 ∧ pg3.page_id_ = 0 ∧
        s3.disk_manager_.log.getLast? = some (DiskOp.ReadPage 0)) :=
  ⟨⟨_, _, _, _, rfl, rfl, rfl, rfl, rfl, rfl,
    (released_dirty_page_round_trip 1000 (by decide) 1 1 emptyDisk).2 stateWritten stateS3
      stateS3 _ _ _ _ 0 0 0
      { data_ := bytes 7, page_id_ := 0, pin_count_ := 0, is_dirty_ := true } Op.NewPage
      [] [Op.UnpinPage 1 false] stateWritten_reachable rfl rfl rfl rfl (by decide)
      (fun d => List.not_mem_nil _) rfl rfl rfl (Or.inl rfl) rfl (by decide) rfl rfl⟩,
   ⟨_, _, _, _, _, rfl, rfl, rfl, rfl, rfl, rfl,
    (released_dirty_page_round_trip 1000 (by decide) 1 1 emptyDisk).2 stateWritten stateS3
      _ _ _ _ _ 0 0 0
      { data_ := bytes 7, page_id_ := 0, pin_count_ := 0, is_dirty_ := true } Op.NewPage
      [Op.FlushPage 0, Op.DeletePage 5] [Op.UnpinPage 1 false] stateWritten_reachable rfl rfl
      rfl rfl (by decide) (by intro d; simp) rfl rfl rfl (Or.inl rfl) rfl (by decide) rfl rfl⟩⟩

/-! ## C9: `fetch_page` of a resident page -/

theorem BufferPoolManagerInstance.NewPgImp_table (inf : Int) (hinf : 0 ≤ inf)
    (s s1 : BufferPoolManagerInstance) (hinv : s.Inv) (id f : Int)
    (h : s.NewPgImp inf = some (some (id, f), s1)) :
    Map.find s1.page_to_frame_ id = some f := by
  rcases BufferPoolManagerInstance.NewPgImp_spec inf s hinv hinf with
    ⟨_, _, h3⟩ | ⟨st, f0, s0, r2, _, _, h3⟩
  · rw [h3] at h; simp at h
  · rw [h3] at h
    simp only [Option.some.injEq, Prod.mk.injEq] at h
    obtain ⟨⟨h1, h2⟩, h4⟩ := h
    rw [← h4, ← h1, ← h2]
    show Map.find (Map.assign s0.page_to_frame_ s.next_page_id_ f0) s.next_page_id_ = some f0
    rw [Map.find_assign]; simp

/-- C9. In every reachable state, `fetch_page(p)` for a page that the page
table maps to frame `f` returns `f`; the pin count of `f` grows by one while
its data, dirty flag and page id stay; `f` is flagged non-evictable; one
access is recorded for `f` (the clock advances by one and the new clock value
is pushed on the history of `f`); the disk manager receives no call; the
other frames, the page table and the free list are unchanged. In particular
`fetch_page` of the id just returned by `new_page` returns the frame that
`new_page` returned. -/
theorem fetch_resident_page_effect (inf : Int) (hinf : 0 ≤ inf) (n k : Nat) (dm : DiskManager)
    (s : BufferPoolManagerInstance) (hreach : Reachable inf n k dm s) :
    (∀ p f, Map.find s.page_to_frame_ p = some f →
      ∃ pg s1, s.frame f = some pg ∧ s.FetchPgImp inf p = some (some f, s1) ∧
        s1.frame f = some { pg with pin_count_ := pg.pin_count_ + 1 } ∧
        (∀ g, g ≠ f → s1.frame g = s.frame g) ∧
        Map.find s1.replacer_.evictablePages f = some false ∧
        s1.replacer_.current_timestamp_ = s.replacer_.current_timestamp_ + 1 ∧
        Map.find s1.replacer_.accessHistory f =
          some (pushed s.replacer_.k_ (Map.find s.replacer_.accessHistory f)
            (s.replacer_.current_timestamp_ + 1)) ∧
        s1.disk_manager_ = s.disk_manager_ ∧
        s1.page_to_frame_ = s.page_to_frame_ ∧ s1.free_list_ = s.free_list_) ∧
    (∀ id f s1, s.NewPgImp inf = some (some (id, f), s1) →
      ∃ s2, s1.FetchPgImp inf id = some (some f, s2)) := by
  have hinv := Inv_of_Reachable inf hinf n k dm s hreach
  refine ⟨?_, ?_⟩
  · intro p f hp
    obtain ⟨pg, r2, hpg, ht, h3⟩ :=
      BufferPoolManagerInstance.FetchPgImp_resident inf s hinv p f hp
    have hframe := BufferPoolManagerInstance.frame_set s
      { s with pages_ := s.pages_.set f.toNat { pg with pin_count_ := pg.pin_count_ + 1 },
               replacer_ := r2 }
      f { pg with pin_count_ := pg.pin_count_ + 1 } (by rw [hpg]; rfl) rfl
    refine ⟨pg, _, hpg, h3, ?_, ?_, ht.evSelf, ht.clock, ht.histSelf, rfl, rfl, rfl⟩
    · rw [hframe]; simp
    · intro g hg
      rw [hframe]; simp [hg]
  · intro id f s1 h
    have hinv1 := BufferPoolManagerInstance.Inv_NewPgImp inf hinf s s1 _ hinv h
    have htab := BufferPoolManagerInstance.NewPgImp_table inf hinf s s1 hinv id f h
    obtain ⟨pg, r2, _, _, h3⟩ :=
      BufferPoolManagerInstance.FetchPgImp_resident inf s1 hinv1 id f htab
    exact ⟨_, h3⟩

theorem fetch_resident_page_effect_witness :
    statePinned.FetchPgImp 1000 0 = some (some 0, stateTwicePinned) ∧
    ((∀ p f, Map.find statePinned.page_to_frame_ p = some f →
      ∃ pg s1, statePinned.frame f = some pg ∧
        statePinned.FetchPgImp 1000 p = some (some f, s1) ∧
        s1.frame f = some { pg with pin_count_ := pg.pin_count_ + 1 } ∧
        (∀ g, g ≠ f → s1.frame g = statePinned.frame g) ∧
        Map.find s1.replacer_.evictablePages f = some false ∧
        s1.replacer_.current_timestamp_ = statePinned.replacer_.current_timestamp_ + 1 ∧
        Map.find s1.replacer_.accessHistory f =
          some (pushed statePinned.replacer_.k_
            (Map.find statePinned.replacer_.accessHistory f)
            (statePinned.replacer_.current_timestamp_ + 1)) ∧
        s1.disk_manager_ = statePinned.disk_manager_ ∧
        s1.page_to_frame_ = statePinned.page_to_frame_ ∧
        s1.free_list_ = statePinned.free_list_) ∧
    (∀ id f s1, statePinned.NewPgImp 1000 = some (some (id, f), s1) →
      ∃ s2, s1.FetchPgImp 1000 id = some (some f, s2))) :=
  ⟨rfl, fetch_resident_page_effect 1000 (by decide) 1 2 emptyDisk statePinned
    statePinned_reachable⟩

/-! ## C10: `new_page` -/

theorem Acquired_clock (inf : Int) (s s1 : BufferPoolManagerInstance) (st : Nat) (f : Int)
    (h : Acquired inf s st f s1) :
    s1.replacer_.current_timestamp_ = s.replacer_.current_timestamp_ := by
  rcases h with ⟨_, rest, _, hs1⟩ | ⟨_, _, _, pg, r1, _, _, _, _, hevd, hs1⟩
  · subst hs1; rfl
  · subst hs1; exact hevd.clock

theorem pushed_last (k_ : Nat) (old : Option (List Nat)) (now : Nat) :
    ∃ base, pushed k_ old now = base ++ [now] := by
  unfold pushed
  cases old with
  | none => exact ⟨[], rfl⟩
  | some q =>
    simp only
    split_ifs
    · exact ⟨q.tail, rfl⟩
    · exact ⟨q, rfl⟩

/-- C10. In every reachable state, when `new_page` succeeds it returns the
value of the allocation counter and advances the counter by one, so that
every later `new_page` returns a larger id; the returned frame holds that
page id with pin count 1, clean, with zeroed data; the page table maps the id
to the frame; the frame is flagged non-evictable; and one access is recorded
for it: the clock advances by one and the new clock value is the back of the
history of the frame. -/
theorem new_page_effect (inf : Int) (hinf : 0 ≤ inf) (n k : Nat) (dm : DiskManager)
    (s : BufferPoolManagerInstance) (hreach : Reachable inf n k dm s)
    (id : page_id_t) (f : frame_id_t) (s1 : BufferPoolManagerInstance)
    (h : s.NewPgImp inf = some (some (id, f), s1)) :
    id = s.next_page_id_ ∧ s1.next_page_id_ = id + 1 ∧
    s1.frame f = some { data_ := zeroData, page_id_ := id, pin_count_ := 1,
                        is_dirty_ := false } ∧
    Map.find s1.page_to_frame_ id = some f ∧
    Map.find s1.replacer_.evictablePages f = some false ∧
    s1.replacer_.current_timestamp_ = s.replacer_.current_timestamp_ + 1 ∧
    (∃ base, Map.find s1.replacer_.accessHistory f
      = some (base ++ [s1.replacer_.current_timestamp_])) ∧
    (∀ ops s2 id2 f2 s3, BufferPoolManagerInstance.run inf ops s1 = some s2 →
      s2.NewPgImp inf = some (some (id2, f2), s3) → id < id2) := by
  have hinv := Inv_of_Reachable inf hinf n k dm s hreach
  have hinv1 := BufferPoolManagerInstance.Inv_NewPgImp inf hinf s s1 _ hinv h
  have htab := BufferPoolManagerInstance.NewPgImp_table inf hinf s s1 hinv id f h
  have hid : ∀ (t t1 : BufferPoolManagerInstance) (i g : Int), t.Inv →
      t.NewPgImp inf = some (some (i, g), t1) →
      i = t.next_page_id_ ∧ t1.next_page_id_ = i + 1 := by
    intro t t1 i g hti ht
    rcases BufferPoolManagerInstance.NewPgImp_spec inf t hti hinf with
      ⟨_, _, h3⟩ | ⟨st, f0, s0, r2, _, _, h3⟩
    · rw [h3] at ht; simp at ht
    · rw [h3] at ht
      simp only [Option.some.injEq, Prod.mk.injEq] at ht
      obtain ⟨⟨h1, _⟩, h4⟩ := ht
      rw [← h4, ← h1]
      exact ⟨rfl, rfl⟩
  obtain ⟨hid1, hnext1⟩ := hid s s1 id f hinv h
  rcases BufferPoolManagerInstance.NewPgImp_spec inf s hinv hinf with
    ⟨_, _, h3⟩ | ⟨st, f0, s0, r2, hacq, ht, h3⟩
  · rw [h3] at h; simp at h
  · rw [h3] at h
    simp only [Option.some.injEq, Prod.mk.injEq] at h
    obtain ⟨⟨h1, h2⟩, h4⟩ := h
    have hhole := BufferPoolManagerInstance.InvHole_of_Acquired inf s s0 st f0 hinv hacq
    have hframe := BufferPoolManagerInstance.frame_set s0 s1 f0
      { data_ := zeroData, page_id_ := s.next_page_id_, pin_count_ := 1, is_dirty_ := false }
      (hhole.hole f0 rfl) (by rw [← h4]) f0
    have hclock : s1.replacer_.current_timestamp_ = s.replacer_.current_timestamp_ + 1 := by
      rw [← h4]
      show r2.current_timestamp_ = _
      rw [ht.clock, Acquired_clock inf s s0 st f0 hacq]
    refine ⟨hid1, hnext1, ?_, htab, ?_, hclock, ?_, ?_⟩
    · rw [← h2, ← h1, hframe]; simp
    · rw [← h2, ← h4]; exact ht.evSelf
    · obtain ⟨base, hbase⟩ := pushed_last s0.replacer_.k_
        (Map.find s0.replacer_.accessHistory f0) (s0.replacer_.current_timestamp_ + 1)
      refine ⟨base, ?_⟩
      rw [hclock, ← Acquired_clock inf s s0 st f0 hacq, ← hbase, ← h2, ← h4]
      exact ht.histSelf
    · intro ops s2 id2 f2 s3 hrun hnew
      have hinv2 := BufferPoolManagerInstance.Inv_run inf hinf ops s1 s2 hinv1 hrun
      have hmono := (BufferPoolManagerInstance.pool_size_run inf hinf ops s1 s2 hinv1 hrun).2
      obtain ⟨hid2, _⟩ := hid s2 s3 id2 f2 hinv2 hnew
      rw [hid2]
      exact lt_of_lt_of_le (by rw [hnext1]; exact lt_add_one _) hmono

theorem new_page_effect_witness :
    (0 : Int) = stateUnpinned.next_page_id_ - 1 ∧
    ∃ s1, stateUnpinned.NewPgImp 1000 = some (some (1, 0), s1) ∧
      ((1 : Int) = stateUnpinned.next_page_id_ ∧ s1.next_page_id_ = 1 + 1 ∧
      s1.frame 0 = some { data_ := zeroData, page_id_ := 1, pin_count_ := 1,
                          is_dirty_ := false } ∧
      Map.find s1.page_to_frame_ 1 = some 0 ∧
      Map.find s1.replacer_.evictablePages 0 = some false ∧
      s1.replacer_.current_timestamp_ = stateUnpinned.replacer_.current_timestamp_ + 1 ∧
      (∃ base, Map.find s1.replacer_.accessHistory 0
        = some (base ++ [s1.replacer_.current_timestamp_])) ∧
      (∀ ops s2 id2 f2 s3, BufferPoolManagerInstance.run 1000 ops s1 = some s2 →
        s2.NewPgImp 1000 = some (some (id2, f2), s3) → 1 < id2)) :=
  ⟨rfl, _, rfl,
   new_page_effect 1000 (by decide) 1 2 emptyDisk stateUnpinned stateUnpinned_reachable
     1 0 _ rfl⟩

/-! ## C11: evictable means unpinned, for the frames of the page table -/

theorem BufferPoolManagerInstance.Idle_create (n k : Nat) (dm : DiskManager) :
    (BufferPoolManagerInstance.create n dm k).Idle := by
  intro p f pg hp
  simp [BufferPoolManagerInstance.create, Map.find] at hp

theorem BufferPoolManagerInstance.Idle_of_Acquired (inf : Int)
    (s s1 : BufferPoolManagerInstance) (st : Nat) (f : Int) (hinv : s.Inv) (hi : s.Idle)
    (h : Acquired inf s st f s1) : s1.Idle := by
  rcases h with ⟨_, rest, hfl, hs1⟩ | ⟨_, hfl, hsz, pg, r1, hpg, hpin, hv, hev, hevd, hs1⟩
  · subst hs1
    exact hi
  · subst hs1
    intro q g pg1 hq hg hpin1
    change Map.find (Map.erase s.page_to_frame_ pg.page_id_) q = some g at hq
    change s.frame g = some pg1 at hg
    show Map.find r1.evictablePages g = some true
    rw [Map.find_erase] at hq
    by_cases hqp : q = pg.page_id_
    · simp [hqp] at hq
    · simp only [hqp, if_false] at hq
      obtain ⟨_, _, pg2, hpg2, hid⟩ := hinv.table q g hq
      have hgf : g ≠ f := by
        intro heq
        rw [heq, hpg, Option.some.injEq] at hpg2
        rw [← hpg2] at hid
        exact hqp hid.symm
      rw [hevd.ev g, if_neg hgf, hi q g pg1 hq hg hpin1]

theorem BufferPoolManagerInstance.Idle_install (s1 : BufferPoolManagerInstance) (f : Int)
    (page : Page) (r2 : LRUKReplacer) (pid n : Int) (dm : DiskManager)
    (h : s1.InvHole (some f)) (hi : s1.Idle) (ht : Touched s1.replacer_ f r2)
    (hpin : page.pin_count_ ≠ 0) :
    BufferPoolManagerInstance.Idle
      { s1 with pages_ := s1.pages_.set f.toNat page, replacer_ := r2, next_page_id_ := n,
                page_to_frame_ := Map.assign s1.page_to_frame_ pid f, disk_manager_ := dm } := by
  have hfs := h.hole f rfl
  have hframe := BufferPoolManagerInstance.frame_set s1
    { s1 with pages_ := s1.pages_.set f.toNat page, replacer_ := r2, next_page_id_ := n,
              page_to_frame_ := Map.assign s1.page_to_frame_ pid f, disk_manager_ := dm }
    f page hfs rfl
  intro q g pg1 hq hg hpin1
  change Map.find (Map.assign s1.page_to_frame_ pid f) q = some g at hq
  show Map.find r2.evictablePages g = some true
  rw [hframe] at hg
  rw [Map.find_assign] at hq
  by_cases hgf : g = f
  · simp only [hgf, if_true, Option.some.injEq] at hg
    rw [← hg] at hpin1
    exact absurd hpin1 hpin
  · simp only [hgf, if_false] at hg
    by_cases hqp : q = pid
    · simp only [hqp, if_true, Option.some.injEq] at hq
      exact absurd hq.symm hgf
    · simp only [hqp, if_false] at hq
      rw [ht.evOther g hgf]
      exact hi q g pg1 hq hg hpin1

theorem BufferPoolManagerInstance.Idle_update (s : BufferPoolManagerInstance) (f : Int)
    (page : Page) (r2 : LRUKReplacer) (dm : DiskManager) (hi : s.Idle)
    (hf : (s.frame f).isSome)
    (hself : ∀ q, Map.find s.page_to_frame_ q = some f → page.pin_count_ = 0 →
      Map.find r2.evictablePages f = some true)
    (hother : ∀ g, g ≠ f → Map.find s.replacer_.evictablePages g = some true →
      Map.find r2.evictablePages g = some true) :
    BufferPoolManagerInstance.Idle
      { s with pages_ := s.pages_.set f.toNat page, replacer_ := r2, disk_manager_ := dm } := by
  have hframe := BufferPoolManagerInstance.frame_set s
    { s with pages_ := s.pages_.set f.toNat page, replacer_ := r2, disk_manager_ := dm }
    f page hf rfl
  intro q g pg1 hq hg hpin1
  change Map.find s.page_to_frame_ q = some g at hq
  show Map.find r2.evictablePages g = some true
  rw [hframe] at hg
  by_cases hgf : g = f
  · simp only [hgf, if_true, Option.some.injEq] at hg
    rw [← hg] at hpin1
    rw [hgf] at hq ⊢
    exact hself q hq hpin1
  · simp only [hgf, if_false] at hg
    exact hother g hgf (hi q g pg1 hq hg hpin1)

theorem BufferPoolManagerInstance.Idle_release (s : BufferPoolManagerInstance) (p f : Int)
    (page : Page) (dm : DiskManager) (hinv : s.Inv) (hi : s.Idle)
    (hp : Map.find s.page_to_frame_ p = some f) :
    BufferPoolManagerInstance.Idle
      { s with pages_ := s.pages_.set f.toNat page, free_list_ := s.free_list_ ++ [f],
               page_to_frame_ := Map.erase s.page_to_frame_ p, disk_manager_ := dm } := by
  obtain ⟨_, _, pg, hpg, hid⟩ := hinv.table p f hp
  have hframe := BufferPoolManagerInstance.frame_set s
    { s with pages_ := s.pages_.set f.toNat page, free_list_ := s.free_list_ ++ [f],
             page_to_frame_ := Map.erase s.page_to_frame_ p, disk_manager_ := dm }
    f page (by rw [hpg]; rfl) rfl
  intro q g pg1 hq hg hpin1
  change Map.find (Map.erase s.page_to_frame_ p) q = some g at hq
  show Map.find s.replacer_.evictablePages g = some true
  rw [hframe] at hg
  rw [Map.find_erase] at hq
  by_cases hqp : q = p
  · simp [hqp] at hq
  · simp only [hqp, if_false] at hq
    obtain ⟨_, _, pg2, hpg2, hid2⟩ := hinv.table q g hq
    have hgf : g ≠ f := by
      intro heq
      rw [heq, hpg, Option.some.injEq] at hpg2
      rw [← hpg2, hid] at hid2
      exact hqp hid2.symm
    simp only [hgf, if_false] at hg
    exact hi q g pg1 hq hg hpin1
theorem BufferPoolManagerInstance.Idle_NewPgImp (inf : Int) (hinf : 0 ≤ inf)
    (s s1 : BufferPoolManagerInstance) (res : Option (page_id_t × frame_id_t)) (hinv : s.Inv)
    (hi : s.Idle) (h : s.NewPgImp inf = some (res, s1)) : s1.Idle := by
  rcases BufferPoolManagerInstance.NewPgImp_spec inf s hinv hinf with
    ⟨_, _, h3⟩ | ⟨st, f, s0, r2, hacq, ht, h3⟩
  · rw [h3] at h
    simp only [Option.some.injEq, Prod.mk.injEq] at h
    exact h.2 ▸ hi
  · rw [h3] at h
    simp only [Option.some.injEq, Prod.mk.injEq] at h
    rw [← h.2]
    exact BufferPoolManagerInstance.Idle_install s0 f _ r2 s.next_page_id_
      (s.next_page_id_ + 1) s0.disk_manager_
      (BufferPoolManagerInstance.InvHole_of_Acquired inf s s0 st f hinv hacq)
      (BufferPoolManagerInstance.Idle_of_Acquired inf s s0 st f hinv hi hacq) ht (by simp)

theorem BufferPoolManagerInstance.Idle_FetchPgImp (inf : Int) (hinf : 0 ≤ inf)
    (s s1 : BufferPoolManagerInstance) (p : Int) (res : Option frame_id_t) (hinv : s.Inv)
    (hi : s.Idle) (h : s.FetchPgImp inf p = some (res, s1)) : s1.Idle := by
  cases hfind : Map.find s.page_to_frame_ p with
  | some f =>
    obtain ⟨pg, r2, hpg, ht, h3⟩ :=
      BufferPoolManagerInstance.FetchPgImp_resident inf s hinv p f hfind
    rw [h3] at h
    simp only [Option.some.injEq, Prod.mk.injEq] at h
    rw [← h.2]
    refine BufferPoolManagerInstance.Idle_update s f _ r2 s.disk_manager_ hi
      (by rw [hpg]; rfl) ?_ ?_
    · intro _ _ h0
      have := (hinv.pins f pg hpg (by simp)).1
      change pg.pin_count_ + 1 = 0 at h0
      omega
    · intro g hg hev
      rw [ht.evOther g hg]
      exact hev
  | none =>
    rcases BufferPoolManagerInstance.FetchPgImp_absent inf s hinv hinf p hfind with
      ⟨_, _, h3⟩ | ⟨st, f, s0, r2, hacq, ht, h3⟩
    · rw [h3] at h
      simp only [Option.some.injEq, Prod.mk.injEq] at h
      exact h.2 ▸ hi
    · rw [h3] at h
      simp only [Option.some.injEq, Prod.mk.injEq] at h
      rw [← h.2]
      exact BufferPoolManagerInstance.Idle_install s0 f _ r2 p s0.next_page_id_
        (s0.disk_manager_.ReadPage p zeroData).2
        (BufferPoolManagerInstance.InvHole_of_Acquired inf s s0 st f hinv hacq)
        (BufferPoolManagerInstance.Idle_of_Acquired inf s s0 st f hinv hi hacq) ht (by simp)

theorem BufferPoolManagerInstance.Idle_UnpinPgImp (s s1 : BufferPoolManagerInstance) (p : Int)
    (flag res : Bool) (hinv : s.Inv) (hi : s.Idle)
    (h : s.UnpinPgImp p flag = some (res, s1)) : s1.Idle := by
  cases hp : Map.find s.page_to_frame_ p with
  | none =>
    simp only [BufferPoolManagerInstance.UnpinPgImp, hp, Option.some.injEq, Prod.mk.injEq] at h
    exact h.2 ▸ hi
  | some f =>
    obtain ⟨pg, hpg, hcase⟩ := BufferPoolManagerInstance.UnpinPgImp_spec s hinv p f flag hp
    rcases hcase with ⟨_, h3⟩ | ⟨hpin, r1, hr1, h3⟩
    · rw [h3] at h
      simp only [Option.some.injEq, Prod.mk.injEq] at h
      exact h.2 ▸ hi
    · rw [h3] at h
      simp only [Option.some.injEq, Prod.mk.injEq] at h
      rw [← h.2]
      have hvalid : validFrame s.replacer_.replacer_size_ f := by
        rw [hinv.replacerSize, ← hinv.size]
        exact (BufferPoolManagerInstance.frame_valid s f).mp (by rw [hpg]; rfl)
      refine BufferPoolManagerInstance.Idle_update s f _ r1 s.disk_manager_ hi
        (by rw [hpg]; rfl) ?_ ?_
      · intro _ _ h0
        change pg.pin_count_ - 1 = 0 at h0
        rw [if_pos h0, LRUKReplacer.SetEvictable_eq s.replacer_ f true hvalid,
          Option.some.injEq] at hr1
        rw [← hr1]
        show Map.find (Map.assign s.replacer_.evictablePages f true) f = some true
        rw [Map.find_assign]; simp
      · intro g hg hev
        by_cases h0 : pg.pin_count_ - 1 = 0
        · rw [if_pos h0, LRUKReplacer.SetEvictable_eq s.replacer_ f true hvalid,
            Option.some.injEq] at hr1
          rw [← hr1]
          show Map.find (Map.assign s.replacer_.evictablePages f true) g = some true
          rw [Map.find_assign]; simp [hg, hev]
        · rw [if_neg h0, Option.some.injEq] at hr1
          rw [← hr1]; exact hev

theorem BufferPoolManagerInstance.Idle_FlushPgImp (s s1 : BufferPoolManagerInstance) (p : Int)
    (res : Bool) (hinv : s.Inv) (hi : s.Idle)
    (h : s.FlushPgImp p = some (res, s1)) : s1.Idle := by
  cases hp : Map.find s.page_to_frame_ p with
  | none =>
    simp only [BufferPoolManagerInstance.FlushPgImp, hp, Option.some.injEq, Prod.mk.injEq] at h
    exact h.2 ▸ hi
  | some f =>
    obtain ⟨pg, hpg, h3⟩ := BufferPoolManagerInstance.FlushPgImp_spec s hinv p f hp
    rw [h3] at h
    simp only [Option.some.injEq, Prod.mk.injEq] at h
    rw [← h.2]
    refine BufferPoolManagerInstance.Idle_update s f _ s.replacer_ _ hi
      (by rw [hpg]; rfl) ?_ (fun _ _ hev => hev)
    intro _ _ h0
    exact hi p f pg hp hpg h0

theorem BufferPoolManagerInstance.Idle_FlushLoop (ids : List page_id_t) :
    ∀ s s1 : BufferPoolManagerInstance, s.Inv → s.Idle →
      BufferPoolManagerInstance.FlushLoop ids s = some s1 → s1.Idle := by
  induction ids with
  | nil =>
    intro s s1 _ hi h
    simp only [BufferPoolManagerInstance.FlushLoop, Option.some.injEq] at h
    exact h ▸ hi
  | cons p rest ih =>
    intro s s1 hinv hi h
    simp only [BufferPoolManagerInstance.FlushLoop] at h
    split at h
    · simp at h
    · rename_i b s2 hfl
      exact ih s2 s1 (BufferPoolManagerInstance.Inv_FlushPgImp s s2 p b hinv hfl)
        (BufferPoolManagerInstance.Idle_FlushPgImp s s2 p b hinv hi hfl) h

theorem BufferPoolManagerInstance.Idle_DeletePgImp (s s1 : BufferPoolManagerInstance) (p : Int)
    (res : Bool) (hinv : s.Inv) (hi : s.Idle)
    (h : s.DeletePgImp p = some (res, s1)) : s1.Idle := by
  cases hp : Map.find s.page_to_frame_ p with
  | none =>
    simp only [BufferPoolManagerInstance.DeletePgImp, hp, Option.some.injEq, Prod.mk.injEq] at h
    exact h.2 ▸ hi
  | some f =>
    obtain ⟨pg, hpg, hcase⟩ := BufferPoolManagerInstance.DeletePgImp_spec s hinv p f hp
    rcases hcase with ⟨_, h3⟩ | ⟨_, _, h3⟩
    · rw [h3] at h
      simp only [Option.some.injEq, Prod.mk.injEq] at h
      exact h.2 ▸ hi
    · rw [h3] at h
      simp only [Option.some.injEq, Prod.mk.injEq] at h
      rw [← h.2]
      exact BufferPoolManagerInstance.Idle_release s p f _ _ hinv hi hp

theorem BufferPoolManagerInstance.Idle_step (inf : Int) (hinf : 0 ≤ inf)
    (s s1 : BufferPoolManagerInstance) (op : Op) (hinv : s.Inv) (hi : s.Idle)
    (h : s.step inf op = some s1) : s1.Idle := by
  cases op with
  | NewPage =>
    simp only [BufferPoolManagerInstance.step, Option.map_eq_some'] at h
    obtain ⟨⟨res, s2⟩, h1, h2⟩ := h
    exact h2 ▸ BufferPoolManagerInstance.Idle_NewPgImp inf hinf s s2 res hinv hi h1
  | FetchPage p =>
    simp only [BufferPoolManagerInstance.step, Option.map_eq_some'] at h
    obtain ⟨⟨res, s2⟩, h1, h2⟩ := h
    exact h2 ▸ BufferPoolManagerInstance.Idle_FetchPgImp inf hinf s s2 p res hinv hi h1
  | UnpinPage p flag =>
    simp only [BufferPoolManagerInstance.step, Option.map_eq_some'] at h
    obtain ⟨⟨res, s2⟩, h1, h2⟩ := h
    exact h2 ▸ BufferPoolManagerInstance.Idle_UnpinPgImp s s2 p flag res hinv hi h1
  | FlushPage p =>
    simp only [BufferPoolManagerInstance.step, Option.map_eq_some'] at h
    obtain ⟨⟨res, s2⟩, h1, h2⟩ := h
    exact h2 ▸ BufferPoolManagerInstance.Idle_FlushPgImp s s2 p res hinv hi h1
  | FlushAllPages =>
    exact BufferPoolManagerInstance.Idle_FlushLoop _ s s1 hinv hi h
  | DeletePage p =>
    simp only [BufferPoolManagerInstance.step, Option.map_eq_some'] at h
    obtain ⟨⟨res, s2⟩, h1, h2⟩ := h
    exact h2 ▸ BufferPoolManagerInstance.Idle_DeletePgImp s s2 p res hinv hi h1
  | WriteData f data =>
    simp only [BufferPoolManagerInstance.step] at h
    cases hpg : s.frame f with
    | none => simp [BufferPoolManagerInstance.modifyFrame, hpg] at h
    | some pg =>
      rw [BufferPoolManagerInstance.modifyFrame_eq s f _ pg hpg, Option.some.injEq] at h
      rw [← h]
      refine BufferPoolManagerInstance.Idle_update s f _ s.replacer_ s.disk_manager_ hi
        (by rw [hpg]; rfl) ?_ (fun _ _ hev => hev)
      intro q hq h0
      exact hi q f pg hq hpg h0

theorem BufferPoolManagerInstance.Idle_run (inf : Int) (hinf : 0 ≤ inf) (ops : List Op) :
    ∀ s s1 : BufferPoolManagerInstance, s.Inv → s.Idle →
      BufferPoolManagerInstance.run inf ops s = some s1 → s1.Idle := by
  induction ops with
  | nil =>
    intro s s1 _ hi h
    simp only [BufferPoolManagerInstance.run, Option.some.injEq] at h
    exact h ▸ hi
  | cons op rest ih =>
    intro s s1 hinv hi h
    simp only [BufferPoolManagerInstance.run] at h
    split at h
    · simp at h
    · rename_i s2 hstep
      exact ih s2 s1 (BufferPoolManagerInstance.Inv_step inf hinf s s2 op hinv hstep)
        (BufferPoolManagerInstance.Idle_step inf hinf s s2 op hinv hi hstep) h
theorem Idle_of_Reachable (inf : Int) (hinf : 0 ≤ inf) (n k : Nat) (dm : DiskManager)
    (s : BufferPoolManagerInstance) (h : Reachable inf n k dm s) : s.Idle := by
  obtain ⟨ops, hops⟩ := h
  exact BufferPoolManagerInstance.Idle_run inf hinf ops _ s
    (BufferPoolManagerInstance.Inv_create n k dm)
    (BufferPoolManagerInstance.Idle_create n k dm) hops

theorem pool_size_of_Reachable (inf : Int) (hinf : 0 ≤ inf) (n k : Nat) (dm : DiskManager)
    (s : BufferPoolManagerInstance) (h : Reachable inf n k dm s) : s.pool_size_ = n := by
  obtain ⟨ops, hops⟩ := h
  exact (BufferPoolManagerInstance.pool_size_run inf hinf ops _ s
    (BufferPoolManagerInstance.Inv_create n k dm) hops).1

/-- On a well-formed replacer for fewer than `2 ^ 64` frames, `Size()` is the
number of entries of `evictablePages` that are `true`. -/
theorem LRUKReplacer.Size_exact (r : LRUKReplacer) (hinv : r.Inv)
    (hn : r.replacer_size_ < SIZE_MOD) : r.Size = evictableCount r.evictablePages := by
  have hle := LRUKReplacer.count_le r hinv
  show r.curr_size_ = _
  rw [hinv.size]
  exact Nat.mod_eq_of_lt (lt_of_le_of_lt hle hn)

/-- C11. In every state reachable from a fresh pool of fewer than `2 ^ 64`
frames, a frame that the page table maps a page to is flagged evictable
exactly when its pin count is 0. When `unpin_page(p, flag)` returns `true`,
the pin count of the frame of `p` has dropped by one and is not negative; if
it reached 0 the frame is flagged evictable afterwards and `Size()` has grown
by one, and if it is still positive the frame is not flagged evictable and
`Size()` is unchanged. -/
theorem unpin_to_zero_marks_evictable (inf : Int) (hinf : 0 ≤ inf) (n k : Nat)
    (dm : DiskManager) (hn : n < SIZE_MOD) (s : BufferPoolManagerInstance)
    (hreach : Reachable inf n k dm s) :
    (∀ p f pg, Map.find s.page_to_frame_ p = some f → s.frame f = some pg →
      (s.replacer_.IsEvictable f ↔ pg.pin_count_ = 0)) ∧
    (∀ p flag s1, s.UnpinPgImp p flag = some (true, s1) →
      ∃ f pg pg1, Map.find s.page_to_frame_ p = some f ∧ s.frame f = some pg ∧
        s1.frame f = some pg1 ∧ pg1.pin_count_ = pg.pin_count_ - 1 ∧ 0 ≤ pg1.pin_count_ ∧
        (pg1.pin_count_ = 0 →
          s1.replacer_.IsEvictable f ∧ s1.replacer_.Size = s.replacer_.Size + 1) ∧
        (0 < pg1.pin_count_ →
          ¬ s1.replacer_.IsEvictable f ∧ s1.replacer_.Size = s.replacer_.Size)) := by
  have hinv := Inv_of_Reachable inf hinf n k dm s hreach
  have hidle := Idle_of_Reachable inf hinf n k dm s hreach
  have hps := pool_size_of_Reachable inf hinf n k dm s hreach
  have hrs : s.replacer_.replacer_size_ < SIZE_MOD := by
    rw [hinv.replacerSize, hps]; exact hn
  refine ⟨?_, ?_⟩
  · intro p f pg hp hpg
    exact ⟨(hinv.pins f pg hpg (by simp)).2, hidle p f pg hp hpg⟩
  · intro p flag s1 h
    cases hp : Map.find s.page_to_frame_ p with
    | none =>
      simp [BufferPoolManagerInstance.UnpinPgImp, hp] at h
    | some f =>
      obtain ⟨pg, hpg, hcase⟩ := BufferPoolManagerInstance.UnpinPgImp_spec s hinv p f flag hp
      obtain ⟨hpos, hnev⟩ := hinv.pins f pg hpg (by simp)
      obtain ⟨_, hhist, _⟩ := hinv.table p f hp
      rcases hcase with ⟨_, h3⟩ | ⟨hpin, r1, hr1, h3⟩
      · rw [h3] at h
        simp at h
      · rw [h3] at h
        simp only [Option.some.injEq, Prod.mk.injEq, true_and] at h
        subst h
        have hvalid : validFrame s.replacer_.replacer_size_ f := by
          rw [hinv.replacerSize, ← hinv.size]
          exact (BufferPoolManagerInstance.frame_valid s f).mp (by rw [hpg]; rfl)
        have hframe := BufferPoolManagerInstance.frame_set_self s f pg
          { pg with pin_count_ := pg.pin_count_ - 1, is_dirty_ := flag } hpg
          { s with pages_ := s.pages_.set f.toNat
                     { pg with pin_count_ := pg.pin_count_ - 1, is_dirty_ := flag },
                   replacer_ := r1 } rfl
        have hnot : Map.find s.replacer_.evictablePages f ≠ some true :=
          fun hev => hpin (hnev hev)
        refine ⟨f, pg, _, rfl, hpg, hframe, rfl, ?_, ?_, ?_⟩
        · show 0 ≤ pg.pin_count_ - 1
          omega
        · intro h0
          change pg.pin_count_ - 1 = 0 at h0
          rw [if_pos h0] at hr1
          have hinv1 := LRUKReplacer.Inv_SetEvictable s.replacer_ r1 f true hinv.replacer
            (Or.inr hhist) hr1
          rw [LRUKReplacer.SetEvictable_eq s.replacer_ f true hvalid, Option.some.injEq] at hr1
          have hev1 : r1.evictablePages = Map.assign s.replacer_.evictablePages f true := by
            rw [← hr1]
          have hsz1 : r1.replacer_size_ = s.replacer_.replacer_size_ := by rw [← hr1]
          refine ⟨?_, ?_⟩
          · show Map.find r1.evictablePages f = some true
            rw [hev1, Map.find_assign]; simp
          · show r1.Size = s.replacer_.Size + 1
            rw [LRUKReplacer.Size_exact r1 hinv1 (by rw [hsz1]; exact hrs),
              LRUKReplacer.Size_exact s.replacer_ hinv.replacer hrs, hev1]
            have := evictableCount_assign s.replacer_.evictablePages f true
              hinv.replacer.sortedEvictable
            simp only [hnot, if_false, if_true] at this
            omega
        · intro h0
          change 0 < pg.pin_count_ - 1 at h0
          have hne : ¬ (pg.pin_count_ - 1 = 0) := by omega
          rw [if_neg hne, Option.some.injEq] at hr1
          subst hr1
          exact ⟨hnot, rfl⟩

theorem unpin_to_zero_marks_evictable_witness :
    (statePinned.UnpinPgImp 0 false = some (true, stateUnpinned) ∧
      statePinned.replacer_.Size = 0 ∧ stateUnpinned.replacer_.Size = 1 ∧
      stateUnpinned.replacer_.IsEvictable 0) ∧
    (stateTwicePinned.UnpinPgImp 0 false = some (true,
        { stateTwicePinned with
          pages_ := [{ data_ := zeroData, page_id_ := 0, pin_count_ := 1,
                       is_dirty_ := false }] }) ∧
      stateTwicePinned.replacer_.Size = 0) ∧
    (∀ p f pg, Map.find statePinned.page_to_frame_ p = some f → statePinned.frame f = some pg →
      (statePinned.replacer_.IsEvictable f ↔ pg.pin_count_ = 0)) ∧
    (∀ p flag s1, statePinned.UnpinPgImp p flag = some (true, s1) →
      ∃ f pg pg1, Map.find statePinned.page_to_frame_ p = some f ∧
        statePinned.frame f = some pg ∧
        s1.frame f = some pg1 ∧ pg1.pin_count_ = pg.pin_count_ - 1 ∧ 0 ≤ pg1.pin_count_ ∧
        (pg1.pin_count_ = 0 →
          s1.replacer_.IsEvictable f ∧ s1.replacer_.Size = statePinned.replacer_.Size + 1) ∧
        (0 < pg1.pin_count_ →
          ¬ s1.replacer_.IsEvictable f ∧ s1.replacer_.Size = statePinned.replacer_.Size)) :=
  ⟨⟨rfl, rfl, rfl, by decide⟩, ⟨rfl, rfl⟩,
   unpin_to_zero_marks_evictable 1000 (by decide) 1 2 emptyDisk (by decide) statePinned
     statePinned_reachable⟩

/-! ## C12: `Size()` counts the evictable frames -/

/-- In an ordered map with keys in `[0, n)`, the entries that are `true` are
as many as the keys in `[0, n)` whose value is `true`. -/
theorem evictableCount_eq_countP (m : Map Bool) (n : Nat) (hs : Map.Sorted m)
    (hv : ∀ e ∈ m, 0 ≤ e.1 ∧ e.1 < (n : Int)) :
    evictableCount m =
      (List.range n).countP (fun i => decide (Map.find m (Int.ofNat i) = some true)) := by
  have hlen : evictableCount m =
      ((m.filter (fun e => e.2)).map (fun e => e.1.toNat)).length := by
    rw [List.length_map]; rfl
  rw [hlen, List.countP_eq_length_filter]
  apply List.Perm.length_eq
  apply (List.perm_ext_iff_of_nodup ?_ ?_).mpr
  · intro x
    simp only [List.mem_map, List.mem_filter, List.mem_range, decide_eq_true_eq]
    constructor
    · rintro ⟨e, ⟨he, h2⟩, hx⟩
      obtain ⟨h0, h1⟩ := hv e he
      have hex : e.1 = Int.ofNat x := by
        show e.1 = (x : Int)
        omega
      refine ⟨by omega, ?_⟩
      rw [← hex]
      have := Map.mem_find_of_sorted m hs e.1 e.2 he
      rw [this, h2]
    · rintro ⟨_, hf⟩
      refine ⟨(Int.ofNat x, true), ⟨Map.find_some_mem m _ _ hf, rfl⟩, ?_⟩
      simp
  · rw [List.Nodup, List.pairwise_map]
    refine List.Pairwise.imp_of_mem ?_ (List.Pairwise.filter _ hs)
    intro a b ha hb hab
    have h1 := hv a (List.mem_of_mem_filter ha)
    have h2 := hv b (List.mem_of_mem_filter hb)
    omega
  · exact List.Nodup.filter _ (List.nodup_range n)

theorem LRUKReplacer.evictableFrames_eq (r : LRUKReplacer) (hinv : r.Inv) :
    r.evictableFrames = evictableCount r.evictablePages := by
  symm
  refine evictableCount_eq_countP r.evictablePages r.replacer_size_ hinv.sortedEvictable ?_
  intro e he
  have hf := Map.mem_find_of_sorted _ hinv.sortedEvictable e.1 e.2 he
  exact hinv.validEvictable e.1 (by simp [hf])

/-- C12. After every sequence of `RecordAccess`, `SetEvictable`, `Evict` and
`Remove` calls on a fresh replacer for `N < 2 ^ 64` frames in which every call
returns and `SetEvictable` is only called on a frame that has an access
history, `Size()` is the number of frames `f` in `[0, N)` with
`evictable[f] = true`, and no frame outside `[0, N)` is flagged evictable. -/
theorem Size_counts_evictable_frames (inf : Int) (hinf : 0 ≤ inf) (N k : Nat)
    (hN : N < SIZE_MOD) (r : LRUKReplacer) (hreach : LRUKReplacer.Reachable inf N k r) :
    r.Size = (List.range N).countP (fun i => decide (r.IsEvictable (Int.ofNat i))) ∧
    ∀ f, r.IsEvictable f → 0 ≤ f ∧ f < (N : Int) := by
  obtain ⟨hinv, hsize, _⟩ := LRUKReplacer.wf_of_Reachable inf hinf N k r hreach
  refine ⟨?_, ?_⟩
  · rw [LRUKReplacer.Size_exact r hinv (by rw [hsize]; exact hN),
      ← LRUKReplacer.evictableFrames_eq r hinv, LRUKReplacer.evictableFrames, hsize]
  · intro f hf
    have := hinv.validEvictable f (by rw [hf]; rfl)
    rw [hsize] at this
    exact this

theorem Size_counts_evictable_frames_witness :
    stateS5.Size = 5 ∧
    (stateS5.Size =
        (List.range 7).countP (fun i => decide (stateS5.IsEvictable (Int.ofNat i))) ∧
      ∀ f, stateS5.IsEvictable f → 0 ≤ f ∧ f < ((7 : Nat) : Int)) :=
  ⟨rfl, Size_counts_evictable_frames 1000 (by decide) 7 2 (by decide) stateS5
    ⟨scenarioS5, by decide⟩⟩

/-! ## C13: `RecordAccess` -/

theorem lastN_append (k : Nat) (hk : 1 ≤ k) (l : List Nat) (now : Nat) :
    lastN k (l ++ [now]) =
      (if (lastN k l).length = k then (lastN k l).tail else lastN k l) ++ [now] := by
  unfold lastN
  rw [List.length_append, List.length_singleton, List.length_drop]
  by_cases h : l.length < k
  · have h1 : l.length - k = 0 := by omega
    have h2 : l.length + 1 - k = 0 := by omega
    have h3 : ¬ (l.length - (l.length - k) = k) := by omega
    rw [if_neg h3, h1, h2]
    rfl
  · have h3 : l.length - (l.length - k) = k := by omega
    rw [if_pos h3, List.tail_drop, List.drop_append_of_le_length (by omega)]
    have h4 : l.length + 1 - k = l.length - k + 1 := by omega
    rw [h4]

theorem lastN_length (k : Nat) (l : List Nat) : (lastN k l).length = min k l.length := by
  unfold lastN
  rw [List.length_drop]
  omega

theorem LRUKReplacer.runLogged_run (inf : Int) (ops : List ReplacerOp) :
    ∀ (r r1 : LRUKReplacer) (log log1 : Map (List Nat)),
      LRUKReplacer.runLogged inf ops r log = some (r1, log1) →
      LRUKReplacer.run inf ops r = some r1 := by
  induction ops with
  | nil =>
    intro r r1 log log1 h
    simp only [LRUKReplacer.runLogged, Option.some.injEq, Prod.mk.injEq] at h
    simp only [LRUKReplacer.run, h.1]
  | cons op rest ih =>
    intro r r1 log log1 h
    simp only [LRUKReplacer.runLogged] at h
    simp only [LRUKReplacer.run]
    split_ifs at h ⊢ with hadm
    cases hstep : r.step inf op with
    | none => rw [hstep] at h; simp at h
    | some r2 =>
      rw [hstep] at h
      exact ih r2 r1 _ log1 h

/-- Every state the replacer reaches within the stated preconditions is
reached with some access log. -/
theorem LRUKReplacer.run_runLogged (inf : Int) (ops : List ReplacerOp) :
    ∀ (r r1 : LRUKReplacer) (log : Map (List Nat)),
      LRUKReplacer.run inf ops r = some r1 →
      ∃ log1, LRUKReplacer.runLogged inf ops r log = some (r1, log1) := by
  induction ops with
  | nil =>
    intro r r1 log h
    simp only [LRUKReplacer.run, Option.some.injEq] at h
    exact ⟨log, by simp only [LRUKReplacer.runLogged, h]⟩
  | cons op rest ih =>
    intro r r1 log h
    simp only [LRUKReplacer.run] at h
    simp only [LRUKReplacer.runLogged]
    split_ifs at h ⊢ with hadm
    cases hstep : r.step inf op with
    | none => rw [hstep] at h; simp at h
    | some r2 =>
      rw [hstep] at h
      exact ih r2 r1 _ h

theorem LRUKReplacer.Logged_step (inf : Int) (hinf : 0 ≤ inf) (r r1 : LRUKReplacer)
    (log : Map (List Nat)) (op : ReplacerOp) (hinv : r.Inv) (hk : 1 ≤ r.k_)
    (hl : r.Logged log) (h : r.step inf op = some r1) : r1.Logged (r.logStep inf log op) := by
  cases op with
  | RecordAccess f =>
    simp only [LRUKReplacer.step] at h
    have hv : validFrame r.replacer_size_ f := by
      by_contra hv
      simp [LRUKReplacer.RecordAccess, hv] at h
    rw [LRUKReplacer.RecordAccess_eq r f hinv hv, Option.some.injEq] at h
    subst h
    intro g
    simp only [LRUKReplacer.history, LRUKReplacer.logStep, accessesOf, Map.find_assign]
    by_cases hg : g = f
    · subst hg
      simp only [if_true, Option.getD_some]
      have hlg := hl g
      simp only [LRUKReplacer.history, accessesOf] at hlg
      rw [lastN_append r.k_ hk, ← hlg]
      cases hfind : Map.find r.accessHistory g with
      | none =>
        simp only [pushed, Option.getD_none, List.length_nil, List.tail_nil]
        have : ¬ (0 = r.k_) := by omega
        simp [this]
      | some q =>
        simp only [pushed, Option.getD_some]
        split_ifs <;> rfl
    · simp only [hg, if_false]
      exact hl g
  | SetEvictable f flag =>
    simp only [LRUKReplacer.step] at h
    have hv : validFrame r.replacer_size_ f := by
      by_contra hv
      simp [LRUKReplacer.SetEvictable, hv] at h
    rw [LRUKReplacer.SetEvictable_eq r f flag hv, Option.some.injEq] at h
    subst h
    exact hl
  | Evict =>
    simp only [LRUKReplacer.step, Option.map_eq_some'] at h
    obtain ⟨⟨res, r2⟩, h1, h2⟩ := h
    simp only at h2
    subst h2
    by_cases hsz : r.curr_size_ = 0
    · rw [LRUKReplacer.Evict_zero inf r hsz] at h1
      simp only [Option.some.injEq, Prod.mk.injEq] at h1
      rw [← h1.2]
      simp only [LRUKReplacer.logStep, LRUKReplacer.Evict_zero inf r hsz]
      exact hl
    · obtain ⟨v, r3, hev, _, _, hevd⟩ := LRUKReplacer.Evict_spec inf r hinv hinf hsz
      rw [hev] at h1
      simp only [Option.some.injEq, Prod.mk.injEq] at h1
      rw [← h1.2]
      simp only [LRUKReplacer.logStep, hev]
      intro g
      simp only [LRUKReplacer.history, accessesOf, hevd.hist g, hevd.k, Map.find_erase]
      by_cases hg : g = v
      · simp [hg, lastN]
      · simp only [hg, if_false]
        exact hl g
  | Remove f =>
    simp only [LRUKReplacer.step, LRUKReplacer.Remove] at h
    split_ifs at h
    simp only [LRUKReplacer.logStep, LRUKReplacer.IsEvictable]
    by_cases hev : Map.find r.evictablePages f = some true
    · rw [hev] at h
      simp only [Option.some.injEq] at h
      subst h
      rw [if_pos hev]
      intro g
      simp only [LRUKReplacer.history, accessesOf, LRUKReplacer.DeleteFrame, Map.find_erase]
      by_cases hg : g = f
      · simp [hg, lastN]
      · simp only [hg, if_false]
        exact hl g
    · rw [if_neg hev]
      have hsame : r1 = r := by
        cases hfind : Map.find r.evictablePages f with
        | none =>
          rw [hfind] at h
          simp only [Option.some.injEq] at h
          exact h.symm
        | some b =>
          cases b with
          | false => rw [hfind] at h; simp at h
          | true => exact absurd hfind hev
      rw [hsame]
      exact hl

theorem LRUKReplacer.Logged_run (inf : Int) (hinf : 0 ≤ inf) (ops : List ReplacerOp) :
    ∀ (r r1 : LRUKReplacer) (log log1 : Map (List Nat)), r.Inv → 1 ≤ r.k_ → r.Logged log →
      LRUKReplacer.runLogged inf ops r log = some (r1, log1) → r1.Logged log1 := by
  induction ops with
  | nil =>
    intro r r1 log log1 _ _ hl h
    simp only [LRUKReplacer.runLogged, Option.some.injEq, Prod.mk.injEq] at h
    rw [← h.1, ← h.2]
    exact hl
  | cons op rest ih =>
    intro r r1 log log1 hinv hk hl h
    simp only [LRUKReplacer.runLogged] at h
    split_ifs at h with hadm
    cases hstep : r.step inf op with
    | none => rw [hstep] at h; simp at h
    | some r2 =>
      rw [hstep] at h
      have hk2 := (LRUKReplacer.params_step inf r r2 op hstep).2
      exact ih r2 r1 _ log1 (LRUKReplacer.wf_step inf hinf r r2 op hinv hadm hstep)
        (by rw [hk2]; exact hk) (LRUKReplacer.Logged_step inf hinf r r2 log op hinv hk hl hstep) h
theorem LRUKReplacer.Logged_of_ReachableLogged (inf : Int) (hinf : 0 ≤ inf) (N k : Nat)
    (hk : 1 ≤ k) (r : LRUKReplacer) (log : Map (List Nat))
    (h : LRUKReplacer.ReachableLogged inf N k r log) :
    r.Inv ∧ r.replacer_size_ = N ∧ r.k_ = k ∧ r.Logged log := by
  obtain ⟨ops, hops⟩ := h
  obtain ⟨h1, h2, h3⟩ := LRUKReplacer.wf_run inf hinf ops _ r (LRUKReplacer.wf_create N k)
    (LRUKReplacer.runLogged_run inf ops _ r _ log hops)
  refine ⟨h1, h2, h3, ?_⟩
  refine LRUKReplacer.Logged_run inf hinf ops (LRUKReplacer.create N k) r [] log
    (LRUKReplacer.wf_create N k) hk ?_ hops
  intro f
  simp [LRUKReplacer.history, LRUKReplacer.create, accessesOf, Map.find, lastN]

/-- C13. Let `r` be a replacer state reached within the stated preconditions,
with `k ≥ 1`, and `log` the accesses made since each frame was last
untracked. Every history of `r` has at most `k` entries. For `0 ≤ f < N`,
`RecordAccess(f)` returns; it advances the clock by one, leaves `f` with a
history (created if there was none) that is the old one with the new clock
value appended, after dropping its oldest entry if it already held `k`; this
history is the most recent `min(k, number of logged accesses)` timestamps of
the accesses of `f`, the new one included, in increasing order; the histories
of the other frames, all evictable flags and `Size()` are unchanged. -/
theorem record_access_effect (inf : Int) (hinf : 0 ≤ inf) (N k : Nat) (hk : 1 ≤ k)
    (r : LRUKReplacer) (log : Map (List Nat))
    (hreach : LRUKReplacer.ReachableLogged inf N k r log) :
    (∀ g, (r.history g).length ≤ k) ∧
    ∀ f : frame_id_t, 0 ≤ f → f < (N : Int) →
      ∃ r1, r.RecordAccess f = some r1 ∧
        r1.current_timestamp_ = r.current_timestamp_ + 1 ∧
        Map.find r1.accessHistory f = some (r1.history f) ∧
        r1.history f =
          (if (r.history f).length < k then r.history f else (r.history f).tail) ++
            [r.current_timestamp_ + 1] ∧
        r1.history f = lastN k (accessesOf log f ++ [r.current_timestamp_ + 1]) ∧
        (r1.history f).length = min k ((accessesOf log f).length + 1) ∧
        List.Pairwise (fun a b => a < b) (r1.history f) ∧
        (∀ g, g ≠ f → Map.find r1.accessHistory g = Map.find r.accessHistory g) ∧
        r1.evictablePages = r.evictablePages ∧ r1.Size = r.Size := by
  obtain ⟨hinv, hsize, hkk, hl⟩ :=
    LRUKReplacer.Logged_of_ReachableLogged inf hinf N k hk r log hreach
  have hlen : ∀ g, (r.history g).length ≤ k := by
    intro g
    simp only [LRUKReplacer.history]
    cases hfind : Map.find r.accessHistory g with
    | none => simp
    | some q =>
      have := (hinv.stamps g q hfind).2.2.2 (by rw [hkk]; exact hk)
      rw [hkk] at this
      simpa using this
  refine ⟨hlen, ?_⟩
  intro f hf0 hfN
  have hv : validFrame r.replacer_size_ f := by
    rw [hsize]; exact ⟨hf0, hfN⟩
  have heq := LRUKReplacer.RecordAccess_eq r f hinv hv
  have hstep : r.step inf (ReplacerOp.RecordAccess f) = some
      { r with current_timestamp_ := r.current_timestamp_ + 1,
               accessHistory := Map.assign r.accessHistory f
                 (pushed r.k_ (Map.find r.accessHistory f) (r.current_timestamp_ + 1)) } := heq
  have hinv1 := LRUKReplacer.Inv_RecordAccess r _ f hinv heq
  have hl1 := LRUKReplacer.Logged_step inf hinf r _ log (ReplacerOp.RecordAccess f) hinv
    (by rw [hkk]; exact hk) hl hstep
  have hfind1 : Map.find (Map.assign r.accessHistory f
      (pushed r.k_ (Map.find r.accessHistory f) (r.current_timestamp_ + 1))) f =
      some (pushed r.k_ (Map.find r.accessHistory f) (r.current_timestamp_ + 1)) := by
    rw [Map.find_assign]; simp
  have hlog : LRUKReplacer.history
      { r with current_timestamp_ := r.current_timestamp_ + 1,
               accessHistory := Map.assign r.accessHistory f
                 (pushed r.k_ (Map.find r.accessHistory f) (r.current_timestamp_ + 1)) } f =
      lastN k (accessesOf log f ++ [r.current_timestamp_ + 1]) := by
    rw [hl1 f]
    simp only [LRUKReplacer.logStep, accessesOf, Map.find_assign, if_true, Option.getD_some, hkk]
  refine ⟨_, heq, rfl, ?_, ?_, hlog, ?_, ?_, ?_, rfl, rfl⟩
  · simp only [LRUKReplacer.history, hfind1, Option.getD_some]
  · simp only [LRUKReplacer.history, hfind1, Option.getD_some]
    cases hfind : Map.find r.accessHistory f with
    | none =>
      have : 0 < k := hk
      simp [pushed, this]
    | some q =>
      have hq := hlen f
      simp only [LRUKReplacer.history, hfind, Option.getD_some] at hq
      simp only [pushed, Option.getD_some, hkk]
      by_cases hqk : q.length = k
      · have : ¬ q.length < k := by omega
        simp only [hqk, if_true, lt_self_iff_false, if_false]
      · have : q.length < k := by omega
        simp only [hqk, if_false, this, if_true]
  · rw [hlog, lastN_length, List.length_append, List.length_singleton]
  · simp only [LRUKReplacer.history, hfind1, Option.getD_some]
    exact (hinv1.stamps f _ hfind1).2.1
  · intro g hg
    show Map.find (Map.assign r.accessHistory f _) g = _
    rw [Map.find_assign]; simp [hg]

theorem record_access_effect_witness :
    LRUKReplacer.runLogged 1000 opsAccesses (LRUKReplacer.create 7 2) [] =
      some (stateAccesses, [(1, [1, 2]), (2, [3])]) ∧
    stateAccesses.RecordAccess 1 = some
      { stateAccesses with accessHistory := [(1, [2, 4]), (2, [3])], current_timestamp_ := 4 } ∧
    ((∀ g, (stateAccesses.history g).length ≤ 2) ∧
    ∀ f : frame_id_t, 0 ≤ f → f < ((7 : Nat) : Int) →
      ∃ r1, stateAccesses.RecordAccess f = some r1 ∧
        r1.current_timestamp_ = stateAccesses.current_timestamp_ + 1 ∧
        Map.find r1.accessHistory f = some (r1.history f) ∧
        r1.history f =
          (if (stateAccesses.history f).length < 2 then stateAccesses.history f
           else (stateAccesses.history f).tail) ++ [stateAccesses.current_timestamp_ + 1] ∧
        r1.history f = lastN 2 (accessesOf [(1, [1, 2]), (2, [3])] f ++
          [stateAccesses.current_timestamp_ + 1]) ∧
        (r1.history f).length = min 2 ((accessesOf [(1, [1, 2]), (2, [3])] f).length + 1) ∧
        List.Pairwise (fun a b => a < b) (r1.history f) ∧
        (∀ g, g ≠ f → Map.find r1.accessHistory g = Map.find stateAccesses.accessHistory g) ∧
        r1.evictablePages = stateAccesses.evictablePages ∧ r1.Size = stateAccesses.Size) :=
  ⟨by decide, by decide,
   record_access_effect 1000 (by decide) 7 2 (by decide) stateAccesses [(1, [1, 2]), (2, [3])]
     ⟨opsAccesses, by decide⟩⟩

/-! ## C14: the checks made by the replacer -/

/-- C15. In every reachable state `flush_page(p)` returns. When `p` is not
in the page table it returns `false` and changes nothing. Otherwise, whatever
the pin count of the frame of `p`, it returns `true`; the disk manager has
received `WritePage(p, data)` for the data of the frame, so the disk stores
that data under `p`; the frame is clean and its data, page id and pin count
are what they were; and the other frames, the page table, the free list, the
replacer and the allocation counter are unchanged. -/
theorem flush_page_effect (inf : Int) (hinf : 0 ≤ inf) (n k : Nat) (dm : DiskManager)
    (s : BufferPoolManagerInstance) (hreach : Reachable inf n k dm s) (p : page_id_t) :
    ∃ res s1, s.FlushPgImp p = some (res, s1) ∧
      (Map.find s.page_to_frame_ p = none → res = false ∧ s1 = s) ∧
      (∀ f pg, Map.find s.page_to_frame_ p = some f → s.frame f = some pg →
        res = true ∧
        s1.disk_manager_ = s.disk_manager_.WritePage p pg.data_ ∧
        Map.find s1.disk_manager_.store p = some pg.data_ ∧
        s1.frame f = some { pg with is_dirty_ := false } ∧
        (∀ g, g ≠ f → s1.frame g = s.frame g) ∧
        s1.page_to_frame_ = s.page_to_frame_ ∧ s1.free_list_ = s.free_list_ ∧
        s1.replacer_ = s.replacer_ ∧ s1.next_page_id_ = s.next_page_id_) := by
  have hinv := Inv_of_Reachable inf hinf n k dm s hreach
  cases hp : Map.find s.page_to_frame_ p with
  | none =>
    refine ⟨false, s, ?_, fun _ => ⟨rfl, rfl⟩, fun f pg h => by simp at h⟩
    simp only [BufferPoolManagerInstance.FlushPgImp, hp]
  | some f =>
    obtain ⟨pg, hpg, h3⟩ := BufferPoolManagerInstance.FlushPgImp_spec s hinv p f hp
    refine ⟨true, _, h3, fun h => by simp at h, ?_⟩
    intro f1 pg1 hf1 hpg1
    simp only [Option.some.injEq] at hf1
    subst hf1
    rw [hpg, Option.some.injEq] at hpg1
    subst hpg1
    have hframe := BufferPoolManagerInstance.frame_set s
      { s with disk_manager_ := s.disk_manager_.WritePage p pg.data_,
               pages_ := s.pages_.set f.toNat { pg with is_dirty_ := false } }
      f { pg with is_dirty_ := false } (by rw [hpg]; rfl) rfl
    refine ⟨rfl, rfl, ?_, ?_, ?_, rfl, rfl, rfl, rfl⟩
    · show Map.find (Map.assign s.disk_manager_.store p pg.data_) p = some pg.data_
      rw [Map.find_assign]; simp
    · rw [hframe]; simp
    · intro g hg
      rw [hframe]; simp [hg]

theorem flush_page_effect_witness :
    stateS3.FlushPgImp 0 = some (true,
      { stateS3 with
        pages_ := [{ data_ := bytes 7, page_id_ := 0, pin_count_ := 0, is_dirty_ := false }],
        disk_manager_ := { store := [(0, bytes 7)], log := [DiskOp.WritePage 0 (bytes 7)] } }) ∧
    stateS3.FlushPgImp 5 = some (false, stateS3) ∧
    (∃ s1, statePinned.FlushPgImp 0 = some (true, s1) ∧ s1.frame 0 = statePinned.frame 0) ∧
    ∃ res s1, stateS3.FlushPgImp 0 = some (res, s1) ∧
      (Map.find stateS3.page_to_frame_ 0 = none → res = false ∧ s1 = stateS3) ∧
      (∀ f pg, Map.find stateS3.page_to_frame_ 0 = some f → stateS3.frame f = some pg →
        res = true ∧
        s1.disk_manager_ = stateS3.disk_manager_.WritePage 0 pg.data_ ∧
        Map.find s1.disk_manager_.store 0 = some pg.data_ ∧
        s1.frame f = some { pg with is_dirty_ := false } ∧
        (∀ g, g ≠ f → s1.frame g = stateS3.frame g) ∧
        s1.page_to_frame_ = stateS3.page_to_frame_ ∧ s1.free_list_ = stateS3.free_list_ ∧
        s1.replacer_ = stateS3.replacer_ ∧ s1.next_page_id_ = stateS3.next_page_id_) :=
  ⟨rfl, rfl, ⟨_, rfl, rfl⟩,
   flush_page_effect 1000 (by decide) 1 1 emptyDisk stateS3 ⟨opsS3, rfl⟩ 0⟩

/-! ## C16: `k = 1` is LRU -/

/-- C17. In every state reachable from a fresh pool, every page-table entry
`p ↦ f` points to a frame of the pool that holds page id `p`; no two page ids
are mapped to the same frame; no frame of the page table is in the free list;
and no page id has two entries. -/
theorem page_table_one_to_one (inf : Int) (hinf : 0 ≤ inf) (n k : Nat) (dm : DiskManager)
    (s : BufferPoolManagerInstance) (hreach : Reachable inf n k dm s) :
    (∀ p f, Map.find s.page_to_frame_ p = some f →
      ∃ pg, s.frame f = some pg ∧ pg.page_id_ = p) ∧
    (∀ p q f, Map.find s.page_to_frame_ p = some f → Map.find s.page_to_frame_ q = some f →
      p = q) ∧
    (∀ p f, Map.find s.page_to_frame_ p = some f → f ∉ s.free_list_) ∧
    (Map.keys s.page_to_frame_).Nodup ∧
    (∀ e ∈ s.page_to_frame_, Map.find s.page_to_frame_ e.1 = some e.2) := by
  have hinv := Inv_of_Reachable inf hinf n k dm s hreach
  refine ⟨?_, ?_, ?_, ?_, ?_⟩
  · intro p f hp
    obtain ⟨_, _, pg, hpg, hid⟩ := hinv.table p f hp
    exact ⟨pg, hpg, hid⟩
  · intro p q f hp hq
    obtain ⟨_, _, pg, hpg, hid⟩ := hinv.table p f hp
    obtain ⟨_, _, pg1, hpg1, hid1⟩ := hinv.table q f hq
    rw [hpg, Option.some.injEq] at hpg1
    rw [← hid, ← hid1, hpg1]
  · intro p f hp
    exact BufferPoolManagerInstance.not_free_of_table s hinv p f hp
  · have hs := hinv.tableSorted
    unfold Map.Sorted at hs
    rw [Map.keys, List.Nodup, List.pairwise_map]
    exact hs.imp (fun h => ne_of_lt h)
  · intro e he
    exact Map.mem_find_of_sorted _ hinv.tableSorted e.1 e.2 he

theorem page_table_one_to_one_witness :
    BufferPoolManagerInstance.run 1000 [Op.FetchPage 0, Op.NewPage]
      (BufferPoolManagerInstance.create 2 emptyDisk 2) = some stateDuplicate ∧
    ((∀ p f, Map.find stateDuplicate.page_to_frame_ p = some f →
      ∃ pg, stateDuplicate.frame f = some pg ∧ pg.page_id_ = p) ∧
    (∀ p q f, Map.find stateDuplicate.page_to_frame_ p = some f →
      Map.find stateDuplicate.page_to_frame_ q = some f → p = q) ∧
    (∀ p f, Map.find stateDuplicate.page_to_frame_ p = some f →
      f ∉ stateDuplicate.free_list_) ∧
    (Map.keys stateDuplicate.page_to_frame_).Nodup ∧
    (∀ e ∈ stateDuplicate.page_to_frame_,
      Map.find stateDuplicate.page_to_frame_ e.1 = some e.2)) :=
  ⟨rfl, page_table_one_to_one 1000 (by decide) 2 2 emptyDisk stateDuplicate
    ⟨[Op.FetchPage 0, Op.NewPage], rfl⟩⟩

/-! ## C18: the effect of `Evict` -/

theorem sizeDec_pred (c : Nat) (h0 : c ≠ 0) (h1 : c < SIZE_MOD) : sizeDec c + 1 = c := by
  unfold sizeDec
  have h2 : c + (SIZE_MOD - 1) = (c - 1) + SIZE_MOD := by
    unfold SIZE_MOD at h1 ⊢
    omega
  rw [h2, Nat.add_mod_right, Nat.mod_eq_of_lt (by omega)]
  omega

/-- C18 fails for frames without an `evictablePages` entry. In a replacer
state reached within the stated preconditions, `Evict` returns `none` and
changes nothing when `Size()` is 0; otherwise it returns an evictable frame
`v`, removes the history and the `evictablePages` entry of `v`, lowers
`Size()` by exactly one, and leaves the clock, the histories of the other
frames and their existing `evictablePages` entries as they were. But a frame
`g ≠ v` that has a history and no `evictablePages` entry gets the entry
`false`: `Remove(g)`, which returned without a change before the call, does
not return after it. -/
theorem Evict_adds_entries (inf : Int) (hinf : 0 ≤ inf) (N k : Nat) (r : LRUKReplacer)
    (hreach : LRUKReplacer.Reachable inf N k r) :
    (r.Size = 0 → r.Evict inf = some (none, r)) ∧
    (r.Size ≠ 0 → ∃ v r1, r.Evict inf = some (some v, r1) ∧ r.IsEvictable v ∧
      Map.find r1.accessHistory v = none ∧ Map.find r1.evictablePages v = none ∧
      r1.Size + 1 = r.Size ∧ r1.current_timestamp_ = r.current_timestamp_ ∧
      (∀ g, g ≠ v → Map.find r1.accessHistory g = Map.find r.accessHistory g) ∧
      (∀ g, g ≠ v → (Map.find r.evictablePages g).isSome →
        Map.find r1.evictablePages g = Map.find r.evictablePages g) ∧
      (∀ g, g ≠ v → Map.find r.evictablePages g = none →
        Map.find r.accessHistory g = none → Map.find r1.evictablePages g = none) ∧
      (∀ g, g ≠ v → Map.find r.evictablePages g = none →
        (Map.find r.accessHistory g).isSome →
        Map.find r1.evictablePages g = some false ∧
        r.Remove g = some r ∧ r1.Remove g = none)) := by
  obtain ⟨hinv, hsize, _⟩ := LRUKReplacer.wf_of_Reachable inf hinf N k r hreach
  refine ⟨fun h0 => LRUKReplacer.Evict_zero inf r h0, ?_⟩
  intro hsz
  obtain ⟨v, r1, hev, hv, _, hevd⟩ := LRUKReplacer.Evict_spec inf r hinv hinf hsz
  refine ⟨v, r1, hev, hv, ?_, ?_, ?_, hevd.clock, ?_, ?_, ?_, ?_⟩
  · rw [hevd.hist v]; simp
  · rw [hevd.ev v]; simp
  · show r1.curr_size_ + 1 = r.curr_size_
    rw [hevd.curr]
    refine sizeDec_pred r.curr_size_ hsz ?_
    rw [hinv.size]
    exact Nat.mod_lt _ (by decide)
  · intro g hg
    rw [hevd.hist g, if_neg hg]
  · intro g hg hsome
    obtain ⟨b, hb⟩ := Option.isSome_iff_exists.mp hsome
    rw [hevd.ev g, if_neg hg, hb]
  · intro g hg hnone hno
    rw [hevd.ev g, if_neg hg, hnone, hno]
    rfl
  · intro g hg hnone hsome
    have hvalid : validFrame r.replacer_size_ g := hinv.validHistory g hsome
    have hvalid1 : validFrame r1.replacer_size_ g := by rw [hevd.size]; exact hvalid
    have hfalse : Map.find r1.evictablePages g = some false := by
      rw [hevd.ev g, if_neg hg, hnone]
      simp [hsome]
    refine ⟨hfalse, ?_, ?_⟩
    · simp [LRUKReplacer.Remove, hvalid, hnone]
    · simp [LRUKReplacer.Remove, hvalid1, hfalse]

theorem Evict_adds_entries_witness :
    LRUKReplacer.run 1000 opsScan (LRUKReplacer.create 2 2) = some stateScan ∧
    stateScan.Remove 0 = some stateScan ∧
    stateScan.Evict 1000 = some (some 1, stateScanned) ∧
    Map.find stateScan.evictablePages 0 = none ∧
    Map.find stateScanned.evictablePages 0 = some false ∧
    stateScanned.Remove 0 = none ∧
    ((stateScan.Size = 0 → stateScan.Evict 1000 = some (none, stateScan)) ∧
    (stateScan.Size ≠ 0 → ∃ v r1, stateScan.Evict 1000 = some (some v, r1) ∧
      stateScan.IsEvictable v ∧
      Map.find r1.accessHistory v = none ∧ Map.find r1.evictablePages v = none ∧
      r1.Size + 1 = stateScan.Size ∧ r1.current_timestamp_ = stateScan.current_timestamp_ ∧
      (∀ g, g ≠ v → Map.find r1.accessHistory g = Map.find stateScan.accessHistory g) ∧
      (∀ g, g ≠ v → (Map.find stateScan.evictablePages g).isSome →
        Map.find r1.evictablePages g = Map.find stateScan.evictablePages g) ∧
      (∀ g, g ≠ v → Map.find stateScan.evictablePages g = none →
        Map.find stateScan.accessHistory g = none → Map.find r1.evictablePages g = none) ∧
      (∀ g, g ≠ v → Map.find stateScan.evictablePages g = none →
        (Map.find stateScan.accessHistory g).isSome →
        Map.find r1.evictablePages g = some false ∧
        stateScan.Remove g = some stateScan ∧ r1.Remove g = none))) :=
  ⟨by decide, by decide, by decide, by decide, by decide, by decide,
   Evict_adds_entries 1000 (by decide) 2 2 stateScan ⟨opsScan, by decide⟩⟩

/-! ## C19: timestamps are distinct, and `Evict` returns -/

theorem Acquired_history (inf : Int) (s s1 : BufferPoolManagerInstance) (st : Nat) (f : Int)
    (r2 : LRUKReplacer) (hacq : Acquired inf s st f s1) (ht : Touched s1.replacer_ f r2) :
    r2.current_timestamp_ = s.replacer_.current_timestamp_ + 1 ∧
    (s.free_list_ = [] → r2.history f = [s.replacer_.current_timestamp_ + 1]) ∧
    (s.free_list_ ≠ [] → s.free_list_.head? = some f ∧
      r2.history f = pushed s.replacer_.k_ (Map.find s.replacer_.accessHistory f)
        (s.replacer_.current_timestamp_ + 1)) := by
  have hself := ht.histSelf
  have hclock := ht.clock
  rcases hacq with ⟨_, rest, hfl, hs1⟩ | ⟨_, hfl, _, pg, r1, _, _, _, _, hevd, hs1⟩
  · subst hs1
    refine ⟨hclock, ?_, ?_⟩
    · intro h0
      rw [h0] at hfl
      simp at hfl
    · intro _
      refine ⟨by rw [hfl]; rfl, ?_⟩
      simp only [LRUKReplacer.history, hself, Option.getD_some]
  · subst hs1
    change r2.current_timestamp_ = r1.current_timestamp_ + 1 at hclock
    change Map.find r2.accessHistory f =
      some (pushed r1.k_ (Map.find r1.accessHistory f) (r1.current_timestamp_ + 1)) at hself
    rw [hevd.clock] at hclock hself
    refine ⟨hclock, ?_, fun h => absurd hfl h⟩
    intro _
    have hnone : Map.find r1.accessHistory f = none := by
      rw [hevd.hist f]; simp
    rw [hnone] at hself
    simp only [LRUKReplacer.history, hself, Option.getD_some, pushed]

/-- C20 fails for a frame that `delete_page` has put in the free list. In
every reachable state, when `new_page`, or `fetch_page` of a page that is not
resident, returns the frame `f`, the replacer's clock has advanced by one. If
the free list was empty, `f` is the victim of `Evict` and its history
afterwards is exactly the new clock value. If the free list was not empty,
`f` is its front and the history of `f` afterwards is the new clock value
pushed on the history `f` had before: the accesses to the page that
`delete_page` removed from `f` are carried over. -/
theorem reused_frame_history (inf : Int) (hinf : 0 ≤ inf) (n k : Nat) (dm : DiskManager)
    (s : BufferPoolManagerInstance) (hreach : Reachable inf n k dm s) :
    (∀ p f s1, s.NewPgImp inf = some (some (p, f), s1) →
      s1.replacer_.current_timestamp_ = s.replacer_.current_timestamp_ + 1 ∧
      (s.free_list_ = [] →
        s1.replacer_.history f = [s.replacer_.current_timestamp_ + 1]) ∧
      (s.free_list_ ≠ [] → s.free_list_.head? = some f ∧
        s1.replacer_.history f =
          pushed s.replacer_.k_ (Map.find s.replacer_.accessHistory f)
            (s.replacer_.current_timestamp_ + 1))) ∧
    (∀ p f s1, Map.find s.page_to_frame_ p = none →
      s.FetchPgImp inf p = some (some f, s1) →
      s1.replacer_.current_timestamp_ = s.replacer_.current_timestamp_ + 1 ∧
      (s.free_list_ = [] →
        s1.replacer_.history f = [s.replacer_.current_timestamp_ + 1]) ∧
      (s.free_list_ ≠ [] → s.free_list_.head? = some f ∧
        s1.replacer_.history f =
          pushed s.replacer_.k_ (Map.find s.replacer_.accessHistory f)
            (s.replacer_.current_timestamp_ + 1))) := by
  have hinv := Inv_of_Reachable inf hinf n k dm s hreach
  refine ⟨?_, ?_⟩
  · intro p f s1 h
    rcases BufferPoolManagerInstance.NewPgImp_spec inf s hinv hinf with
      ⟨_, _, h3⟩ | ⟨st, f0, s0, r2, hacq, ht, h3⟩
    · rw [h3] at h
      simp at h
    · rw [h3] at h
      simp only [Option.some.injEq, Prod.mk.injEq] at h
      obtain ⟨⟨_, hf⟩, hs1⟩ := h
      subst hf hs1
      exact Acquired_history inf s s0 st f0 r2 hacq ht
  · intro p f s1 hp h
    rcases BufferPoolManagerInstance.FetchPgImp_absent inf s hinv hinf p hp with
      ⟨_, _, h3⟩ | ⟨st, f0, s0, r2, hacq, ht, h3⟩
    · rw [h3] at h
      simp at h
    · rw [h3] at h
      simp only [Option.some.injEq, Prod.mk.injEq] at h
      obtain ⟨hf, hs1⟩ := h
      subst hf hs1
      exact Acquired_history inf s s0 st f0 r2 hacq ht

theorem reused_frame_history_witness :
    BufferPoolManagerInstance.run 1000 [Op.NewPage, Op.UnpinPage 0 false, Op.DeletePage 0]
      (BufferPoolManagerInstance.create 1 emptyDisk 2) = some stateDeleted ∧
    (∃ s1, stateDeleted.NewPgImp 1000 = some (some (1, 0), s1) ∧
      s1.replacer_.history 0 = [1, 2]) ∧
    (∃ s1, stateUnpinned.NewPgImp 1000 = some (some (1, 0), s1) ∧
      s1.replacer_.history 0 = [2]) ∧
    ((∀ p f s1, stateDeleted.NewPgImp 1000 = some (some (p, f), s1) →
      s1.replacer_.current_timestamp_ = stateDeleted.replacer_.current_timestamp_ + 1 ∧
      (stateDeleted.free_list_ = [] →
        s1.replacer_.history f = [stateDeleted.replacer_.current_timestamp_ + 1]) ∧
      (stateDeleted.free_list_ ≠ [] → stateDeleted.free_list_.head? = some f ∧
        s1.replacer_.history f =
          pushed stateDeleted.replacer_.k_ (Map.find stateDeleted.replacer_.accessHistory f)
            (stateDeleted.replacer_.current_timestamp_ + 1))) ∧
    (∀ p f s1, Map.find stateDeleted.page_to_frame_ p = none →
      stateDeleted.FetchPgImp 1000 p = some (some f, s1) →
      s1.replacer_.current_timestamp_ = stateDeleted.replacer_.current_timestamp_ + 1 ∧
      (stateDeleted.free_list_ = [] →
        s1.replacer_.history f = [stateDeleted.replacer_.current_timestamp_ + 1]) ∧
      (stateDeleted.free_list_ ≠ [] → stateDeleted.free_list_.head? = some f ∧
        s1.replacer_.history f =
          pushed stateDeleted.replacer_.k_ (Map.find stateDeleted.replacer_.accessHistory f)
            (stateDeleted.replacer_.current_timestamp_ + 1)))) :=
  ⟨rfl, ⟨_, rfl, rfl⟩, ⟨_, rfl, rfl⟩,
   reused_frame_history 1000 (by decide) 1 2 emptyDisk stateDeleted
     ⟨[Op.NewPage, Op.UnpinPage 0 false, Op.DeletePage 0], rfl⟩⟩

end bustub
